import Mathlib

/-!
# CuteLogger `RollingFileAppender`: period arithmetic, rollover and pruning

A shallow embedding of `src/RollingFileAppender.cpp`.

* Qt value types (`QDate`, `QTime`, `QDateTime`, `QString`, `QMap`) are modelled by the
  arithmetic Qt documents for them: a `QDate` is a Julian day number in the proleptic
  Gregorian calendar (no year 0), a `QTime` is a count of milliseconds since midnight and
  a `QDateTime` is a count of milliseconds since 1970-01-01T00:00:00.000.
* Timestamps are unbounded integers. The date-times come in two layers. `QDateTime` is
  the date-time of a process whose time zone never changes its offset from UTC: every date
  and time of day is valid there, `addDays` keeps the time of day, and elapsed time is
  wall-clock time. `Zoned.QDateTime` (section "Local time in a time zone") is the
  date-time of a zone with daylight-saving transitions, where a wall-clock time that a
  transition skips is an invalid date-time; the period arithmetic and the appender are
  transcribed over it a second time (`Zoned.computeRollOverDateTimeHelper`,
  `Zoned.rollOverCheck`), and `Zoned.helper_fixed` shows that the two layers agree in a
  zone without transitions.
* `QDateTime::currentDateTime()` is the parameter `now` of each member function: all reads
  of the clock inside one call see the same instant.
* `Q_ASSERT_X` follows the release build (the macro expands to nothing) and additionally
  records a failed assertion in the sticky flag `State.assertFailed`.
-/

namespace CuteLogger

/-! ## Qt strings -/

/-- A `QString`: a sequence of characters. -/
abbrev QString := List Char

/-- Text of a literal. -/
def qs (s : String) : QString := s.toList

/-- The single quote character, which delimits literal text in a Qt format. -/
def quoteChar : Char := Char.ofNat 39

/-! ## Qt calendar arithmetic (`qdatetime.cpp`) -/

def MSECS_PER_DAY : Int := 86400000

def MSECS_PER_HOUR : Int := 3600000

def MSECS_PER_MIN : Int := 60000

def SECS_PER_HOUR : Int := 3600

def SECS_PER_MIN : Int := 60

def JULIAN_DAY_FOR_EPOCH : Int := 2440588

/-- Remainder of C++ integer division, which truncates toward zero. -/
def cppMod (a b : Int) : Int := Int.tmod a b

/-- Qt `julianDayFromDate`: the Julian day of a calendar date (the divisions are floor
divisions, as in Qt). -/
def julianDayFromDate (year month day : Int) : Int :=
  let year := if year < 0 then year + 1 else year
  let a := (14 - month) / 12
  let y := year + 4800 - a
  let m := month + 12 * a - 3
  day + (153 * m + 2) / 5 + 365 * y + y / 4 - y / 100 + y / 400 - 32045

/-- Year, month and day of a date. -/
structure ParsedDate where
  year : Int
  month : Int
  day : Int
deriving DecidableEq

/-- Qt `getDateFromJulianDay`: the calendar date of a Julian day. -/
def getDateFromJulianDay (julianDay : Int) : ParsedDate :=
  let a := julianDay + 32044
  let b := (4 * a + 3) / 146097
  let c := a - (146097 * b) / 4
  let d := (4 * c + 3) / 1461
  let e := c - (1461 * d) / 4
  let m := (5 * e + 2) / 153
  let day := e - (153 * m + 2) / 5 + 1
  let month := m + 3 - 12 * (m / 10)
  let year := 100 * b + d - 4800 + m / 10
  let year := if year ≤ 0 then year - 1 else year
  { year := year, month := month, day := day }

/-- A valid `QDate`, held as its Julian day. -/
structure QDate where
  jd : Int
deriving DecidableEq

/-- A `QTime`, held as milliseconds since midnight; the null time is `-1`. -/
structure QTime where
  mds : Int
deriving DecidableEq

/-- A `QDateTime` of a process whose time zone has a fixed offset from UTC, held as the
wall-clock count of milliseconds since 1970-01-01T00:00:00.000 local time. Every such
date-time is valid; the date-time of a zone with transitions is `Zoned.QDateTime`. -/
structure QDateTime where
  msecs : Int
deriving DecidableEq

instance : LE QDateTime := ⟨fun a b => a.msecs ≤ b.msecs⟩

instance : LT QDateTime := ⟨fun a b => a.msecs < b.msecs⟩

instance (a b : QDateTime) : Decidable (a ≤ b) := inferInstanceAs (Decidable (a.msecs ≤ b.msecs))

instance (a b : QDateTime) : Decidable (a < b) := inferInstanceAs (Decidable (a.msecs < b.msecs))

/-- Qt `QDate::isLeapYear`. -/
def QDate.isLeapYear (y : Int) : Bool :=
  let y := if y < 1 then y + 1 else y
  (y % 4 == 0 && y % 100 != 0) || y % 400 == 0

/-- Number of days of a month of a year (`QDate::daysInMonth`). -/
def daysInMonthOf (y m : Int) : Int :=
  if m == 2 then (if QDate.isLeapYear y then 29 else 28)
  else if m == 4 || m == 6 || m == 9 || m == 11 then 30
  else 31

/-- Qt `QDate::isValid(y, m, d)`. -/
def QDate.isValidYMD (year month day : Int) : Bool :=
  if year == 0 then false
  else decide (0 < day) && decide (0 < month) && decide (month ≤ 12)
    && decide (day ≤ daysInMonthOf year month)

/-- The constructor `QDate(y, m, d)` on a valid triple. On an invalid triple Qt gives the
null date, which the model does not hold; `isValidYMD_year_month_one` shows that the one
constructor call of the appender always passes a valid triple. -/
def QDate.ofYMD (y m d : Int) : QDate := ⟨julianDayFromDate y m d⟩

/-- Qt `QDate::year`; there is no year 0. -/
def QDate.year (d : QDate) : Int := (getDateFromJulianDay d.jd).year

/-- Qt `QDate::month`. -/
def QDate.month (d : QDate) : Int := (getDateFromJulianDay d.jd).month

/-- Qt `QDate::day`. -/
def QDate.day (d : QDate) : Int := (getDateFromJulianDay d.jd).day

/-- Qt `QDate::dayOfWeek`: 1 = Monday, ..., 7 = Sunday. -/
def QDate.dayOfWeek (d : QDate) : Int :=
  if d.jd ≥ 0 then cppMod d.jd 7 + 1 else cppMod (d.jd + 1) 7 + 7

/-- Qt `QDate::addDays`. -/
def QDate.addDays (d : QDate) (ndays : Int) : QDate := ⟨d.jd + ndays⟩

/-- Qt `fixedDate`: the day is clipped to the length of the month. -/
def fixedDate (y m d : Int) : QDate :=
  QDate.ofYMD y m (min d (daysInMonthOf y m))

/-- Qt `QDate::addMonths`. Qt steps the month and year counters and then skips the
missing year 0; the model counts months on the astronomical year axis, which has a year
0, and converts back. -/
def QDate.addMonths (d : QDate) (nmonths : Int) : QDate :=
  let pd := getDateFromJulianDay d.jd
  let ay := if pd.year < 0 then pd.year + 1 else pd.year
  let total := ay * 12 + (pd.month - 1) + nmonths
  let ay2 := total / 12
  let y := if ay2 ≤ 0 then ay2 - 1 else ay2
  fixedDate y (total % 12 + 1) pd.day

/-- Qt `QTime::isValid`. -/
def QTime.isValid (t : QTime) : Bool := decide (-1 < t.mds) && decide (t.mds < MSECS_PER_DAY)

/-- Qt `QTime::isValid(h, m, s, ms)`. -/
def QTime.isValidHMS (h m s ms : Int) : Bool :=
  decide (0 ≤ h) && decide (h < 24) && decide (0 ≤ m) && decide (m < 60)
    && decide (0 ≤ s) && decide (s < 60) && decide (0 ≤ ms) && decide (ms < 1000)

/-- The constructor `QTime(h, m, s, ms)` (`QTime::setHMS`). -/
def QTime.ofHMS (h m s ms : Int) : QTime :=
  if QTime.isValidHMS h m s ms then ⟨(h * SECS_PER_HOUR + m * SECS_PER_MIN + s) * 1000 + ms⟩
  else ⟨-1⟩

/-- Qt `QTime::hour`, and likewise minute, second and millisecond below: `-1` for an
invalid time. -/
def QTime.hour (t : QTime) : Int := if t.isValid then t.mds / MSECS_PER_HOUR else -1

def QTime.minute (t : QTime) : Int :=
  if t.isValid then (t.mds % MSECS_PER_HOUR) / MSECS_PER_MIN else -1

def QTime.second (t : QTime) : Int := if t.isValid then (t.mds / 1000) % SECS_PER_MIN else -1

def QTime.msec (t : QTime) : Int := if t.isValid then t.mds % 1000 else -1

/-- The constructor `QDateTime(date, time)` in a zone of fixed offset, where every time of
every day exists (with transitions: `Zoned.QDateTime.ofDateTime`, whose result can be
invalid); an invalid time counts as midnight. -/
def QDateTime.ofDateTime (date : QDate) (time : QTime) : QDateTime :=
  ⟨(date.jd - JULIAN_DAY_FOR_EPOCH) * MSECS_PER_DAY + (if time.isValid then time.mds else 0)⟩

/-- Qt `QDateTime::date`. -/
def QDateTime.date (dt : QDateTime) : QDate := ⟨dt.msecs / MSECS_PER_DAY + JULIAN_DAY_FOR_EPOCH⟩

/-- Qt `QDateTime::time`. -/
def QDateTime.time (dt : QDateTime) : QTime := ⟨dt.msecs % MSECS_PER_DAY⟩

/-- Qt `QDateTime::addSecs` in a zone of fixed offset, where elapsed seconds are seconds
on the wall clock (with transitions: `Zoned.QDateTime.addSecs`). -/
def QDateTime.addSecs (dt : QDateTime) (s : Int) : QDateTime := ⟨dt.msecs + s * 1000⟩

/-- Qt `QDateTime::addDays` in a zone of fixed offset: the date moves, the time of day
stays (with transitions: `Zoned.QDateTime.addDays`, which moves a result that a
transition skips to a valid time). -/
def QDateTime.addDays (dt : QDateTime) (ndays : Int) : QDateTime :=
  QDateTime.ofDateTime (dt.date.addDays ndays) dt.time

/-- Qt `QDateTime::addMonths` in a zone of fixed offset: the date moves, the time of day
stays (with transitions: `Zoned.QDateTime.addMonths`). -/
def QDateTime.addMonths (dt : QDateTime) (nmonths : Int) : QDateTime :=
  QDateTime.ofDateTime (dt.date.addMonths nmonths) dt.time

/-! ## The appender: rotation frequency and period boundaries -/

/-- Modelled from the spec: the enumeration `RollingFileAppender::DatePattern` of
`RollingFileAppender.h` (the RotationFrequency of the data model), in declaration
order. -/
inductive DatePattern where
  | MinutelyRollover
  | HourlyRollover
  | HalfDailyRollover
  | DailyRollover
  | WeeklyRollover
  | MonthlyRollover
deriving DecidableEq

open DatePattern

/-- Qt `Qt::Sunday`. -/
def Qt.Sunday : Int := 7

/-- Source function `RollingFileAppender::computeRollOverDateTimeHelper`, with
`m_frequency` as first argument. The `default:` branch of the switch is outside the
enumeration. -/
def computeRollOverDateTimeHelper (m_frequency : DatePattern) (dt : QDateTime) (bNext : Bool) :
    QDateTime :=
  let rcDate := dt.date
  let rcTime := dt.time
  match m_frequency with
  | MinutelyRollover =>
    let rc := QDateTime.ofDateTime rcDate (QTime.ofHMS rcTime.hour rcTime.minute 0 0)
    if bNext then rc.addSecs 60 else rc
  | HourlyRollover =>
    let rc := QDateTime.ofDateTime rcDate (QTime.ofHMS rcTime.hour 0 0 0)
    if bNext then rc.addSecs (60 * 60) else rc
  | HalfDailyRollover =>
    let hour := rcTime.hour
    let hour := if hour ≥ 12 then 12 else 0
    let rc := QDateTime.ofDateTime rcDate (QTime.ofHMS hour 0 0 0)
    if bNext then rc.addSecs (60 * 60 * 12) else rc
  | DailyRollover =>
    let rc := QDateTime.ofDateTime rcDate (QTime.ofHMS 0 0 0 0)
    if bNext then rc.addDays 1 else rc
  | WeeklyRollover =>
    let day := rcDate.dayOfWeek
    let day := if day == Qt.Sunday then 0 else day
    let rc := (QDateTime.ofDateTime rcDate (QTime.ofHMS 0 0 0 0)).addDays (-1 * day)
    if bNext then rc.addDays 7 else rc
  | MonthlyRollover =>
    let rc := QDateTime.ofDateTime (QDate.ofYMD rcDate.year rcDate.month 1) (QTime.ofHMS 0 0 0 0)
    if bNext then rc.addMonths 1 else rc

/-! ## Qt date-time formatting (`QLocale::dateTimeToString`, English texts) -/

/-- Qt `qt_repeatCount`: the length of the run of the first character. -/
def qt_repeatCount : QString → Nat
  | [] => 0
  | c :: rest => 1 + (rest.takeWhile (fun x => x == c)).length

/-- Qt `qt_readEscapedFormatString`, called on the text after an opening quote: the
literal text and the format that remains after the closing quote. Two quotes in a row
stand for one quote character. -/
def qt_readQuoted : QString → QString × QString
  | [] => ([], [])
  | [c] => if c == quoteChar then ([], []) else ([c], [])
  | c :: c2 :: rest =>
    if c == quoteChar then
      if c2 == quoteChar then (quoteChar :: (qt_readQuoted rest).1, (qt_readQuoted rest).2)
      else ([], c2 :: rest)
    else (c :: (qt_readQuoted (c2 :: rest)).1, (qt_readQuoted (c2 :: rest)).2)

/-- Qt `qt_readEscapedFormatString` on the text after the opening quote. -/
def qt_readEscapedFormatString (afterQuote : QString) : QString × QString :=
  match afterQuote with
  | [] => ([], [])
  | c :: rest => if c == quoteChar then ([quoteChar], rest) else qt_readQuoted (c :: rest)

/-- Qt `timeFormatContainsAP`: an `a` or `A` outside quoted text. -/
def timeFormatContainsAP : Nat → QString → Bool
  | 0, _ => false
  | _, [] => false
  | fuel + 1, c :: rest =>
    if c == quoteChar then timeFormatContainsAP fuel (qt_readEscapedFormatString rest).2
    else if c == 'a' || c == 'A' then true
    else timeFormatContainsAP fuel rest

/-- Decimal text of a number, zero padded to `width` characters, the sign included
(`QLocaleData::longLongToString` with `ZeroPadded`). -/
def longLongToString (n : Int) (width : Nat) : QString :=
  if n < 0 then '-' :: List.leftpad (width - 1) '0' (Nat.toDigits 10 n.natAbs)
  else List.leftpad width '0' (Nat.toDigits 10 n.natAbs)

def shortMonthName (m : Int) : QString :=
  match m with
  | 1 => qs "Jan" | 2 => qs "Feb" | 3 => qs "Mar" | 4 => qs "Apr" | 5 => qs "May"
  | 6 => qs "Jun" | 7 => qs "Jul" | 8 => qs "Aug" | 9 => qs "Sep" | 10 => qs "Oct"
  | 11 => qs "Nov" | 12 => qs "Dec" | _ => []

def longMonthName (m : Int) : QString :=
  match m with
  | 1 => qs "January" | 2 => qs "February" | 3 => qs "March" | 4 => qs "April"
  | 5 => qs "May" | 6 => qs "June" | 7 => qs "July" | 8 => qs "August"
  | 9 => qs "September" | 10 => qs "October" | 11 => qs "November" | 12 => qs "December"
  | _ => []

def shortDayName (d : Int) : QString :=
  match d with
  | 1 => qs "Mon" | 2 => qs "Tue" | 3 => qs "Wed" | 4 => qs "Thu" | 5 => qs "Fri"
  | 6 => qs "Sat" | 7 => qs "Sun" | _ => []

def longDayName (d : Int) : QString :=
  match d with
  | 1 => qs "Monday" | 2 => qs "Tuesday" | 3 => qs "Wednesday" | 4 => qs "Thursday"
  | 5 => qs "Friday" | 6 => qs "Saturday" | 7 => qs "Sunday" | _ => []

/-- Abbreviation of the one time zone of the model, printed for `t`. -/
def timeZoneAbbreviation : QString := qs "UTC"

/-- One step of the loop of `QLocale::dateTimeToString` at an unquoted character `c` that
starts a run of `rep` equal characters and is followed by `next`: the text appended and
the number of format characters consumed. The letters `y M d h H m s a A z t` are the
only ones Qt expands; any other character is copied. -/
def formatSection (hasAP : Bool) (dt : QDateTime) (c : Char) (rep : Nat) (next : Option Char) :
    QString × Nat :=
  let date := dt.date
  let time := dt.time
  if c == 'y' then
    if rep ≥ 4 then (longLongToString date.year (if date.year < 0 then 5 else 4), 4)
    else if rep ≥ 2 then (longLongToString (cppMod date.year 100) 2, 2)
    else ([c], 1)
  else if c == 'M' then
    match min rep 4 with
    | 1 => (longLongToString date.month 0, 1)
    | 2 => (longLongToString date.month 2, 2)
    | 3 => (shortMonthName date.month, 3)
    | _ => (longMonthName date.month, 4)
  else if c == 'd' then
    match min rep 4 with
    | 1 => (longLongToString date.day 0, 1)
    | 2 => (longLongToString date.day 2, 2)
    | 3 => (shortDayName date.dayOfWeek, 3)
    | _ => (longDayName date.dayOfWeek, 4)
  else if c == 'h' then
    let hour := time.hour
    let hour := if hasAP then (if hour > 12 then hour - 12 else if hour == 0 then 12 else hour)
      else hour
    if min rep 2 == 1 then (longLongToString hour 0, 1) else (longLongToString hour 2, 2)
  else if c == 'H' then
    if min rep 2 == 1 then (longLongToString time.hour 0, 1)
    else (longLongToString time.hour 2, 2)
  else if c == 'm' then
    if min rep 2 == 1 then (longLongToString time.minute 0, 1)
    else (longLongToString time.minute 2, 2)
  else if c == 's' then
    if min rep 2 == 1 then (longLongToString time.second 0, 1)
    else (longLongToString time.second 2, 2)
  else if c == 'a' then
    (if time.hour < 12 then qs "am" else qs "pm", if next == some 'p' then 2 else 1)
  else if c == 'A' then
    (if time.hour < 12 then qs "AM" else qs "PM", if next == some 'P' then 2 else 1)
  else if c == 'z' then
    if rep ≥ 3 then (longLongToString time.msec 3, 3) else (longLongToString time.msec 0, 1)
  else if c == 't' then (timeZoneAbbreviation, 1)
  else (List.replicate rep c, rep)

/-- The loop of `QLocale::dateTimeToString`; `fuel` bounds the number of steps, each of
which consumes at least one format character. -/
def dateTimeToString (hasAP : Bool) (dt : QDateTime) : Nat → QString → QString
  | 0, _ => []
  | _, [] => []
  | fuel + 1, c :: rest =>
    if c == quoteChar then
      (qt_readEscapedFormatString rest).1
        ++ dateTimeToString hasAP dt fuel (qt_readEscapedFormatString rest).2
    else
      let sec := formatSection hasAP dt c (qt_repeatCount (c :: rest)) rest.head?
      sec.1 ++ dateTimeToString hasAP dt fuel ((c :: rest).drop sec.2)

/-- Qt `QDateTime::toString(const QString& format)`. -/
def QDateTime.toString (dt : QDateTime) (format : QString) : QString :=
  dateTimeToString (timeFormatContainsAP format.length format) dt format.length format

/-! ## Qt date-time parsing (`QDateTime::fromString(string, format)`)

The model covers literal and quoted text, the numeric fields `yyyy yy M MM d dd h hh H HH
m mm s ss z zzz`, month names `MMM MMMM` and the am/pm marker. A field of fixed width
takes exactly that many digits, a field of width one takes up to two digits (three for
`z`). Day names (`ddd`, `dddd`) are not parsed: a format that has one parses nothing. -/

/-- Fields read so far. -/
structure ParsedFields where
  year : Option Int
  month : Option Int
  day : Option Int
  hour : Option Int
  minute : Option Int
  second : Option Int
  msec : Option Int
  pm : Option Bool
deriving DecidableEq

def ParsedFields.empty : ParsedFields :=
  { year := none, month := none, day := none, hour := none, minute := none, second := none,
    msec := none, pm := none }

/-- Value of a run of decimal digits. -/
def digitsValue (ds : QString) : Int :=
  ds.foldl (fun acc c => acc * 10 + ((c.toNat : Int) - 48)) 0

/-- Reads a number of exactly `width` digits. -/
def readFixed (width : Nat) (s : QString) : Option (Int × QString) :=
  let ds := s.take width
  if ds.length == width && ds.all Char.isDigit then some (digitsValue ds, s.drop width) else none

/-- Reads a number of at most `maxWidth` digits that does not exceed `absMax`, trying the
longest run first. -/
def readUpTo : Nat → Int → QString → Option (Int × QString)
  | 0, _, _ => none
  | w + 1, absMax, s =>
    let ds := s.take (w + 1)
    if ds.length == w + 1 && ds.all Char.isDigit && decide (digitsValue ds ≤ absMax) then
      some (digitsValue ds, s.drop (w + 1))
    else readUpTo w absMax s

/-- Reads one of the names of a table; the value is the position in the table, from 1. -/
def readName (names : List QString) (s : QString) : Option (Int × QString) :=
  match (List.range names.length).find? (fun i => (names.getD i []).isPrefixOf s) with
  | some i => some ((i : Int) + 1, s.drop (names.getD i []).length)
  | none => none

/-- Stores a field; a second value for a field has to agree with the first. -/
def setField (old : Option Int) (v : Int) : Option (Option Int) :=
  match old with
  | none => some (some v)
  | some w => if w == v then some (some v) else none

/-- One numeric field of the format, read from the input and stored. -/
def parseNumber (f : ParsedFields) (c : Char) (r : Option (Int × QString)) (base : Int) :
    Option (ParsedFields × QString) :=
  match r with
  | none => none
  | some (v, rest) =>
    let v := v + base
    if c == 'y' then (setField f.year v).map (fun x => ({ f with year := x }, rest))
    else if c == 'M' then (setField f.month v).map (fun x => ({ f with month := x }, rest))
    else if c == 'd' then (setField f.day v).map (fun x => ({ f with day := x }, rest))
    else if c == 'h' || c == 'H' then
      (setField f.hour v).map (fun x => ({ f with hour := x }, rest))
    else if c == 'm' then (setField f.minute v).map (fun x => ({ f with minute := x }, rest))
    else if c == 's' then (setField f.second v).map (fun x => ({ f with second := x }, rest))
    else (setField f.msec v).map (fun x => ({ f with msec := x }, rest))

/-- One section of the format at an unquoted character `c` that starts a run of `rep`
equal characters: the fields after reading it, the input that remains and the number of
format characters consumed. -/
def parseSection (f : ParsedFields) (c : Char) (rep : Nat) (next : Option Char) (s : QString) :
    Option (ParsedFields × QString × Nat) :=
  if c == 'y' && rep ≥ 4 then (parseNumber f c (readFixed 4 s) 0).map (fun r => (r.1, r.2, 4))
  else if c == 'y' && rep ≥ 2 then
    (parseNumber f c (readFixed 2 s) 1900).map (fun r => (r.1, r.2, 2))
  else if c == 'M' && rep ≥ 4 then
    (parseNumber f c (readName ((List.range 12).map (fun i => longMonthName (i + 1))) s) 0).map
      (fun r => (r.1, r.2, 4))
  else if c == 'M' && rep == 3 then
    (parseNumber f c (readName ((List.range 12).map (fun i => shortMonthName (i + 1))) s) 0).map
      (fun r => (r.1, r.2, 3))
  else if c == 'd' && rep ≥ 3 then none
  else if c == 'M' || c == 'd' || c == 'h' || c == 'H' || c == 'm' || c == 's' then
    let absMax : Int := if c == 'M' then 12 else if c == 'd' then 31
      else if c == 'h' || c == 'H' then 23 else 59
    if rep ≥ 2 then (parseNumber f c (readFixed 2 s) 0).map (fun r => (r.1, r.2, 2))
    else (parseNumber f c (readUpTo 2 absMax s) 0).map (fun r => (r.1, r.2, 1))
  else if c == 'z' then
    if rep ≥ 3 then (parseNumber f c (readFixed 3 s) 0).map (fun r => (r.1, r.2, 3))
    else (parseNumber f c (readUpTo 3 999 s) 0).map (fun r => (r.1, r.2, 1))
  else if c == 'a' || c == 'A' then
    let used := if (c == 'a' && next == some 'p') || (c == 'A' && next == some 'P') then 2 else 1
    let word := (s.take 2).map Char.toLower
    if word == qs "am" then
      (if f.pm == some true then none else some ({ f with pm := some false }, s.drop 2, used))
    else if word == qs "pm" then
      (if f.pm == some false then none else some ({ f with pm := some true }, s.drop 2, used))
    else none
  else if (List.replicate rep c).isPrefixOf s then some (f, s.drop rep, rep)
  else none

/-- The parsing loop: format and input are consumed side by side, and both have to end
together. -/
def parseDateTime : Nat → QString → QString → ParsedFields → Option ParsedFields
  | 0, _, _, _ => none
  | _ + 1, [], s, f => if s.isEmpty then some f else none
  | fuel + 1, c :: rest, s, f =>
    if c == quoteChar then
      let lit := (qt_readEscapedFormatString rest).1
      if lit.isPrefixOf s then
        parseDateTime fuel (qt_readEscapedFormatString rest).2 (s.drop lit.length) f
      else none
    else
      match parseSection f c (qt_repeatCount (c :: rest)) rest.head? s with
      | none => none
      | some (f2, s2, used) => parseDateTime fuel ((c :: rest).drop used) s2 f2

/-- The date-time of the fields read; a field that the format does not have takes its
default (year 1900, month 1, day 1, time 00:00:00.000). An hour read next to an am/pm
marker is an hour of the 12-hour clock. -/
def ParsedFields.toDateTime (hasAP : Bool) (f : ParsedFields) : Option QDateTime :=
  let year := f.year.getD 1900
  let month := f.month.getD 1
  let day := f.day.getD 1
  let hour : Option Int :=
    match f.pm with
    | none => if hasAP then none else some (f.hour.getD 0)
    | some pm =>
      let h := f.hour.getD (if pm then 12 else 0)
      if f.hour.isSome && (h < 1 || h > 12) then none
      else some (h % 12 + (if pm then 12 else 0))
  match hour with
  | none => none
  | some h =>
    let minute := f.minute.getD 0
    let second := f.second.getD 0
    let msec := f.msec.getD 0
    if QDate.isValidYMD year month day && QTime.isValidHMS h minute second msec then
      some (QDateTime.ofDateTime (QDate.ofYMD year month day) (QTime.ofHMS h minute second msec))
    else none

/-- Qt `QDateTime::fromString(string, format)`; `none` is the invalid `QDateTime`. -/
def QDateTime.fromString (string format : QString) : Option QDateTime :=
  match parseDateTime (format.length + 1) format string ParsedFields.empty with
  | none => none
  | some f => f.toDateTime (timeFormatContainsAP format.length format)

/-! ## `QMap<QDateTime, QString>` -/

/-- A `QMap<QDateTime, QString>`: the entries in ascending order of key, one per key. -/
abbrev QMap := List (QDateTime × QString)

/-- Qt `QMap::insert`: a value inserted under a key the map already has replaces the
value held there. -/
def QMap.insert : QMap → QDateTime → QString → QMap
  | [], k, v => [(k, v)]
  | (k2, v2) :: rest, k, v =>
    if k < k2 then (k, v) :: (k2, v2) :: rest
    else if k2 < k then (k2, v2) :: QMap.insert rest k v
    else (k, v) :: rest

/-- Qt `QMap::values`: the values in ascending order of key. -/
def QMap.values (m : QMap) : List QString := m.map Prod.snd

/-! ## The directory of the log file

The appender works in one directory; a file is named by its name in that directory, so
`QFileInfo::fileName` and `QFileInfo::absoluteFilePath` of an entry are both that name.
Operations that the file system refuses are listed by file name. -/

/-- A file of the directory. -/
structure QFileInfo where
  fileName : QString
  contents : QString
  lastModified : QDateTime
deriving DecidableEq

/-- The directory and the refusals of the file system. -/
structure FileSystem where
  entries : List QFileInfo
  removeDenied : List QString
  renameDenied : List QString
  openDenied : List QString
deriving DecidableEq

/-- Qt `QFile::exists(fileName)`. -/
def QFile.fileExists (fs : FileSystem) (name : QString) : Bool :=
  fs.entries.any (fun e => e.fileName == name)

/-- The entry of a name (`QFileInfo(name)`), if the file exists. -/
def QFileInfo.ofName (fs : FileSystem) (name : QString) : Option QFileInfo :=
  fs.entries.find? (fun e => e.fileName == name)

/-- Qt `QFile::remove(fileName)`: success and the file system afterwards. Removing fails
on a file that does not exist or that the file system refuses to remove. -/
def QFile.remove (fs : FileSystem) (name : QString) : Bool × FileSystem :=
  if QFile.fileExists fs name && !fs.removeDenied.contains name then
    (true, { fs with entries := fs.entries.filter (fun e => e.fileName != name) })
  else (false, fs)

/-- Qt `QFile::rename(oldName, newName)`: success and the file system afterwards.
Renaming fails when the old file does not exist, when a file of the new name exists (Qt
does not overwrite) or when the file system refuses. -/
def QFile.rename (fs : FileSystem) (oldName newName : QString) : Bool × FileSystem :=
  if QFile.fileExists fs oldName && !QFile.fileExists fs newName
      && !fs.renameDenied.contains oldName then
    let renamed := fs.entries.map
      (fun e => if e.fileName == oldName then { e with fileName := newName } else e)
    (true, { fs with entries := renamed })
  else (false, fs)

/-- Qt `QFile::open(WriteOnly | Append | Text)` at instant `now`: success and the file
system afterwards. A file that does not exist is created empty. -/
def QFile.openAppend (now : QDateTime) (fs : FileSystem) (name : QString) : Bool × FileSystem :=
  if fs.openDenied.contains name then (false, fs)
  else if QFile.fileExists fs name then (true, fs)
  else
    let created : QFileInfo := { fileName := name, contents := [], lastModified := now }
    (true, { fs with entries := fs.entries ++ [created] })

/-- Writing bytes at the end of a file at instant `now`. -/
def QFile.write (now : QDateTime) (fs : FileSystem) (name : QString) (bytes : QString) :
    FileSystem :=
  let written := fs.entries.map
    (fun e => if e.fileName == name
      then { e with contents := e.contents ++ bytes, lastModified := now } else e)
  { fs with entries := written }

/-- A hidden file: on Unix, a file whose name starts with a dot. -/
def isHidden (name : QString) : Bool := name.head? == some '.'

/-- A character set of a Qt wildcard, read after its opening bracket: whether the set is
negated by a leading `^`, its members, and the pattern after the closing bracket. A
closing bracket that comes first is a member. Without a closing bracket there is no set:
the pattern is not valid. -/
def readCharSet (afterBracket : QString) : Option (Bool × QString × QString) :=
  let negated := afterBracket.head? == some '^'
  let body := if negated then afterBracket.drop 1 else afterBracket
  let first : QString := if body.head? == some ']' then [']'] else []
  let members := (body.drop first.length).takeWhile (fun c => c != ']')
  match (body.drop first.length).drop members.length with
  | [] => none
  | _ :: after => some (negated, first ++ members, after)

/-- Whether a character set has a character; `a-z` is a range. Letters are compared
without regard to case. -/
def charSetContains : Nat → QString → Char → Bool
  | 0, _, _ => false
  | _ + 1, [], _ => false
  | fuel + 1, lo :: rest, c =>
    if rest.head? == some '-' && (rest.drop 1).head?.isSome then
      (decide (lo.toLower ≤ c.toLower) && decide (c.toLower ≤ ((rest.drop 1).headD lo).toLower))
        || charSetContains fuel (rest.drop 2) c
    else lo.toLower == c.toLower || charSetContains fuel rest c

/-- Qt wildcard matching of a whole name (`QRegExp::Wildcard`, `Qt::CaseInsensitive`, as
`QDir` applies its name filters): `*` stands for any text, `?` for one character, `[...]`
for one character of a set; every other character stands for itself, letters without
regard to case. `fuel` bounds the number of steps. -/
def wildcardMatch : Nat → QString → QString → Bool
  | 0, _, _ => false
  | _ + 1, [], text => text.isEmpty
  | fuel + 1, p :: pattern, text =>
    if p == '*' then
      wildcardMatch fuel pattern text
        || (match text with
            | [] => false
            | _ :: t => wildcardMatch fuel (p :: pattern) t)
    else if p == '?' then
      match text with
      | [] => false
      | _ :: t => wildcardMatch fuel pattern t
    else if p == '[' then
      match readCharSet pattern, text with
      | some (negated, members, rest), c :: t =>
        (charSetContains members.length.succ members c != negated) && wildcardMatch fuel rest t
      | _, _ => false
    else
      match text with
      | [] => false
      | c :: t => p.toLower == c.toLower && wildcardMatch fuel pattern t

/-- Whether `QDir::entryInfoList` lists a file under the filter `QDir::Files` and the
name filter `baseName + "*"`: the file is not hidden and its name matches the filter,
read as a wildcard. -/
def nameFilterAccepts (baseName name : QString) : Bool :=
  !isHidden name
    && wildcardMatch (baseName.length + name.length + 2) (baseName ++ ['*']) name

/-- Qt `QDir::entryInfoList` after `setFilter(QDir::Files)` and
`setNameFilters(baseName + "*")`. Every entry of the model is a file. Qt lists the files
sorted by name; `FileSystem.entries` is taken to be in that order. -/
def entryInfoList (fs : FileSystem) (baseName : QString) : List QFileInfo :=
  fs.entries.filter (fun e => nameFilterAccepts baseName e.fileName)

/-- Qt `QString::indexOf`: position of the first occurrence of `sub`, or `-1`. -/
def indexOf : QString → QString → Int
  | [], sub => if sub.isEmpty then 0 else -1
  | c :: rest, sub =>
    if sub.isPrefixOf (c :: rest) then 0
    else if indexOf rest sub == -1 then -1 else indexOf rest sub + 1

/-- Qt `QString::mid(position)`: the text from `position` on; a negative position counts
as 0 and a position past the end gives the empty text. -/
def mid (s : QString) (position : Int) : QString :=
  if position > s.length then [] else s.drop position.toNat

/-! ## The appender -/

/-- The members of the appender, the file system it works on and the record of failed
assertions.

`m_logFileName` and `m_logFileOpen` are the `QFile m_logFile` of the base class
`FileAppender` (its name and whether it is open). -/
structure State where
  m_logFileName : QString
  m_logFileOpen : Bool
  m_datePatternString : QString
  m_frequency : DatePattern
  m_currentLogFileTime : QDateTime
  m_rollOverTime : QDateTime
  m_logFilesLimit : Int
  m_computeRollOverBasedOnLastModified : Bool
  m_forceRollovercheck : Bool
  fs : FileSystem
  assertFailed : Bool
deriving DecidableEq

/-- Macro `Q_ASSERT_X(cond, ...)`: nothing in a release build; the model records a failure. -/
def Q_ASSERT_X (cond : Bool) (s : State) : State :=
  if cond then s else { s with assertFailed := true }

/-- Modelled from the spec: `FileAppender::fileName` of `FileAppender.cpp`, the
`currentFileName() -> path` of the collaborator interface. -/
def fileName (s : State) : QString := s.m_logFileName

/-- Modelled from the spec: `FileAppender::setFileName` of `FileAppender.cpp`; the file
in use is closed and the base path is replaced. -/
def FileAppender.setFileName (f : QString) (s : State) : State :=
  { s with m_logFileName := f, m_logFileOpen := false }

/-- Modelled from the spec: `FileAppender::openFile` of `FileAppender.cpp`, the
`open(path) -> handle` of the collaborator interface: opens the file at the base name for
appending unless it is open already, and tells whether it is open. -/
def openFile (now : QDateTime) (s : State) : State × Bool :=
  if s.m_logFileName.isEmpty then (s, false)
  else if s.m_logFileOpen then (s, true)
  else
    match QFile.openAppend now s.fs s.m_logFileName with
    | (isOpen, fs) => ({ s with fs := fs, m_logFileOpen := isOpen }, isOpen)

/-- Modelled from the spec: `FileAppender::closeFile` of `FileAppender.cpp`, the
`close(handle)` of the collaborator interface. -/
def closeFile (s : State) : State := { s with m_logFileOpen := false }

/-- Modelled from the spec: `FileAppender::append` of `FileAppender.cpp`, the
`write(handle, bytes)` of the collaborator interface: the formatted record goes to the
end of the file at the base name, which is opened if need be. -/
def FileAppender.append (now : QDateTime) (record : QString) (s : State) : State :=
  match openFile now s with
  | (s, true) => { s with fs := QFile.write now s.fs s.m_logFileName record }
  | (s, false) => s

/-- The constructor `RollingFileAppender::RollingFileAppender(fileName)`. It leaves
`m_frequency` uninitialised: `indeterminate` is the value the member happens to hold. The
pattern is the empty text and the two timestamps are null, which compare as the epoch. -/
def RollingFileAppender.new (fileName : QString) (indeterminate : DatePattern)
    (fs : FileSystem) : State :=
  { m_logFileName := fileName
    m_logFileOpen := false
    m_datePatternString := []
    m_frequency := indeterminate
    m_currentLogFileTime := ⟨0⟩
    m_rollOverTime := ⟨0⟩
    m_logFilesLimit := 0
    m_computeRollOverBasedOnLastModified := false
    m_forceRollovercheck := true
    fs := fs
    assertFailed := false }

/-- Source function `RollingFileAppender::datePattern`. -/
def datePattern (s : State) : DatePattern := s.m_frequency

/-- Source function `RollingFileAppender::datePatternString`. -/
def datePatternString (s : State) : QString := s.m_datePatternString

/-- Source function `RollingFileAppender::setDatePatternString`. -/
def setDatePatternString (datePatternString : QString) (s : State) : State :=
  { s with m_datePatternString := datePatternString }

/-- Source function `RollingFileAppender::computeFrequency`. -/
def computeFrequency (s : State) : State :=
  let startTime := QDateTime.ofDateTime (QDate.ofYMD 1999 1 1) (QTime.ofHMS 0 0 0 0)
  let startString := startTime.toString s.m_datePatternString
  if startString != (startTime.addSecs 60).toString s.m_datePatternString then
    { s with m_frequency := MinutelyRollover }
  else if startString != (startTime.addSecs (60 * 60)).toString s.m_datePatternString then
    { s with m_frequency := HourlyRollover }
  else if startString != (startTime.addSecs (60 * 60 * 12)).toString s.m_datePatternString then
    { s with m_frequency := HalfDailyRollover }
  else if startString != (startTime.addDays 1).toString s.m_datePatternString then
    { s with m_frequency := DailyRollover }
  else if startString != (startTime.addDays 7).toString s.m_datePatternString then
    { s with m_frequency := WeeklyRollover }
  else if startString != (startTime.addMonths 1).toString s.m_datePatternString then
    { s with m_frequency := MonthlyRollover }
  else
    Q_ASSERT_X false s

/-- The timestamp map that `removeOldFiles` builds from the directory listing. -/
def fileDates (s : State) : QMap :=
  (entryInfoList s.fs (fileName s)).foldl
    (fun m info =>
      let name := info.fileName
      let suffix := mid name (indexOf name (fileName s) + (fileName s).length)
      match QDateTime.fromString suffix (datePatternString s) with
      | some fileDateTime => QMap.insert m fileDateTime info.fileName
      | none => m)
    []

/-- Source function `RollingFileAppender::removeOldFiles`. The loop over `i` removes the
first `fileDateNames.length() - m_logFilesLimit + 1` names, when that number is positive. -/
def removeOldFiles (s : State) : State :=
  if s.m_logFilesLimit ≤ 1 then s
  else
    let fileDateNames := QMap.values (fileDates s)
    let bound : Int := (fileDateNames.length : Int) - s.m_logFilesLimit + 1
    let fs := (fileDateNames.take bound.toNat).foldl (fun fs name => (QFile.remove fs name).2) s.fs
    { s with fs := fs }

/-- Source function `RollingFileAppender::computeFileLogTime`. -/
def computeFileLogTime (now : QDateTime) (s : State) : QDateTime :=
  let dt :=
    if s.m_computeRollOverBasedOnLastModified && !(fileName s).isEmpty then
      match QFileInfo.ofName s.fs (fileName s) with
      | some fi => fi.lastModified
      | none => now
    else now
  computeRollOverDateTimeHelper s.m_frequency dt false

/-- Source function `RollingFileAppender::computeCurrentLogTimeNow`. -/
def computeCurrentLogTimeNow (now : QDateTime) (s : State) : QDateTime :=
  computeRollOverDateTimeHelper s.m_frequency now false

/-- Source function `RollingFileAppender::computeRollOverDateTimeNext`. -/
def computeRollOverDateTimeNext (now : QDateTime) (s : State) : QDateTime :=
  computeRollOverDateTimeHelper s.m_frequency now true

/-- Source function `RollingFileAppender::computeLogAndRollOverTimes`. -/
def computeLogAndRollOverTimes (now : QDateTime) (s : State) : State :=
  let s := Q_ASSERT_X (!s.m_datePatternString.isEmpty) s
  let s := { s with m_currentLogFileTime := computeFileLogTime now s }
  { s with m_rollOverTime := computeRollOverDateTimeNext now s }

/-- Source function `RollingFileAppender::setDatePattern(DatePattern)`; the `default:`
branch of the switch is outside the enumeration. -/
def setDatePattern (now : QDateTime) (datePattern : DatePattern) (s : State) : State :=
  let s :=
    match datePattern with
    | MinutelyRollover => setDatePatternString (qs "'.'yyyy-MM-dd-hh-mm") s
    | HourlyRollover => setDatePatternString (qs "'.'yyyy-MM-dd-hh") s
    | HalfDailyRollover => setDatePatternString (qs "'.'yyyy-MM-dd-a") s
    | DailyRollover => setDatePatternString (qs "'.'yyyy-MM-dd") s
    | WeeklyRollover => setDatePatternString (qs "'.'yyyy-ww") s
    | MonthlyRollover => setDatePatternString (qs "'.'yyyy-MM") s
  let s := { s with m_frequency := datePattern }
  computeLogAndRollOverTimes now s

/-- Source function `RollingFileAppender::setDatePattern(const QString&)`. -/
def setDatePatternQString (now : QDateTime) (datePattern : QString) (s : State) : State :=
  let s := setDatePatternString datePattern s
  let s := computeFrequency s
  computeLogAndRollOverTimes now s

/-- Source function `RollingFileAppender::rollOverCheck`. -/
def rollOverCheck (now : QDateTime) (s : State) : State :=
  let s := Q_ASSERT_X (!s.m_datePatternString.isEmpty) s
  let s := { s with m_forceRollovercheck := false }
  let suffixCurrentLogFile := s.m_currentLogFileTime.toString s.m_datePatternString
  let suffixNow := (computeCurrentLogTimeNow now s).toString s.m_datePatternString
  if suffixCurrentLogFile == suffixNow then s
  else
    let s := closeFile s
    let targetFileName := fileName s ++ suffixCurrentLogFile
    let removed :=
      if QFile.fileExists s.fs targetFileName then QFile.remove s.fs targetFileName
      else (true, s.fs)
    match removed with
    | (false, fs) => { s with fs := fs }
    | (true, fs) =>
      match QFile.rename fs (fileName s) targetFileName with
      | (false, fs) => { s with fs := fs }
      | (true, fs) =>
        let s := (openFile now { s with fs := fs }).1
        let s := removeOldFiles s
        computeLogAndRollOverTimes now s

/-- Source function `RollingFileAppender::append`; `record` is the formatted text of the
log record. -/
def append (now : QDateTime) (record : QString) (s : State) : State :=
  let s := if now ≥ s.m_rollOverTime || s.m_forceRollovercheck then rollOverCheck now s else s
  FileAppender.append now record s

/-- Source function `RollingFileAppender::setLogFilesLimit`. -/
def setLogFilesLimit (limit : Int) (s : State) : State := { s with m_logFilesLimit := limit }

/-- Source function `RollingFileAppender::logFilesLimit`. -/
def logFilesLimit (s : State) : Int := s.m_logFilesLimit

/-- Source function `RollingFileAppender::setFileName`. -/
def setFileName (now : QDateTime) (f : QString) (s : State) : State :=
  computeLogAndRollOverTimes now (FileAppender.setFileName f s)

/-- Source function `RollingFileAppender::computeRollOverBasedOnLastModified`. -/
def computeRollOverBasedOnLastModified (s : State) : Bool :=
  s.m_computeRollOverBasedOnLastModified

/-- Source function `RollingFileAppender::setComputeRollOverBasedOnLastModified`. -/
def setComputeRollOverBasedOnLastModified (val : Bool) (s : State) : State :=
  { s with m_computeRollOverBasedOnLastModified := val }

/-! ## Inputs of the scenarios of the specification -/

/-- A directory without files in which the file system refuses nothing. -/
def emptyDirectory : FileSystem :=
  { entries := [], removeDenied := [], renameDenied := [], openDenied := [] }

/-- The instant `y-m-d h:mi:00.000`. -/
def instant (y m d h mi : Int) : QDateTime :=
  QDateTime.ofDateTime (QDate.ofYMD y m d) (QTime.ofHMS h mi 0 0)

/-- A file of the directory with a name, no contents and the epoch as time stamp. -/
def emptyFile (name : String) : QFileInfo :=
  { fileName := qs name, contents := [], lastModified := ⟨0⟩ }

/-! ## Notions of the specification -/

/-- The reference instant of frequency inference, 1999-01-01 00:00. -/
def referenceInstant : QDateTime := QDateTime.ofDateTime (QDate.ofYMD 1999 1 1) (QTime.ofHMS 0 0 0 0)

/-- The six probes of frequency inference in their order: the reference instant advanced
by one minute, one hour, twelve hours, one day, seven days and one month, each with the
granularity it stands for. -/
def frequencyProbes : List (QDateTime × DatePattern) :=
  [(referenceInstant.addSecs 60, MinutelyRollover),
   (referenceInstant.addSecs (60 * 60), HourlyRollover),
   (referenceInstant.addSecs (60 * 60 * 12), HalfDailyRollover),
   (referenceInstant.addDays 1, DailyRollover),
   (referenceInstant.addDays 7, WeeklyRollover),
   (referenceInstant.addMonths 1, MonthlyRollover)]

/-- The `inferFrequency` of the specification, in its words: the first granularity, in
probe order, whose formatted output differs from the output of the reference instant;
`none` when no output differs. -/
def inferFrequency (pattern : QString) : Option DatePattern :=
  (frequencyProbes.find?
    (fun probe => probe.1.toString pattern != referenceInstant.toString pattern)).map Prod.snd

/-- The timestamp that `removeOldFiles` reads from the name of a directory entry: the
text after the base name, parsed against the pattern. -/
def suffixTime (s : State) (info : QFileInfo) : Option QDateTime :=
  QDateTime.fromString
    (mid info.fileName (indexOf info.fileName (fileName s) + (fileName s).length))
    (datePatternString s)

/-- The archives of the base file: the listed entries whose suffix parses. -/
def parseableArchives (s : State) : List QFileInfo :=
  (entryInfoList s.fs (fileName s)).filter (fun e => (suffixTime s e).isSome)

/-- The appender of the scenarios: base file `app.log`, configured with a symbolic
frequency at `configuredAt` in directory `fs`. -/
def configured (configuredAt : QDateTime) (frequency : DatePattern) (fs : FileSystem) : State :=
  setDatePattern configuredAt frequency (RollingFileAppender.new (qs "app.log") frequency fs)

/-- A directory with the given files in which the file system refuses nothing. -/
def directoryOf (files : List QFileInfo) : FileSystem :=
  { entries := files, removeDenied := [], renameDenied := [], openDenied := [] }

/-- The directory of the pruning scenario: the active file and four monthly archives. -/
def monthlyArchives : FileSystem :=
  directoryOf [emptyFile "app.log", emptyFile "app.log.2024-01", emptyFile "app.log.2024-02",
    emptyFile "app.log.2024-03", emptyFile "app.log.2024-04"]

/-- The condition under which `RollingFileAppender::append` calls `rollOverCheck`: the
scheduled rollover time is reached or the check is forced. -/
def rollOverDue (now : QDateTime) (s : State) : Bool :=
  decide (now ≥ s.m_rollOverTime) || s.m_forceRollovercheck

/-- The archive path `targetFileName` that `rollOverCheck` computes: the base name
followed by the formatted start of the current period. -/
def targetFileName (s : State) : QString :=
  fileName s ++ s.m_currentLogFileTime.toString s.m_datePatternString

/-- The places at which `rollOverCheck` returns: the three early `return` statements and
the end of the function. -/
inductive RollOverExit where
  | samePeriod
  | removeFailed
  | renameFailed
  | completed
deriving DecidableEq

open RollOverExit

/-- The place at which `RollingFileAppender::rollOverCheck` returns, by the same tests in
the same order as the function. -/
def rollOverExit (now : QDateTime) (s : State) : RollOverExit :=
  let suffixCurrentLogFile := s.m_currentLogFileTime.toString s.m_datePatternString
  let suffixNow := (computeCurrentLogTimeNow now s).toString s.m_datePatternString
  if suffixCurrentLogFile == suffixNow then samePeriod
  else
    let targetFileName := fileName s ++ suffixCurrentLogFile
    let removed :=
      if QFile.fileExists s.fs targetFileName then QFile.remove s.fs targetFileName
      else (true, s.fs)
    match removed with
    | (false, _) => removeFailed
    | (true, fs) =>
      match QFile.rename fs (fileName s) targetFileName with
      | (false, _) => renameFailed
      | (true, _) => completed

/-- The instant from which `computeFileLogTime` takes the current period: the time the
log file was last modified when that basis is configured and the file exists, the clock
otherwise. -/
def basisInstant (now : QDateTime) (s : State) : QDateTime :=
  if s.m_computeRollOverBasedOnLastModified && !(fileName s).isEmpty then
    match QFileInfo.ofName s.fs (fileName s) with
    | some fi => fi.lastModified
    | none => now
  else now

/-! ## Inputs of the failure scenarios -/

/-- A directory that holds the log file `app.log`, last written on 2024-03-10 at 18:00,
and an archive `app.log.2024-03-10` left by an earlier run; the file system refuses to
rename `app.log`. -/
def lockedDirectory : FileSystem :=
  { entries :=
      [{ fileName := qs "app.log", contents := qs "today",
         lastModified := instant 2024 3 10 18 0 },
       { fileName := qs "app.log.2024-03-10", contents := qs "earlier",
         lastModified := instant 2024 3 10 9 0 }]
    removeDenied := []
    renameDenied := [qs "app.log"]
    openDenied := [] }

/-- The daily appender over `lockedDirectory`, configured on 2024-03-10 at 12:00. -/
def lockedAppender : State :=
  configured (instant 2024 3 10 12 0) DailyRollover lockedDirectory

/-- The daily appender of the rollover scenarios: configured on 2024-03-10 at 12:00 over
a directory that holds `app.log`, last written that day at 18:00, and refuses nothing. -/
def dailyAppender : State :=
  configured (instant 2024 3 10 12 0) DailyRollover
    (directoryOf [{ fileName := qs "app.log", contents := qs "today",
                    lastModified := instant 2024 3 10 18 0 }])

/-- The appender with the last-modified basis: constructed over `fs`, switched to the
last-modified basis and configured daily on 2024-03-11 at 12:00. -/
def lastModifiedAppender (fs : FileSystem) : State :=
  setDatePattern (instant 2024 3 11 12 0) DailyRollover
    (setComputeRollOverBasedOnLastModified true
      (RollingFileAppender.new (qs "app.log") DailyRollover fs))

/-- A directory whose log file `app.log` was last written on 2024-03-09 at 18:00 and in
which the file system refuses nothing. -/
def staleDirectory : FileSystem :=
  directoryOf [{ fileName := qs "app.log", contents := qs "old",
                 lastModified := instant 2024 3 9 18 0 }]

/-- The directory `staleDirectory` with a file system that refuses to rename `app.log`. -/
def staleLockedDirectory : FileSystem :=
  { staleDirectory with renameDenied := [qs "app.log"] }

/-! ## Local time in a time zone

The definitions above compute on the wall clock alone: a `QDateTime` there is the count
`m_msecs` that Qt keeps for a local date-time, in a time zone whose offset from UTC never
changes. This section puts the wall clock into a time zone with transitions, as Qt 5 does
for `Qt::LocalTime`, the time specification of `QDateTime::currentDateTime()`, of
`QDateTime(date, time)` and of `QFileInfo::lastModified()`:

* a wall-clock time that a forward transition skips gives an invalid `QDateTime`;
* `addSecs` adds elapsed time, `addDays` and `addMonths` move the date on the wall clock
  and then move a result that a transition skips to a valid time;
* `toString` of an invalid `QDateTime` is the empty text;
* date-times are ordered as instants.

Qt leaves the reading of a wall-clock time to `mktime` of the platform. The model reads a
skipped time with the offset in force before the transition (which gives an instant after
it) and a repeated time as the earlier of its two instants. -/

/-- A time zone: the offset from UTC in milliseconds in force before the first
transition, and the transitions in ascending order, each with the instant (milliseconds
since the epoch, UTC) from which its offset is in force. -/
structure TimeZone where
  standardOffset : Int
  transitions : List (Int × Int)
deriving DecidableEq

/-- Offset from UTC in force at an instant. -/
def TimeZone.offsetAt (z : TimeZone) (epoch : Int) : Int :=
  z.transitions.foldl (fun off tr => if tr.1 ≤ epoch then tr.2 else off) z.standardOffset

/-- The offset before the transition that skips the wall-clock time `wall`, if a
transition skips it: a transition at instant `t` from offset `before` to a larger offset
`off` skips the wall-clock times from `t + before` up to `t + off`. -/
def TimeZone.skippedBy : Int → List (Int × Int) → Int → Option Int
  | _, [], _ => none
  | before, (t, off) :: rest, wall =>
    if t + before ≤ wall ∧ wall < t + off then some before
    else TimeZone.skippedBy off rest wall

/-- Qt `QDateTimePrivate::localMSecsToEpochMSecs`: whether the wall-clock time exists in
the zone, and the instant it is read as. -/
def TimeZone.localToEpoch (z : TimeZone) (wall : Int) : Bool × Int :=
  match TimeZone.skippedBy z.standardOffset z.transitions wall with
  | some before => (false, wall - before)
  | none =>
    let instants := ((z.standardOffset :: z.transitions.map Prod.snd).map
      (fun off => wall - off)).filter (fun epoch => epoch + z.offsetAt epoch == wall)
    match instants with
    | [] => (false, wall - z.standardOffset)
    | epoch :: more => (true, more.foldl min epoch)

namespace Zoned

/-- A `QDateTime` of time specification `Qt::LocalTime`: the wall-clock count `m_msecs`,
whether the date-time is valid, and the instant `toMSecsSinceEpoch()`. -/
structure QDateTime where
  msecs : Int
  valid : Bool
  epoch : Int
deriving DecidableEq

instance : LE QDateTime := ⟨fun a b => a.epoch ≤ b.epoch⟩

instance : LT QDateTime := ⟨fun a b => a.epoch < b.epoch⟩

instance (a b : QDateTime) : Decidable (a ≤ b) := inferInstanceAs (Decidable (a.epoch ≤ b.epoch))

instance (a b : QDateTime) : Decidable (a < b) := inferInstanceAs (Decidable (a.epoch < b.epoch))

/-- The null `QDateTime()`: invalid, wall-clock count 0. The appender formats and compares
it but never reads its date. -/
def QDateTime.null (z : TimeZone) : QDateTime :=
  { msecs := 0, valid := false, epoch := (z.localToEpoch 0).2 }

/-- Qt `QDateTime::fromMSecsSinceEpoch`, and `QDateTime::currentDateTime()` when the
clock shows the instant `epoch`: the local date-time of an instant, always valid. -/
def QDateTime.fromMSecsSinceEpoch (z : TimeZone) (epoch : Int) : QDateTime :=
  { msecs := epoch + z.offsetAt epoch, valid := true, epoch := epoch }

/-- The constructor `QDateTime(date, time)`: invalid when the zone skips the wall-clock
time. -/
def QDateTime.ofDateTime (z : TimeZone) (date : QDate) (time : QTime) : QDateTime :=
  let wall := (CuteLogger.QDateTime.ofDateTime date time).msecs
  { msecs := wall, valid := (z.localToEpoch wall).1, epoch := (z.localToEpoch wall).2 }

/-- Qt `QDateTime::date`, read from the wall clock. -/
def QDateTime.date (dt : QDateTime) : QDate := CuteLogger.QDateTime.date ⟨dt.msecs⟩

/-- Qt `QDateTime::time`, read from the wall clock. -/
def QDateTime.time (dt : QDateTime) : QTime := CuteLogger.QDateTime.time ⟨dt.msecs⟩

/-- Qt `QDateTime::addSecs`: elapsed time is added to the instant; an invalid date-time
gives the null one. -/
def QDateTime.addSecs (z : TimeZone) (dt : QDateTime) (s : Int) : QDateTime :=
  if dt.valid then QDateTime.fromMSecsSinceEpoch z (dt.epoch + s * 1000) else QDateTime.null z

/-- Qt `QDateTime::addDays`: the date moves on the wall clock, the time of day stays, and
the result is the local date-time of the instant that wall-clock time is read as. Qt 5
does so for an invalid date-time too, whose wall-clock count it keeps. -/
def QDateTime.addDays (z : TimeZone) (dt : QDateTime) (ndays : Int) : QDateTime :=
  let wall := (CuteLogger.QDateTime.addDays ⟨dt.msecs⟩ ndays).msecs
  QDateTime.fromMSecsSinceEpoch z (z.localToEpoch wall).2

/-- Qt `QDateTime::addMonths`, like `addDays`. -/
def QDateTime.addMonths (z : TimeZone) (dt : QDateTime) (nmonths : Int) : QDateTime :=
  let wall := (CuteLogger.QDateTime.addMonths ⟨dt.msecs⟩ nmonths).msecs
  QDateTime.fromMSecsSinceEpoch z (z.localToEpoch wall).2

/-- Qt `QDateTime::toString(format)`: the empty text for an invalid date-time, the
formatted wall-clock date and time otherwise. -/
def QDateTime.toString (dt : QDateTime) (format : QString) : QString :=
  if dt.valid then CuteLogger.QDateTime.toString ⟨dt.msecs⟩ format else []

/-- Qt `QDateTime::fromString(string, format)`: the null date-time when the text does not
parse, the date-time of the parsed wall-clock date and time otherwise. -/
def QDateTime.fromString (z : TimeZone) (string format : QString) : QDateTime :=
  match CuteLogger.QDateTime.fromString string format with
  | none => QDateTime.null z
  | some parsed =>
    { msecs := parsed.msecs, valid := (z.localToEpoch parsed.msecs).1,
      epoch := (z.localToEpoch parsed.msecs).2 }

/-- Source function `RollingFileAppender::computeRollOverDateTimeHelper` in the time zone
`z`, with `m_frequency` as second argument. The `default:` branch of the switch is outside
the enumeration. -/
def computeRollOverDateTimeHelper (z : TimeZone) (m_frequency : DatePattern) (dt : QDateTime)
    (bNext : Bool) : QDateTime :=
  let rcDate := dt.date
  let rcTime := dt.time
  match m_frequency with
  | MinutelyRollover =>
    let rc := QDateTime.ofDateTime z rcDate (QTime.ofHMS rcTime.hour rcTime.minute 0 0)
    if bNext then rc.addSecs z 60 else rc
  | HourlyRollover =>
    let rc := QDateTime.ofDateTime z rcDate (QTime.ofHMS rcTime.hour 0 0 0)
    if bNext then rc.addSecs z (60 * 60) else rc
  | HalfDailyRollover =>
    let hour := rcTime.hour
    let hour := if hour ≥ 12 then 12 else 0
    let rc := QDateTime.ofDateTime z rcDate (QTime.ofHMS hour 0 0 0)
    if bNext then rc.addSecs z (60 * 60 * 12) else rc
  | DailyRollover =>
    let rc := QDateTime.ofDateTime z rcDate (QTime.ofHMS 0 0 0 0)
    if bNext then rc.addDays z 1 else rc
  | WeeklyRollover =>
    let day := rcDate.dayOfWeek
    let day := if day == Qt.Sunday then 0 else day
    let rc := (QDateTime.ofDateTime z rcDate (QTime.ofHMS 0 0 0 0)).addDays z (-1 * day)
    if bNext then rc.addDays z 7 else rc
  | MonthlyRollover =>
    let rc := QDateTime.ofDateTime z (QDate.ofYMD rcDate.year rcDate.month 1)
      (QTime.ofHMS 0 0 0 0)
    if bNext then rc.addMonths z 1 else rc

end Zoned

/-- Central European time in 2024: UTC+1, daylight-saving time UTC+2 from 2024-03-31
01:00 UTC to 2024-10-27 01:00 UTC. -/
def europeBerlin2024 : TimeZone :=
  { standardOffset := 3600000
    transitions := [((instant 2024 3 31 1 0).msecs, 7200000),
                    ((instant 2024 10 27 1 0).msecs, 3600000)] }

/-- Cuban time in 2024: UTC-5, daylight-saving time UTC-4 from 2024-03-10 05:00 UTC, when
the wall clock jumps from Sunday 00:00 to 01:00, to 2024-11-03 05:00 UTC. -/
def americaHavana2024 : TimeZone :=
  { standardOffset := -18000000
    transitions := [((instant 2024 3 10 5 0).msecs, -14400000),
                    ((instant 2024 11 3 5 0).msecs, -18000000)] }

/-- The local date-time `y-m-d h:mi` of a zone. -/
def localInstant (z : TimeZone) (y m d h mi : Int) : Zoned.QDateTime :=
  Zoned.QDateTime.ofDateTime z (QDate.ofYMD y m d) (QTime.ofHMS h mi 0 0)

/-! ## The appender in a time zone

The appender of `RollingFileAppender.cpp` once more, with the date-times of section
"Local time in a time zone": the clock is an instant `now` (milliseconds since the epoch)
and `QDateTime::currentDateTime()` is its local date-time in the zone of the process. The
file system is the one above; the time a file was last modified is an instant. -/

namespace Zoned

/-- The members of the appender, its file system, the time zone of the process and the
record of failed assertions. -/
structure State where
  zone : TimeZone
  m_logFileName : QString
  m_logFileOpen : Bool
  m_datePatternString : QString
  m_frequency : DatePattern
  m_currentLogFileTime : QDateTime
  m_rollOverTime : QDateTime
  m_logFilesLimit : Int
  m_computeRollOverBasedOnLastModified : Bool
  m_forceRollovercheck : Bool
  fs : FileSystem
  assertFailed : Bool
deriving DecidableEq

/-- Qt `QDateTime::currentDateTime()` when the clock shows the instant `now`. -/
def currentDateTime (now : Int) (s : State) : QDateTime :=
  QDateTime.fromMSecsSinceEpoch s.zone now

/-- Macro `Q_ASSERT_X(cond, ...)`: nothing in a release build; the model records a failure. -/
def Q_ASSERT_X (cond : Bool) (s : State) : State :=
  if cond then s else { s with assertFailed := true }

/-- Modelled from the spec: `FileAppender::fileName` of `FileAppender.cpp`. -/
def fileName (s : State) : QString := s.m_logFileName

/-- Modelled from the spec: `FileAppender::openFile` of `FileAppender.cpp`: opens the file
at the base name for appending unless it is open already, and tells whether it is open. -/
def openFile (now : Int) (s : State) : State × Bool :=
  if s.m_logFileName.isEmpty then (s, false)
  else if s.m_logFileOpen then (s, true)
  else
    match QFile.openAppend ⟨now⟩ s.fs s.m_logFileName with
    | (isOpen, fs) => ({ s with fs := fs, m_logFileOpen := isOpen }, isOpen)

/-- Modelled from the spec: `FileAppender::closeFile` of `FileAppender.cpp`. -/
def closeFile (s : State) : State := { s with m_logFileOpen := false }

/-- Modelled from the spec: `FileAppender::append` of `FileAppender.cpp`: the formatted
record goes to the end of the file at the base name, which is opened if need be. -/
def FileAppender.append (now : Int) (record : QString) (s : State) : State :=
  match openFile now s with
  | (s, true) => { s with fs := QFile.write ⟨now⟩ s.fs s.m_logFileName record }
  | (s, false) => s

/-- The constructor `RollingFileAppender::RollingFileAppender(fileName)` in a process of
time zone `zone`; `indeterminate` is the value the uninitialised `m_frequency` happens to
hold, and the two timestamps are null. -/
def RollingFileAppender.new (zone : TimeZone) (fileName : QString) (indeterminate : DatePattern)
    (fs : FileSystem) : State :=
  { zone := zone
    m_logFileName := fileName
    m_logFileOpen := false
    m_datePatternString := []
    m_frequency := indeterminate
    m_currentLogFileTime := QDateTime.null zone
    m_rollOverTime := QDateTime.null zone
    m_logFilesLimit := 0
    m_computeRollOverBasedOnLastModified := false
    m_forceRollovercheck := true
    fs := fs
    assertFailed := false }

/-- Source function `RollingFileAppender::setDatePatternString`. -/
def setDatePatternString (datePatternString : QString) (s : State) : State :=
  { s with m_datePatternString := datePatternString }

/-- The timestamp map that `removeOldFiles` builds from the directory listing; the key of
an entry is the instant of its date-time, by which `QMap` orders its keys. -/
def fileDates (s : State) : QMap :=
  (entryInfoList s.fs (fileName s)).foldl
    (fun m info =>
      let name := info.fileName
      let suffix := mid name (indexOf name (fileName s) + (fileName s).length)
      let fileDateTime := QDateTime.fromString s.zone suffix s.m_datePatternString
      if fileDateTime.valid then QMap.insert m ⟨fileDateTime.epoch⟩ info.fileName else m)
    []

/-- Source function `RollingFileAppender::removeOldFiles`. -/
def removeOldFiles (s : State) : State :=
  if s.m_logFilesLimit ≤ 1 then s
  else
    let fileDateNames := QMap.values (fileDates s)
    let bound : Int := (fileDateNames.length : Int) - s.m_logFilesLimit + 1
    let fs := (fileDateNames.take bound.toNat).foldl (fun fs name => (QFile.remove fs name).2) s.fs
    { s with fs := fs }

/-- Source function `RollingFileAppender::computeFileLogTime`. -/
def computeFileLogTime (now : Int) (s : State) : QDateTime :=
  let dt :=
    if s.m_computeRollOverBasedOnLastModified && !(fileName s).isEmpty then
      match QFileInfo.ofName s.fs (fileName s) with
      | some fi => QDateTime.fromMSecsSinceEpoch s.zone fi.lastModified.msecs
      | none => currentDateTime now s
    else currentDateTime now s
  computeRollOverDateTimeHelper s.zone s.m_frequency dt false

/-- Source function `RollingFileAppender::computeCurrentLogTimeNow`. -/
def computeCurrentLogTimeNow (now : Int) (s : State) : QDateTime :=
  computeRollOverDateTimeHelper s.zone s.m_frequency (currentDateTime now s) false

/-- Source function `RollingFileAppender::computeRollOverDateTimeNext`. -/
def computeRollOverDateTimeNext (now : Int) (s : State) : QDateTime :=
  computeRollOverDateTimeHelper s.zone s.m_frequency (currentDateTime now s) true

/-- Source function `RollingFileAppender::computeLogAndRollOverTimes`. -/
def computeLogAndRollOverTimes (now : Int) (s : State) : State :=
  let s := Q_ASSERT_X (!s.m_datePatternString.isEmpty) s
  let s := { s with m_currentLogFileTime := computeFileLogTime now s }
  { s with m_rollOverTime := computeRollOverDateTimeNext now s }

/-- Source function `RollingFileAppender::setDatePattern(DatePattern)`. -/
def setDatePattern (now : Int) (datePattern : DatePattern) (s : State) : State :=
  let s :=
    match datePattern with
    | MinutelyRollover => setDatePatternString (qs "'.'yyyy-MM-dd-hh-mm") s
    | HourlyRollover => setDatePatternString (qs "'.'yyyy-MM-dd-hh") s
    | HalfDailyRollover => setDatePatternString (qs "'.'yyyy-MM-dd-a") s
    | DailyRollover => setDatePatternString (qs "'.'yyyy-MM-dd") s
    | WeeklyRollover => setDatePatternString (qs "'.'yyyy-ww") s
    | MonthlyRollover => setDatePatternString (qs "'.'yyyy-MM") s
  let s := { s with m_frequency := datePattern }
  computeLogAndRollOverTimes now s

/-- The archive path `targetFileName` that `rollOverCheck` computes. -/
def targetFileName (s : State) : QString :=
  fileName s ++ s.m_currentLogFileTime.toString s.m_datePatternString

/-- Source function `RollingFileAppender::rollOverCheck`. -/
def rollOverCheck (now : Int) (s : State) : State :=
  let s := Q_ASSERT_X (!s.m_datePatternString.isEmpty) s
  let s := { s with m_forceRollovercheck := false }
  let suffixCurrentLogFile := s.m_currentLogFileTime.toString s.m_datePatternString
  let suffixNow := (computeCurrentLogTimeNow now s).toString s.m_datePatternString
  if suffixCurrentLogFile == suffixNow then s
  else
    let s := closeFile s
    let targetFileName := fileName s ++ suffixCurrentLogFile
    let removed :=
      if QFile.fileExists s.fs targetFileName then QFile.remove s.fs targetFileName
      else (true, s.fs)
    match removed with
    | (false, fs) => { s with fs := fs }
    | (true, fs) =>
      match QFile.rename fs (fileName s) targetFileName with
      | (false, fs) => { s with fs := fs }
      | (true, fs) =>
        let s := (openFile now { s with fs := fs }).1
        let s := removeOldFiles s
        computeLogAndRollOverTimes now s

/-- The place at which `rollOverCheck` returns, by the same tests in the same order as
the function. -/
def rollOverExit (now : Int) (s : State) : RollOverExit :=
  let suffixCurrentLogFile := s.m_currentLogFileTime.toString s.m_datePatternString
  let suffixNow := (computeCurrentLogTimeNow now s).toString s.m_datePatternString
  if suffixCurrentLogFile == suffixNow then samePeriod
  else
    let targetFileName := fileName s ++ suffixCurrentLogFile
    let removed :=
      if QFile.fileExists s.fs targetFileName then QFile.remove s.fs targetFileName
      else (true, s.fs)
    match removed with
    | (false, _) => removeFailed
    | (true, fs) =>
      match QFile.rename fs (fileName s) targetFileName with
      | (false, _) => renameFailed
      | (true, _) => completed

/-- Source function `RollingFileAppender::append`; `record` is the formatted text of the
log record. -/
def append (now : Int) (record : QString) (s : State) : State :=
  let s :=
    if currentDateTime now s ≥ s.m_rollOverTime || s.m_forceRollovercheck then
      rollOverCheck now s
    else s
  FileAppender.append now record s

end Zoned

/-- The daily appender of a process in Cuban time: constructed over an empty directory in
which nothing is refused, configured with the daily frequency on Sunday 2024-03-10 at 10:00
and written to, with the record `a`, at 10:05. -/
def havanaAppender : Zoned.State :=
  Zoned.append (localInstant americaHavana2024 2024 3 10 10 5).epoch (qs "a")
    (Zoned.setDatePattern (localInstant americaHavana2024 2024 3 10 10 0).epoch DailyRollover
      (Zoned.RollingFileAppender.new americaHavana2024 (qs "app.log") DailyRollover
        emptyDirectory))

/-- The daily appender of a process in German time over `lockedDirectory`, in which the
log file cannot be renamed, configured on 2024-03-10 at 12:00. -/
def berlinLockedAppender : Zoned.State :=
  Zoned.setDatePattern (localInstant europeBerlin2024 2024 3 10 12 0).epoch DailyRollover
    (Zoned.RollingFileAppender.new europeBerlin2024 (qs "app.log") DailyRollover
      lockedDirectory)

/-! ## Calendar lemmas -/

theorem cppMod_of_nonneg (a : Int) (h : 0 ≤ a) : cppMod a 7 = a % 7 :=
  Int.tmod_eq_emod h (by decide)

theorem cppMod_of_nonpos (a : Int) (h : a ≤ 0) : cppMod a 7 = -((-a) % 7) := by
  have h1 : a = -(-a) := by omega
  have h2 : (-a).tdiv 7 = (-a) / 7 := Int.tdiv_eq_ediv (by omega) (by decide)
  unfold cppMod
  rw [Int.tmod_def]
  conv_lhs => rw [h1, Int.neg_tdiv, h2]
  omega

/-- Day of the week as a residue of the Julian day: 1 = Monday, ..., 7 = Sunday. -/
theorem QDate.dayOfWeek_eq (d : QDate) : d.dayOfWeek = d.jd % 7 + 1 := by
  unfold QDate.dayOfWeek
  split
  · rw [cppMod_of_nonneg _ (by omega)]
  · rw [cppMod_of_nonpos _ (by omega)]
    omega

/-- Undoing the skip over year 0 gives back the astronomical year. -/
theorem astroYear_roundtrip (y : Int) :
    (if (if y ≤ 0 then y - 1 else y) < 0 then (if y ≤ 0 then y - 1 else y) + 1
      else (if y ≤ 0 then y - 1 else y)) = y := by
  by_cases h : y ≤ 0
  · simp only [h, if_true]; split <;> omega
  · simp only [h, if_false]; split <;> omega

/-- The quantities `getDateFromJulianDay` computes on the way, named, with their ranges. -/
theorem getDate_decomp (jd : Int) :
    ∃ b c d e m : Int,
      (4 * (jd + 32044) + 3) / 146097 = b ∧ c = jd + 32044 - 146097 * b / 4 ∧
      (4 * c + 3) / 1461 = d ∧ e = c - 1461 * d / 4 ∧ (5 * e + 2) / 153 = m ∧
      getDateFromJulianDay jd =
        { year := if 100 * b + d - 4800 + m / 10 ≤ 0 then 100 * b + d - 4800 + m / 10 - 1
            else 100 * b + d - 4800 + m / 10,
          month := m + 3 - 12 * (m / 10),
          day := e - (153 * m + 2) / 5 + 1 } ∧
      (0 ≤ c ∧ c ≤ 36524 ∧ 0 ≤ d ∧ d ≤ 99 ∧ 0 ≤ e ∧ e ≤ 365 ∧ 0 ≤ m ∧ m ≤ 11) := by
  refine ⟨_, _, _, _, _, rfl, rfl, rfl, rfl, rfl, rfl, ?_⟩
  generalize hb : (4 * (jd + 32044) + 3) / 146097 = b
  generalize hq : 146097 * b / 4 = q
  have hc : 0 ≤ jd + 32044 - q ∧ jd + 32044 - q ≤ 36524 := by omega
  generalize jd + 32044 - q = c at *
  generalize hd : (4 * c + 3) / 1461 = d
  generalize hq2 : 1461 * d / 4 = q2
  have he : 0 ≤ c - q2 ∧ c - q2 ≤ 365 := by omega
  have hd2 : 0 ≤ d ∧ d ≤ 99 := by omega
  generalize c - q2 = e at *
  generalize hm : (5 * e + 2) / 153 = m
  have hm2 : 0 ≤ m ∧ m ≤ 11 := by omega
  exact ⟨hc.1, hc.2, hd2.1, hd2.2, he.1, he.2, hm2.1, hm2.2⟩

/-- Converse of `getDate_decomp`: quantities that satisfy the defining equations are the
ones the conversion computes. -/
theorem getDate_of_decomp (jd b c d e m : Int)
    (hb : (4 * (jd + 32044) + 3) / 146097 = b) (hc : c = jd + 32044 - 146097 * b / 4)
    (hd : (4 * c + 3) / 1461 = d) (he : e = c - 1461 * d / 4) (hm : (5 * e + 2) / 153 = m) :
    getDateFromJulianDay jd =
        { year := if 100 * b + d - 4800 + m / 10 ≤ 0 then 100 * b + d - 4800 + m / 10 - 1
            else 100 * b + d - 4800 + m / 10,
          month := m + 3 - 12 * (m / 10),
          day := e - (153 * m + 2) / 5 + 1 } := by
  subst hb hc hd he hm
  rfl

/-- Days before year `100 * b + d` of the computational calendar, by centuries. -/
theorem yearDays_split (b d : Int) (h0 : 0 ≤ d) (h1 : d ≤ 99) :
    365 * (100 * b + d) + (100 * b + d) / 4 - (100 * b + d) / 100 + (100 * b + d) / 400
      = 146097 * b / 4 + 1461 * d / 4 := by
  have h100 : (100 * b + d) / 100 = b := by omega
  have h4 : (100 * b + d) / 4 = 25 * b + d / 4 := by omega
  have h400 : (100 * b + d) / 400 = b / 4 := by omega
  have hb : 146097 * b / 4 = 36524 * b + b / 4 := by omega
  have hd : 1461 * d / 4 = 365 * d + d / 4 := by omega
  omega

/-- The Julian day of a day of the month that holds `jd`. -/
theorem julianDayFromDate_getDate (jd day : Int) :
    julianDayFromDate (getDateFromJulianDay jd).year (getDateFromJulianDay jd).month day
      = jd - (getDateFromJulianDay jd).day + day := by
  obtain ⟨b, c, d, e, m, hb, hc, hd, he, hm, hg, h0c, hc1, h0d, hd1, h0e, he1, h0m, hm1⟩ :=
    getDate_decomp jd
  rw [hg]
  simp only [julianDayFromDate]
  rw [astroYear_roundtrip]
  have hmon : (14 - (m + 3 - 12 * (m / 10))) / 12 = m / 10 := by omega
  rw [hmon]
  have hyear : 100 * b + d - 4800 + m / 10 + 4800 - m / 10 = 100 * b + d := by omega
  rw [hyear]
  have hm3 : m + 3 - 12 * (m / 10) + 12 * (m / 10) - 3 = m := by omega
  rw [hm3]
  have := yearDays_split b d h0d hd1
  omega

/-- Dates come back from their Julian day. -/
theorem julianDayFromDate_roundtrip (jd : Int) :
    julianDayFromDate (getDateFromJulianDay jd).year (getDateFromJulianDay jd).month
      (getDateFromJulianDay jd).day = jd := by
  rw [julianDayFromDate_getDate]; omega

/-- The first day of the month that holds `jd` has the same year and month. -/
theorem getDate_first_of_month (jd : Int) :
    getDateFromJulianDay (jd - (getDateFromJulianDay jd).day + 1)
      = { getDateFromJulianDay jd with day := 1 } := by
  obtain ⟨b, c, d, e, m, hb, hc, hd, he, hm, hg, h0c, hc1, h0d, hd1, h0e, he1, h0m, hm1⟩ :=
    getDate_decomp jd
  rw [hg]
  simp only
  have hj : 0 ≤ 1461 * d / 4 := by omega
  have hn : 0 ≤ (153 * m + 2) / 5 ∧ (153 * m + 2) / 5 ≤ e := by omega
  rw [getDate_of_decomp (jd - (e - (153 * m + 2) / 5 + 1) + 1) b
    (c - (e - (153 * m + 2) / 5)) d ((153 * m + 2) / 5) m
    (by omega) (by omega) (by omega) (by omega) (by omega)]
  simp


theorem daysInMonthOf_ge (y m : Int) : 28 ≤ daysInMonthOf y m := by
  unfold daysInMonthOf
  split
  · split <;> decide
  · split <;> decide

theorem min_one_daysInMonthOf (y m : Int) : min 1 (daysInMonthOf y m) = 1 :=
  min_eq_left (by have := daysInMonthOf_ge y m; omega)

/-- The first day of the month after the one that holds `jd` comes after `jd`. -/
theorem lt_addMonths_first_of_month (jd : Int) :
    jd < (QDate.addMonths ⟨jd - (getDateFromJulianDay jd).day + 1⟩ 1).jd := by
  unfold QDate.addMonths
  simp only [getDate_first_of_month]
  simp only [fixedDate, QDate.ofYMD, min_one_daysInMonthOf]
  obtain ⟨b, c, d, e, m, hb, hc, hd, he, hm, hg, h0c, hc1, h0d, hd1, h0e, he1, h0m, hm1⟩ :=
    getDate_decomp jd
  rw [hg]
  simp only [julianDayFromDate]
  rw [astroYear_roundtrip, astroYear_roundtrip]
  have hsplit := yearDays_split b d h0d hd1
  have hjd : jd = e + 1461 * d / 4 + 146097 * b / 4 - 32044 := by omega
  by_cases hm11 : m ≤ 10
  · generalize hT : (100 * b + d - 4800 + m / 10) * 12 + (m + 3 - 12 * (m / 10) - 1) + 1 = T
    have hyy : T / 12 + 4800 - (14 - (T % 12 + 1)) / 12 = 100 * b + d := by omega
    have hmm : T % 12 + 1 + 12 * ((14 - (T % 12 + 1)) / 12) - 3 = m + 1 := by omega
    rw [hyy, hmm]
    omega
  · have hm11 : m = 11 := by omega
    subst hm11
    generalize hT : (100 * b + d - 4800 + 11 / 10) * 12 + (11 + 3 - 12 * (11 / 10) - 1) + 1 = T
    have hyy : T / 12 + 4800 - (14 - (T % 12 + 1)) / 12 = 100 * b + d + 1 := by omega
    have hmm : T % 12 + 1 + 12 * ((14 - (T % 12 + 1)) / 12) - 3 = 0 := by omega
    rw [hyy, hmm]
    by_cases hd99 : d ≤ 98
    · have h2 := yearDays_split b (d + 1) (by omega) (by omega)
      have e1 : 100 * b + d + 1 = 100 * b + (d + 1) := by omega
      rw [e1]
      omega
    · have hd99 : d = 99 := by omega
      subst hd99
      have h2 := yearDays_split (b + 1) 0 (by omega) (by omega)
      have e1 : 100 * b + 99 + 1 = 100 * (b + 1) + 0 := by omega
      rw [e1]
      omega


/-! ## Time-of-day lemmas -/

theorem QDateTime.le_def (a b : QDateTime) : a ≤ b ↔ a.msecs ≤ b.msecs := Iff.rfl

theorem QDateTime.lt_def (a b : QDateTime) : a < b ↔ a.msecs < b.msecs := Iff.rfl

theorem QDateTime.time_isValid (dt : QDateTime) : dt.time.isValid = true := by
  simp only [QDateTime.time, QTime.isValid, MSECS_PER_DAY, Bool.and_eq_true, decide_eq_true_eq]
  omega

theorem QDateTime.time_mds (dt : QDateTime) : dt.time.mds = dt.msecs % 86400000 := rfl

theorem QDateTime.date_jd (dt : QDateTime) : dt.date.jd = dt.msecs / 86400000 + 2440588 := rfl

theorem QDateTime.hour_eq (dt : QDateTime) : dt.time.hour = dt.msecs % 86400000 / 3600000 := by
  simp only [QTime.hour, QDateTime.time_isValid, if_true, QDateTime.time_mds, MSECS_PER_HOUR]

theorem QDateTime.minute_eq (dt : QDateTime) :
    dt.time.minute = dt.msecs % 86400000 % 3600000 / 60000 := by
  simp only [QTime.minute, QDateTime.time_isValid, if_true, QDateTime.time_mds, MSECS_PER_HOUR,
    MSECS_PER_MIN]

/-- A time of day built from an hour and a minute in range is valid. -/
theorem QTime.ofHMS_valid (h m : Int) (h0 : 0 ≤ h) (h1 : h < 24) (m0 : 0 ≤ m) (m1 : m < 60) :
    QTime.ofHMS h m 0 0 = ⟨(h * 3600 + m * 60) * 1000⟩ ∧ (QTime.ofHMS h m 0 0).isValid = true := by
  have hv : QTime.isValidHMS h m 0 0 = true := by
    simp only [QTime.isValidHMS, Bool.and_eq_true, decide_eq_true_eq]
    omega
  have he : QTime.ofHMS h m 0 0 = ⟨(h * 3600 + m * 60) * 1000⟩ := by
    simp only [QTime.ofHMS, hv, if_true, SECS_PER_HOUR, SECS_PER_MIN]
    congr 1
    omega
  refine ⟨he, ?_⟩
  rw [he]
  simp only [QTime.isValid, MSECS_PER_DAY, Bool.and_eq_true, decide_eq_true_eq]
  omega

/-- Milliseconds of a date-time built from a date and an hour and minute in range. -/
theorem QDateTime.ofDateTime_ofHMS (d : QDate) (h m : Int) (h0 : 0 ≤ h) (h1 : h < 24)
    (m0 : 0 ≤ m) (m1 : m < 60) :
    (QDateTime.ofDateTime d (QTime.ofHMS h m 0 0)).msecs
      = (d.jd - 2440588) * 86400000 + (h * 3600 + m * 60) * 1000 := by
  obtain ⟨he, hv⟩ := QTime.ofHMS_valid h m h0 h1 m0 m1
  rw [he] at hv
  simp only [QDateTime.ofDateTime, he, hv, if_true, JULIAN_DAY_FOR_EPOCH, MSECS_PER_DAY]

theorem QDateTime.ofDateTime_midnight (d : QDate) :
    (QDateTime.ofDateTime d (QTime.ofHMS 0 0 0 0)).msecs = (d.jd - 2440588) * 86400000 := by
  rw [QDateTime.ofDateTime_ofHMS d 0 0 (by decide) (by decide) (by decide) (by decide)]
  omega

theorem QDateTime.addSecs_msecs (dt : QDateTime) (s : Int) :
    (dt.addSecs s).msecs = dt.msecs + s * 1000 := rfl

theorem QDateTime.addDays_msecs (dt : QDateTime) (n : Int) :
    (dt.addDays n).msecs = dt.msecs + n * 86400000 := by
  simp only [QDateTime.addDays, QDateTime.ofDateTime, QDateTime.time_isValid, if_true,
    QDate.addDays, QDateTime.date_jd, QDateTime.time_mds, JULIAN_DAY_FOR_EPOCH, MSECS_PER_DAY]
  omega

/-! ## Period starts in milliseconds -/

theorem helper_minutely (t : QDateTime) (bNext : Bool) :
    (computeRollOverDateTimeHelper MinutelyRollover t bNext).msecs
      = t.msecs / 60000 * 60000 + (if bNext then 60000 else 0) := by
  simp only [computeRollOverDateTimeHelper]
  rw [apply_ite QDateTime.msecs, QDateTime.addSecs_msecs,
    QDateTime.ofDateTime_ofHMS _ _ _ (by rw [QDateTime.hour_eq]; omega)
      (by rw [QDateTime.hour_eq]; omega) (by rw [QDateTime.minute_eq]; omega)
      (by rw [QDateTime.minute_eq]; omega),
    QDateTime.hour_eq, QDateTime.minute_eq, QDateTime.date_jd]
  split <;> omega

theorem helper_hourly (t : QDateTime) (bNext : Bool) :
    (computeRollOverDateTimeHelper HourlyRollover t bNext).msecs
      = t.msecs / 3600000 * 3600000 + (if bNext then 3600000 else 0) := by
  simp only [computeRollOverDateTimeHelper]
  rw [apply_ite QDateTime.msecs, QDateTime.addSecs_msecs,
    QDateTime.ofDateTime_ofHMS _ _ _ (by rw [QDateTime.hour_eq]; omega)
      (by rw [QDateTime.hour_eq]; omega) (by decide) (by decide),
    QDateTime.hour_eq, QDateTime.date_jd]
  split <;> omega

theorem helper_halfDaily (t : QDateTime) (bNext : Bool) :
    (computeRollOverDateTimeHelper HalfDailyRollover t bNext).msecs
      = t.msecs / 43200000 * 43200000 + (if bNext then 43200000 else 0) := by
  simp only [computeRollOverDateTimeHelper]
  rw [apply_ite QDateTime.msecs, QDateTime.addSecs_msecs,
    QDateTime.ofDateTime_ofHMS _ _ _ (by split <;> decide) (by split <;> decide)
      (by decide) (by decide),
    QDateTime.hour_eq, QDateTime.date_jd]
  split <;> split <;> omega

theorem helper_daily (t : QDateTime) (bNext : Bool) :
    (computeRollOverDateTimeHelper DailyRollover t bNext).msecs
      = t.msecs / 86400000 * 86400000 + (if bNext then 86400000 else 0) := by
  simp only [computeRollOverDateTimeHelper]
  rw [apply_ite QDateTime.msecs, QDateTime.addDays_msecs, QDateTime.ofDateTime_midnight,
    QDateTime.date_jd]
  split <;> omega

/-- The weekly period starts on the Sunday on or before the date: Julian days that are
6 modulo 7 are Sundays. -/
theorem helper_weekly (t : QDateTime) (bNext : Bool) :
    (computeRollOverDateTimeHelper WeeklyRollover t bNext).msecs
      = ((t.msecs / 86400000 + 2440588 + 1) / 7 * 7 - 1 - 2440588) * 86400000
        + (if bNext then 604800000 else 0) := by
  simp only [computeRollOverDateTimeHelper]
  rw [apply_ite QDateTime.msecs, QDateTime.addDays_msecs, QDateTime.addDays_msecs,
    QDateTime.ofDateTime_midnight, QDate.dayOfWeek_eq, QDateTime.date_jd]
  simp only [Qt.Sunday, beq_iff_eq]
  split <;> split <;> omega


theorem getDate_day_pos (jd : Int) : 1 ≤ (getDateFromJulianDay jd).day := by
  obtain ⟨b, c, d, e, m, hb, hc, hd, he, hm, hg, h0c, hc1, h0d, hd1, h0e, he1, h0m, hm1⟩ :=
    getDate_decomp jd
  rw [hg]
  simp only
  omega

theorem getDate_month_range (jd : Int) :
    1 ≤ (getDateFromJulianDay jd).month ∧ (getDateFromJulianDay jd).month ≤ 12 := by
  obtain ⟨b, c, d, e, m, hb, hc, hd, he, hm, hg, h0c, hc1, h0d, hd1, h0e, he1, h0m, hm1⟩ :=
    getDate_decomp jd
  rw [hg]
  simp only
  clear hb hc hd he hm hg
  omega

theorem getDate_year_ne_zero (jd : Int) : (getDateFromJulianDay jd).year ≠ 0 := by
  simp only [getDateFromJulianDay]
  split <;> omega

/-- The triple that `computeRollOverDateTimeHelper` passes to `QDate(y, m, d)` in the
monthly case is a valid date. -/
theorem isValidYMD_year_month_one (d : QDate) : QDate.isValidYMD d.year d.month 1 = true := by
  have hy := getDate_year_ne_zero d.jd
  have hm := getDate_month_range d.jd
  have hd := daysInMonthOf_ge d.year d.month
  simp only [QDate.isValidYMD, QDate.year, QDate.month, beq_iff_eq, hy, if_false,
    Bool.and_eq_true, decide_eq_true_eq]
  simp only [QDate.year, QDate.month] at hd
  omega

theorem helper_monthly_start (t : QDateTime) :
    (computeRollOverDateTimeHelper MonthlyRollover t false).msecs
      = (t.date.jd - (getDateFromJulianDay t.date.jd).day + 1 - 2440588) * 86400000 := by
  simp only [computeRollOverDateTimeHelper, Bool.false_eq_true, if_false]
  rw [QDateTime.ofDateTime_midnight]
  simp only [QDate.ofYMD, QDate.year, QDate.month, julianDayFromDate_getDate]

theorem helper_monthly_next (t : QDateTime) :
    (computeRollOverDateTimeHelper MonthlyRollover t true).msecs
      = ((QDate.addMonths ⟨t.date.jd - (getDateFromJulianDay t.date.jd).day + 1⟩ 1).jd - 2440588)
          * 86400000 := by
  have h := helper_monthly_start t
  simp only [computeRollOverDateTimeHelper, Bool.false_eq_true, if_false] at h
  simp only [computeRollOverDateTimeHelper, if_true]
  generalize QDateTime.ofDateTime (QDate.ofYMD t.date.year t.date.month 1) (QTime.ofHMS 0 0 0 0)
    = rc at h
  have hd : rc.date = ⟨t.date.jd - (getDateFromJulianDay t.date.jd).day + 1⟩ := by
    simp only [QDateTime.date, MSECS_PER_DAY, JULIAN_DAY_FOR_EPOCH, h]
    congr 1
    omega
  have ht : rc.time = ⟨0⟩ := by
    simp only [QDateTime.time, MSECS_PER_DAY, h]
    congr 1
    omega
  simp only [QDateTime.addMonths, hd, ht, QDateTime.ofDateTime, QTime.isValid, MSECS_PER_DAY,
    JULIAN_DAY_FOR_EPOCH]
  simp

/-- An instant lies in its period on the wall clock: the period start is at or before
it and the next period start is after it. -/
theorem helper_bounds (f : DatePattern) (t : QDateTime) :
    (computeRollOverDateTimeHelper f t false).msecs ≤ t.msecs
    ∧ t.msecs < (computeRollOverDateTimeHelper f t true).msecs := by
  cases f
  · rw [helper_minutely, helper_minutely]; simp only [Bool.false_eq_true, if_false, if_true]; omega
  · rw [helper_hourly, helper_hourly]; simp only [Bool.false_eq_true, if_false, if_true]; omega
  · rw [helper_halfDaily, helper_halfDaily]
    simp only [Bool.false_eq_true, if_false, if_true]; omega
  · rw [helper_daily, helper_daily]; simp only [Bool.false_eq_true, if_false, if_true]; omega
  · rw [helper_weekly, helper_weekly]; simp only [Bool.false_eq_true, if_false, if_true]; omega
  · rw [helper_monthly_start, helper_monthly_next]
    have h1 := getDate_day_pos t.date.jd
    have h2 := lt_addMonths_first_of_month t.date.jd
    rw [QDateTime.date_jd] at *
    constructor <;> omega

/-! ## File-system lemmas -/

theorem QFile.fileExists_iff (fs : FileSystem) (name : QString) :
    QFile.fileExists fs name = true ↔ ∃ e ∈ fs.entries, e.fileName = name := by
  simp [QFile.fileExists]

theorem QFile.remove_entries (fs : FileSystem) (name : QString) :
    (QFile.remove fs name).2.entries
      = if (QFile.remove fs name).1 then fs.entries.filter (fun e => e.fileName != name)
        else fs.entries := by
  unfold QFile.remove
  split <;> rfl

/-- A file that was removed does not exist. -/
theorem QFile.fileExists_remove (fs : FileSystem) (name : QString)
    (h : (QFile.remove fs name).1 = true) :
    QFile.fileExists (QFile.remove fs name).2 name = false := by
  rw [Bool.eq_false_iff]
  intro hex
  rw [QFile.fileExists_iff] at hex
  obtain ⟨e, he, hn⟩ := hex
  rw [QFile.remove_entries, h] at he
  simp at he
  exact he.2 hn

/-- A failed removal leaves the file system as it was. -/
theorem QFile.remove_of_fail (fs : FileSystem) (name : QString)
    (h : (QFile.remove fs name).1 = false) : (QFile.remove fs name).2 = fs := by
  unfold QFile.remove at h ⊢
  by_cases hc : (QFile.fileExists fs name && !fs.removeDenied.contains name) = true
  · rw [if_pos hc] at h; exact absurd h (by simp)
  · rw [if_neg hc]

/-- A failed renaming leaves the file system as it was. -/
theorem QFile.rename_of_fail (fs : FileSystem) (o n : QString)
    (h : (QFile.rename fs o n).1 = false) : (QFile.rename fs o n).2 = fs := by
  unfold QFile.rename at h ⊢
  by_cases hc : (QFile.fileExists fs o && !QFile.fileExists fs n
      && !fs.renameDenied.contains o) = true
  · rw [if_pos hc] at h; exact absurd h (by simp)
  · rw [if_neg hc]

/-- After a renaming that succeeded no file has the old name. -/
theorem QFile.rename_old_gone (fs : FileSystem) (o n : QString)
    (h : (QFile.rename fs o n).1 = true) :
    ∀ e ∈ (QFile.rename fs o n).2.entries, e.fileName ≠ o := by
  unfold QFile.rename at h ⊢
  by_cases hc : (QFile.fileExists fs o && !QFile.fileExists fs n
      && !fs.renameDenied.contains o) = true
  · rw [if_pos hc]
    simp only [Bool.and_eq_true, Bool.not_eq_true', QFile.fileExists_iff] at hc
    obtain ⟨⟨hex, hnex⟩, _⟩ := hc
    have hne : n ≠ o := by
      intro hno
      subst hno
      rw [Bool.eq_false_iff] at hnex
      exact hnex ((QFile.fileExists_iff fs n).2 hex)
    intro e he
    simp only [List.mem_map] at he
    obtain ⟨e0, _, rfl⟩ := he
    split
    · exact hne
    · rename_i hx
      simpa using hx
  · rw [if_neg hc] at h; exact absurd h (by simp)

/-- Removing files one after the other only takes entries away. -/
theorem foldl_remove_subset (names : List QString) (fs : FileSystem) :
    ∀ e ∈ (names.foldl (fun fs name => (QFile.remove fs name).2) fs).entries, e ∈ fs.entries := by
  induction names generalizing fs with
  | nil => intro e he; exact he
  | cons n rest ih =>
    intro e he
    have h1 := ih (QFile.remove fs n).2 e he
    rw [QFile.remove_entries] at h1
    split at h1
    · exact (List.mem_filter.1 h1).1
    · exact h1

theorem QFileInfo.ofName_some (fs : FileSystem) (name : QString) (fi : QFileInfo)
    (h : QFileInfo.ofName fs name = some fi) : fi ∈ fs.entries ∧ fi.fileName = name := by
  unfold QFileInfo.ofName at h
  exact ⟨List.mem_of_find?_eq_some h, by simpa using List.find?_some h⟩


/-! ## Normal forms of the member functions -/

theorem Q_ASSERT_X_eq (c : Bool) (s : State) :
    Q_ASSERT_X c s = { s with assertFailed := s.assertFailed || !c } := by
  cases c
  · simp [Q_ASSERT_X]
  · simp [Q_ASSERT_X]

/-- Function `openFile` touches the file system and the open flag only. -/
theorem openFile_eq (now : QDateTime) (s : State) :
    (openFile now s).1
      = { s with fs := (openFile now s).1.fs, m_logFileOpen := (openFile now s).1.m_logFileOpen } := by
  unfold openFile
  split
  · rfl
  · split <;> rfl

/-- Function `removeOldFiles` touches the file system only. -/
theorem removeOldFiles_eq (s : State) :
    removeOldFiles s = { s with fs := (removeOldFiles s).fs } := by
  unfold removeOldFiles
  split <;> rfl

/-- Function `removeOldFiles` only takes entries away. -/
theorem removeOldFiles_subset (s : State) :
    ∀ e ∈ (removeOldFiles s).fs.entries, e ∈ s.fs.entries := by
  unfold removeOldFiles
  split
  · intro e he; exact he
  · exact foldl_remove_subset _ _

/-- Function `computeLogAndRollOverTimes` sets the two timestamps and checks the pattern. -/
theorem computeLogAndRollOverTimes_eq (now : QDateTime) (s : State) :
    computeLogAndRollOverTimes now s
      = { s with
          assertFailed := s.assertFailed || s.m_datePatternString.isEmpty
          m_currentLogFileTime := computeFileLogTime now s
          m_rollOverTime := computeRollOverDateTimeHelper s.m_frequency now true } := by
  unfold computeLogAndRollOverTimes
  simp only [Q_ASSERT_X_eq, Bool.not_not]
  rfl

/-- Opening a file creates at most the empty file of that name, stamped `now`. -/
theorem QFile.openAppend_entries (now : QDateTime) (fs : FileSystem) (name : QString) :
    ∀ e ∈ (QFile.openAppend now fs name).2.entries,
      e ∈ fs.entries ∨ e = { fileName := name, contents := [], lastModified := now } := by
  unfold QFile.openAppend
  split
  · intro e he; exact Or.inl he
  · split
    · intro e he; exact Or.inl he
    · intro e he
      simp only [List.mem_append, List.mem_singleton] at he
      exact he

theorem openFile_fs (now : QDateTime) (s : State) :
    (openFile now s).1.fs = s.fs
    ∨ (openFile now s).1.fs = (QFile.openAppend now s.fs s.m_logFileName).2 := by
  unfold openFile
  split
  · exact Or.inl rfl
  · split
    · exact Or.inl rfl
    · exact Or.inr rfl

/-- The files that `openFile` leaves at the base name were last modified at `now`, when
no file had the base name before. -/
theorem openFile_fresh (now : QDateTime) (s : State)
    (h : ∀ e ∈ s.fs.entries, e.fileName ≠ s.m_logFileName) :
    ∀ e ∈ (openFile now s).1.fs.entries, e.fileName = s.m_logFileName → e.lastModified = now := by
  intro e he hn
  rcases openFile_fs now s with h1 | h1
  · rw [h1] at he; exact absurd hn (h e he)
  · rw [h1] at he
    rcases QFile.openAppend_entries now s.fs s.m_logFileName e he with h2 | h2
    · exact absurd hn (h e h2)
    · rw [h2]


/-- Function `rollOverCheck` when the current period and `now` have the same suffix. -/
theorem rollOverCheck_noop (now : QDateTime) (s : State)
    (h : (s.m_currentLogFileTime.toString s.m_datePatternString
      == (computeRollOverDateTimeHelper s.m_frequency now false).toString s.m_datePatternString)
        = true) :
    rollOverCheck now s
      = { s with m_forceRollovercheck := false
                 assertFailed := s.assertFailed || s.m_datePatternString.isEmpty } := by
  unfold rollOverCheck
  simp only [Q_ASSERT_X_eq, computeCurrentLogTimeNow, Bool.not_not]
  rw [if_pos h]

/-- Function `rollOverCheck` when the two suffixes differ: the three ways it can end. -/
theorem rollOverCheck_roll (now : QDateTime) (s : State)
    (h : (s.m_currentLogFileTime.toString s.m_datePatternString
      == (computeRollOverDateTimeHelper s.m_frequency now false).toString s.m_datePatternString)
        = false) :
    rollOverCheck now s
      = (let s2 : State := { s with m_forceRollovercheck := false
                                    assertFailed := s.assertFailed || s.m_datePatternString.isEmpty
                                    m_logFileOpen := false }
        let target := s.m_logFileName ++ s.m_currentLogFileTime.toString s.m_datePatternString
        if QFile.fileExists s.fs target = true ∧ (QFile.remove s.fs target).1 = false then s2
        else
          let fs1 := if QFile.fileExists s.fs target then (QFile.remove s.fs target).2 else s.fs
          if (QFile.rename fs1 s.m_logFileName target).1 = false then { s2 with fs := fs1 }
          else computeLogAndRollOverTimes now (removeOldFiles (openFile now
            { s2 with fs := (QFile.rename fs1 s.m_logFileName target).2 }).1)) := by
  unfold rollOverCheck
  simp only [Q_ASSERT_X_eq, computeCurrentLogTimeNow, Bool.not_not, closeFile, fileName]
  rw [if_neg (by rw [h]; decide)]
  by_cases hex : QFile.fileExists s.fs
      (s.m_logFileName ++ s.m_currentLogFileTime.toString s.m_datePatternString) = true
  · simp only [hex, if_true, true_and]
    rcases hrm : QFile.remove s.fs
      (s.m_logFileName ++ s.m_currentLogFileTime.toString s.m_datePatternString) with ⟨ok, fs1⟩
    cases ok
    · have hfs : fs1 = s.fs := by
        have := QFile.remove_of_fail s.fs _ (by rw [hrm])
        rw [hrm] at this
        exact this
      subst hfs
      simp
    · simp only [Bool.true_eq_false, if_false]
      rcases hrn : QFile.rename fs1 s.m_logFileName
        (s.m_logFileName ++ s.m_currentLogFileTime.toString s.m_datePatternString) with ⟨ok2, fs2⟩
      cases ok2
      · have hfs : fs2 = fs1 := by
          have := QFile.rename_of_fail fs1 _ _ (by rw [hrn])
          rw [hrn] at this
          exact this
        subst hfs
        simp
      · simp
  · simp only [hex, Bool.false_eq_true, if_false, false_and]
    rcases hrn : QFile.rename s.fs s.m_logFileName
      (s.m_logFileName ++ s.m_currentLogFileTime.toString s.m_datePatternString) with ⟨ok2, fs2⟩
    cases ok2
    · have hfs : fs2 = s.fs := by
        have := QFile.rename_of_fail s.fs _ _ (by rw [hrn])
        rw [hrn] at this
        exact this
      subst hfs
      simp
    · simp


/-- The period of the log file is the period of `now` when every file at the base name
was last modified at `now`. -/
theorem computeFileLogTime_of_fresh (now : QDateTime) (s : State)
    (h : ∀ e ∈ s.fs.entries, e.fileName = s.m_logFileName → e.lastModified = now) :
    computeFileLogTime now s = computeRollOverDateTimeHelper s.m_frequency now false := by
  unfold computeFileLogTime
  split
  · split
    · rename_i fi hfi
      obtain ⟨hmem, hname⟩ := QFileInfo.ofName_some _ _ _ hfi
      simp only [fileName] at hname
      rw [h fi hmem hname]
    · rfl
  · rfl

/-- After a rollover that went through, the suffix of the current period is the suffix of
`now`. -/
theorem computeFileLogTime_after_rollover (now : QDateTime) (s : State) (fs1 : FileSystem)
    (target : QString)
    (hrn : (QFile.rename fs1 s.m_logFileName target).1 = true) :
    computeFileLogTime now (removeOldFiles (openFile now
        { s with fs := (QFile.rename fs1 s.m_logFileName target).2 }).1)
      = computeRollOverDateTimeHelper s.m_frequency now false := by
  have hgone := QFile.rename_old_gone fs1 s.m_logFileName target hrn
  have hfresh := openFile_fresh now
    { s with fs := (QFile.rename fs1 s.m_logFileName target).2 } hgone
  have h1 := computeFileLogTime_of_fresh now (removeOldFiles (openFile now
        { s with fs := (QFile.rename fs1 s.m_logFileName target).2 }).1)
  rw [removeOldFiles_eq, openFile_eq] at h1
  rw [removeOldFiles_eq, openFile_eq]
  apply h1
  intro e he hn
  have he2 := removeOldFiles_subset _ e he
  exact hfresh e he2 hn


/-- A second `rollOverCheck` at the same instant changes nothing. -/
theorem rollOverCheck_idempotent (now : QDateTime) (s : State) :
    rollOverCheck now (rollOverCheck now s) = rollOverCheck now s := by
  by_cases h : (s.m_currentLogFileTime.toString s.m_datePatternString
      == (computeRollOverDateTimeHelper s.m_frequency now false).toString s.m_datePatternString)
        = true
  · rw [rollOverCheck_noop now s h, rollOverCheck_noop]
    · simp [Bool.or_assoc]
    · exact h
  · have h : (s.m_currentLogFileTime.toString s.m_datePatternString
      == (computeRollOverDateTimeHelper s.m_frequency now false).toString s.m_datePatternString)
        = false := by simpa using h
    rw [rollOverCheck_roll now s h]
    simp only
    by_cases hab : QFile.fileExists s.fs
        (s.m_logFileName ++ s.m_currentLogFileTime.toString s.m_datePatternString) = true
      ∧ (QFile.remove s.fs
        (s.m_logFileName ++ s.m_currentLogFileTime.toString s.m_datePatternString)).1 = false
    · rw [if_pos hab, rollOverCheck_roll]
      · simp only
        rw [if_pos hab]
        simp [Bool.or_assoc]
      · exact h
    · rw [if_neg hab]
      generalize hfs1 : (if QFile.fileExists s.fs
          (s.m_logFileName ++ s.m_currentLogFileTime.toString s.m_datePatternString) = true
        then (QFile.remove s.fs
          (s.m_logFileName ++ s.m_currentLogFileTime.toString s.m_datePatternString)).2
        else s.fs) = fs1
      have hnex : QFile.fileExists fs1
          (s.m_logFileName ++ s.m_currentLogFileTime.toString s.m_datePatternString) = false := by
        rw [← hfs1]
        split
        · rename_i hex
          apply QFile.fileExists_remove
          by_contra hc
          exact hab ⟨hex, by simpa using hc⟩
        · rename_i hex
          simpa using hex
      by_cases hrn : (QFile.rename fs1 s.m_logFileName
          (s.m_logFileName ++ s.m_currentLogFileTime.toString s.m_datePatternString)).1 = false
      · rw [if_pos hrn, rollOverCheck_roll]
        · simp only [hnex, Bool.false_eq_true, false_and, if_false]
          rw [if_pos hrn]
          simp [Bool.or_assoc]
        · exact h
      · rw [if_neg hrn]
        have hrn : (QFile.rename fs1 s.m_logFileName
          (s.m_logFileName ++ s.m_currentLogFileTime.toString s.m_datePatternString)).1 = true := by
          simpa using hrn
        have hcur := computeFileLogTime_after_rollover now
          { s with m_forceRollovercheck := false
                   assertFailed := s.assertFailed || s.m_datePatternString.isEmpty
                   m_logFileOpen := false } fs1 _ hrn
        rw [computeLogAndRollOverTimes_eq, rollOverCheck_noop]
        · rw [removeOldFiles_eq, openFile_eq]
          simp [Bool.or_assoc]
        · rw [hcur]
          rw [removeOldFiles_eq, openFile_eq]
          simp


/-- Removing a file only takes entries away. -/
theorem QFile.remove_subset (fs : FileSystem) (name : QString) :
    ∀ e ∈ (QFile.remove fs name).2.entries, e ∈ fs.entries := by
  intro e he
  rw [QFile.remove_entries] at he
  split at he
  · exact (List.mem_filter.1 he).1
  · exact he

/-- After a renaming every file has the name of an old file or the new name, and the old
name was the name of a file when the renaming succeeded. -/
theorem QFile.rename_names (fs : FileSystem) (o n : QString) :
    (∀ e ∈ (QFile.rename fs o n).2.entries,
      (∃ e0 ∈ fs.entries, e0.fileName = e.fileName) ∨ e.fileName = n)
    ∧ ((QFile.rename fs o n).1 = true → ∃ e0 ∈ fs.entries, e0.fileName = o) := by
  unfold QFile.rename
  by_cases hc : (QFile.fileExists fs o && !QFile.fileExists fs n
      && !fs.renameDenied.contains o) = true
  · rw [if_pos hc]
    simp only [Bool.and_eq_true, QFile.fileExists_iff] at hc
    refine ⟨?_, fun _ => hc.1.1⟩
    intro e he
    simp only [List.mem_map] at he
    obtain ⟨e0, he0, rfl⟩ := he
    split
    · exact Or.inr rfl
    · exact Or.inl ⟨e0, he0, rfl⟩
  · rw [if_neg hc]
    exact ⟨fun e he => Or.inl ⟨e, he, rfl⟩, fun h => absurd h (by simp)⟩

/-- The only file name that `rollOverCheck` can add to the directory is the name of the
archive, the base name followed by the suffix of the current period. -/
theorem rollOverCheck_new_names (now : QDateTime) (s : State) :
    ∀ e ∈ (rollOverCheck now s).fs.entries,
      (∃ e0 ∈ s.fs.entries, e0.fileName = e.fileName)
      ∨ e.fileName = fileName s ++ s.m_currentLogFileTime.toString s.m_datePatternString := by
  by_cases h : (s.m_currentLogFileTime.toString s.m_datePatternString
      == (computeRollOverDateTimeHelper s.m_frequency now false).toString s.m_datePatternString)
        = true
  · rw [rollOverCheck_noop now s h]
    intro e he
    exact Or.inl ⟨e, he, rfl⟩
  · have h : (s.m_currentLogFileTime.toString s.m_datePatternString
      == (computeRollOverDateTimeHelper s.m_frequency now false).toString s.m_datePatternString)
        = false := by simpa using h
    rw [rollOverCheck_roll now s h]
    simp only
    have hfs1 : ∀ e ∈ (if QFile.fileExists s.fs
          (s.m_logFileName ++ s.m_currentLogFileTime.toString s.m_datePatternString) = true
        then (QFile.remove s.fs
          (s.m_logFileName ++ s.m_currentLogFileTime.toString s.m_datePatternString)).2
        else s.fs).entries, e ∈ s.fs.entries := by
      intro e he
      split at he
      · exact QFile.remove_subset _ _ e he
      · exact he
    generalize (if QFile.fileExists s.fs
          (s.m_logFileName ++ s.m_currentLogFileTime.toString s.m_datePatternString) = true
        then (QFile.remove s.fs
          (s.m_logFileName ++ s.m_currentLogFileTime.toString s.m_datePatternString)).2
        else s.fs) = fs1 at hfs1
    split
    · intro e he
      exact Or.inl ⟨e, he, rfl⟩
    · split
      · intro e he
        exact Or.inl ⟨e, hfs1 e he, rfl⟩
      · rename_i hrn
        have hrn : (QFile.rename fs1 s.m_logFileName
          (s.m_logFileName ++ s.m_currentLogFileTime.toString s.m_datePatternString)).1 = true := by
          simpa using hrn
        obtain ⟨hnames, hold⟩ := QFile.rename_names fs1 s.m_logFileName
          (s.m_logFileName ++ s.m_currentLogFileTime.toString s.m_datePatternString)
        intro e he
        rw [computeLogAndRollOverTimes_eq] at he
        have he2 := removeOldFiles_subset _ e he
        have hopen : e ∈ (QFile.rename fs1 s.m_logFileName
            (s.m_logFileName ++ s.m_currentLogFileTime.toString s.m_datePatternString)).2.entries
            ∨ e = { fileName := s.m_logFileName, contents := [], lastModified := now } := by
          rcases openFile_fs now _ with h1 | h1
          · rw [h1] at he2; exact Or.inl he2
          · rw [h1] at he2
            exact QFile.openAppend_entries now _ _ e he2
        rcases hopen with hin | hfresh
        · rcases hnames e hin with ⟨e0, he0, hn⟩ | hn
          · exact Or.inl ⟨e0, hfs1 e0 he0, hn⟩
          · exact Or.inr hn
        · obtain ⟨e0, he0, hn⟩ := hold hrn
          refine Or.inl ⟨e0, hfs1 e0 he0, ?_⟩
          rw [hfresh, hn]


/-- C10. Calling `rollOverCheck` twice in a row with the clock held at `now` is the same
as calling it once: the second call leaves every member of the appender (the schedule
`m_currentLogFileTime`, `m_rollOverTime` among them) and the whole file system exactly as
the first call left them, so it archives, removes and creates nothing. The two calls
together add at most one file name to the directory, the name of the archive. -/
theorem C10_rollOverCheck_twice (now : QDateTime) (s : State) :
    rollOverCheck now (rollOverCheck now s) = rollOverCheck now s
    ∧ ∀ e ∈ (rollOverCheck now (rollOverCheck now s)).fs.entries,
        (∃ e0 ∈ s.fs.entries, e0.fileName = e.fileName)
        ∨ e.fileName = fileName s ++ s.m_currentLogFileTime.toString s.m_datePatternString := by
  refine ⟨rollOverCheck_idempotent now s, ?_⟩
  rw [rollOverCheck_idempotent]
  exact rollOverCheck_new_names now s

theorem QDateTime.ext_msecs {a b : QDateTime} (h : a.msecs = b.msecs) : a = b := by
  cases a; cases b; simp only at h; rw [h]

/-- With a retention limit of at most 1 `removeOldFiles` does nothing. -/
theorem removeOldFiles_of_le (s : State) (h : s.m_logFilesLimit ≤ 1) : removeOldFiles s = s := by
  unfold removeOldFiles
  rw [if_pos h]

/-- Without the last-modified basis the period of the log file is the period of `now`. -/
theorem computeFileLogTime_of_clock (now : QDateTime) (s : State)
    (h : s.m_computeRollOverBasedOnLastModified = false) :
    computeFileLogTime now s = computeRollOverDateTimeHelper s.m_frequency now false := by
  unfold computeFileLogTime
  simp only [h, Bool.false_and, Bool.false_eq_true, if_false]

theorem bne_symm (a b : QString) : (a != b) = (b != a) := by
  rw [Bool.eq_iff_iff, bne_iff_ne, bne_iff_ne]
  exact ne_comm

/-- The chain of comparisons of `computeFrequency` is the search for the first probe
whose output differs from the output of the reference instant. -/
theorem computeFrequency_eq (s : State) :
    computeFrequency s
      = match inferFrequency s.m_datePatternString with
        | some f => { s with m_frequency := f }
        | none => { s with assertFailed := true } := by
  unfold computeFrequency inferFrequency frequencyProbes
  simp only [List.find?, referenceInstant, Q_ASSERT_X]
  generalize (QDateTime.ofDateTime (QDate.ofYMD 1999 1 1) (QTime.ofHMS 0 0 0 0)).toString
      s.m_datePatternString = a0
  generalize ((QDateTime.ofDateTime (QDate.ofYMD 1999 1 1) (QTime.ofHMS 0 0 0 0)).addSecs
    60).toString s.m_datePatternString = a1
  generalize ((QDateTime.ofDateTime (QDate.ofYMD 1999 1 1) (QTime.ofHMS 0 0 0 0)).addSecs
    (60 * 60)).toString s.m_datePatternString = a2
  generalize ((QDateTime.ofDateTime (QDate.ofYMD 1999 1 1) (QTime.ofHMS 0 0 0 0)).addSecs
    (60 * 60 * 12)).toString s.m_datePatternString = a3
  generalize ((QDateTime.ofDateTime (QDate.ofYMD 1999 1 1) (QTime.ofHMS 0 0 0 0)).addDays
    1).toString s.m_datePatternString = a4
  generalize ((QDateTime.ofDateTime (QDate.ofYMD 1999 1 1) (QTime.ofHMS 0 0 0 0)).addDays
    7).toString s.m_datePatternString = a5
  generalize ((QDateTime.ofDateTime (QDate.ofYMD 1999 1 1) (QTime.ofHMS 0 0 0 0)).addMonths
    1).toString s.m_datePatternString = a6
  rw [bne_symm a0 a1, bne_symm a0 a2, bne_symm a0 a3, bne_symm a0 a4, bne_symm a0 a5,
    bne_symm a0 a6]
  cases (a1 != a0) <;> cases (a2 != a0) <;> cases (a3 != a0) <;> cases (a4 != a0)
    <;> cases (a5 != a0) <;> cases (a6 != a0) <;> rfl

/-- Inference finds nothing exactly when the six probes are formatted like the reference
instant. -/
theorem inferFrequency_eq_none (pattern : QString) :
    inferFrequency pattern = none
      ↔ ∀ probe ∈ frequencyProbes,
          probe.1.toString pattern = referenceInstant.toString pattern := by
  unfold inferFrequency
  simp [List.find?_eq_none]



/-- C8. `computeFrequency` carries out the inference of the specification: when the six
probes are all formatted like the reference instant (`inferFrequency` is `none`) it
reaches the failing assertion and assigns no frequency; otherwise it assigns the
granularity of the first probe, in probe order, that is formatted differently. -/
theorem C8_computeFrequency_infers (s : State) :
    (inferFrequency s.m_datePatternString = none
      ↔ ∀ probe ∈ frequencyProbes,
          probe.1.toString s.m_datePatternString
            = referenceInstant.toString s.m_datePatternString)
    ∧ (inferFrequency s.m_datePatternString
        = (frequencyProbes.find? (fun probe => probe.1.toString s.m_datePatternString
            != referenceInstant.toString s.m_datePatternString)).map Prod.snd)
    ∧ computeFrequency s
      = match inferFrequency s.m_datePatternString with
        | some f => { s with m_frequency := f }
        | none => { s with assertFailed := true } :=
  ⟨inferFrequency_eq_none _, rfl, computeFrequency_eq s⟩

theorem setDatePattern_pattern (now : QDateTime) (f : DatePattern) (s : State) :
    (setDatePattern now f s).m_datePatternString
      = match f with
        | MinutelyRollover => qs "'.'yyyy-MM-dd-hh-mm"
        | HourlyRollover => qs "'.'yyyy-MM-dd-hh"
        | HalfDailyRollover => qs "'.'yyyy-MM-dd-a"
        | DailyRollover => qs "'.'yyyy-MM-dd"
        | WeeklyRollover => qs "'.'yyyy-ww"
        | MonthlyRollover => qs "'.'yyyy-MM" := by
  unfold setDatePattern
  rw [computeLogAndRollOverTimes_eq]
  cases f <;> rfl

/-- C9. Frequency inference on the pattern that `setDatePattern(f)` installs: for the
minutely, hourly, half-daily, daily and monthly pattern it assigns `f`; for the weekly
pattern `'.'yyyy-ww` it reaches the failing assertion and assigns nothing. -/
theorem C9_canonical_patterns (now : QDateTime) (f : DatePattern) (s : State) :
    computeFrequency (setDatePatternString (setDatePattern now f s).m_datePatternString s)
      = if f = WeeklyRollover then
          { s with m_datePatternString := qs "'.'yyyy-ww", assertFailed := true }
        else
          { s with m_datePatternString := (setDatePattern now f s).m_datePatternString
                   m_frequency := f } := by
  rw [computeFrequency_eq, setDatePattern_pattern]
  cases f
  · have h : inferFrequency (qs "'.'yyyy-MM-dd-hh-mm") = some MinutelyRollover := by decide
    simp only [setDatePatternString, h]
    rfl
  · have h : inferFrequency (qs "'.'yyyy-MM-dd-hh") = some HourlyRollover := by decide
    simp only [setDatePatternString, h]
    rfl
  · have h : inferFrequency (qs "'.'yyyy-MM-dd-a") = some HalfDailyRollover := by decide
    simp only [setDatePatternString, h]
    rfl
  · have h : inferFrequency (qs "'.'yyyy-MM-dd") = some DailyRollover := by decide
    simp only [setDatePatternString, h]
    rfl
  · have h : inferFrequency (qs "'.'yyyy-ww") = none := by decide
    simp only [setDatePatternString, h]
    rfl
  · have h : inferFrequency (qs "'.'yyyy-MM") = some MonthlyRollover := by decide
    simp only [setDatePatternString, h]
    rfl

/-- C7, counterexample. An appender configured daily on 2024-03-10 is given the custom
pattern `'.'yyyy` on 2024-03-12. Inference fails for this pattern, and yet the stored
pattern and the schedule are no longer what they were. -/
theorem C7_counterexample :
    inferFrequency (qs "'.'yyyy") = none
    ∧ (setDatePatternQString (instant 2024 3 12 8 0) (qs "'.'yyyy")
        (configured (instant 2024 3 10 12 0) DailyRollover emptyDirectory)).m_datePatternString
      ≠ (configured (instant 2024 3 10 12 0) DailyRollover emptyDirectory).m_datePatternString
    ∧ (setDatePatternQString (instant 2024 3 12 8 0) (qs "'.'yyyy")
        (configured (instant 2024 3 10 12 0) DailyRollover emptyDirectory)).m_currentLogFileTime
      ≠ (configured (instant 2024 3 10 12 0) DailyRollover emptyDirectory).m_currentLogFileTime
    ∧ (setDatePatternQString (instant 2024 3 12 8 0) (qs "'.'yyyy")
        (configured (instant 2024 3 10 12 0) DailyRollover emptyDirectory)).m_rollOverTime
      ≠ (configured (instant 2024 3 10 12 0) DailyRollover emptyDirectory).m_rollOverTime := by
  decide

/-- C7, amended. When inference fails for a custom pattern, `setDatePattern(pattern)`
leaves the frequency as it was, stores the pattern all the same and recomputes the two
timestamps of the schedule under the old frequency; the failed assertion is recorded, and
no other member changes. -/
theorem C7_failed_inference_keeps_frequency (now : QDateTime) (pattern : QString) (s : State)
    (h : inferFrequency pattern = none) :
    setDatePatternQString now pattern s
      = { s with m_datePatternString := pattern
                 assertFailed := true
                 m_currentLogFileTime := computeFileLogTime now s
                 m_rollOverTime := computeRollOverDateTimeHelper s.m_frequency now true } := by
  unfold setDatePatternQString
  simp only [computeFrequency_eq, setDatePatternString, h, computeLogAndRollOverTimes_eq,
    Bool.true_or]
  rfl

/-- Witness of the amended C7: the yearly pattern `'.'yyyy` given to an appender that was
configured daily. -/
theorem C7_failed_inference_keeps_frequency_witness :
    inferFrequency (qs "'.'yyyy") = none
    ∧ setDatePatternQString (instant 2024 3 12 8 0) (qs "'.'yyyy")
        (configured (instant 2024 3 10 12 0) DailyRollover emptyDirectory)
      = { configured (instant 2024 3 10 12 0) DailyRollover emptyDirectory with
            m_datePatternString := qs "'.'yyyy"
            assertFailed := true
            m_currentLogFileTime := computeFileLogTime (instant 2024 3 12 8 0)
              (configured (instant 2024 3 10 12 0) DailyRollover emptyDirectory)
            m_rollOverTime := computeRollOverDateTimeHelper
              (configured (instant 2024 3 10 12 0) DailyRollover emptyDirectory).m_frequency
              (instant 2024 3 12 8 0) true } :=
  ⟨by decide, C7_failed_inference_keeps_frequency _ _ _ (by decide)⟩


/-- C2, the code at the failing input. An appender is configured weekly on Monday
2024-03-11 over an `app.log` that holds `old`; its schedule says the next rollover is due
on Sunday 2024-03-17 00:00. A write of `new` on 2024-03-18 09:00, after that time, leaves
`app.log` as the only file and appends to it: the pattern `'.'yyyy-ww` formats both the
old and the new period as `.2024-ww`. The same run with the daily frequency archives the
file as `app.log.2024-03-11`. -/
theorem C2_weekly_period_not_archived :
    (configured (instant 2024 3 11 12 0) WeeklyRollover
        (directoryOf [{ fileName := qs "app.log", contents := qs "old",
                        lastModified := instant 2024 3 11 11 0 }])).m_rollOverTime
      = instant 2024 3 17 0 0
    ∧ instant 2024 3 18 9 0 ≥ instant 2024 3 17 0 0
    ∧ (instant 2024 3 11 0 0).toString (qs "'.'yyyy-ww") = qs ".2024-ww"
    ∧ (instant 2024 3 18 0 0).toString (qs "'.'yyyy-ww") = qs ".2024-ww"
    ∧ (append (instant 2024 3 18 9 0) (qs "new")
        (configured (instant 2024 3 11 12 0) WeeklyRollover
          (directoryOf [{ fileName := qs "app.log", contents := qs "old",
                          lastModified := instant 2024 3 11 11 0 }]))).fs.entries
      = [{ fileName := qs "app.log", contents := qs "oldnew",
           lastModified := instant 2024 3 18 9 0 }]
    ∧ (append (instant 2024 3 18 9 0) (qs "new")
        (configured (instant 2024 3 11 12 0) DailyRollover
          (directoryOf [{ fileName := qs "app.log", contents := qs "old",
                          lastModified := instant 2024 3 11 11 0 }]))).fs.entries
      = [{ fileName := qs "app.log.2024-03-11", contents := qs "old",
           lastModified := instant 2024 3 11 11 0 },
         { fileName := qs "app.log", contents := qs "new",
           lastModified := instant 2024 3 18 9 0 }] := by
  decide

/-- C5, counterexample. With retention limit 3 and the archives `.2024-01` to `.2024-04`
of `app.log`, `removeOldFiles` does not leave the three archives `.2024-02`, `.2024-03`
and `.2024-04`: the archive `.2024-02` is removed as well. -/
theorem C5_counterexample :
    (parseableArchives (removeOldFiles (setLogFilesLimit 3
        (configured (instant 2024 4 10 12 0) MonthlyRollover monthlyArchives)))).map
          (fun e => e.fileName)
      ≠ [qs "app.log.2024-02", qs "app.log.2024-03", qs "app.log.2024-04"]
    ∧ QFile.fileExists (removeOldFiles (setLogFilesLimit 3
        (configured (instant 2024 4 10 12 0) MonthlyRollover monthlyArchives))).fs
          (qs "app.log.2024-02") = false := by
  decide

/-- C5, amended. With retention limit 3 and the archives `.2024-01` to `.2024-04` of
`app.log`, after `removeOldFiles` exactly the two archives `.2024-03` and `.2024-04`
remain next to the active file: `.2024-01` and `.2024-02` are removed. -/
theorem C5_monthly_scenario :
    (removeOldFiles (setLogFilesLimit 3
        (configured (instant 2024 4 10 12 0) MonthlyRollover monthlyArchives))).fs.entries
      = [emptyFile "app.log", emptyFile "app.log.2024-03", emptyFile "app.log.2024-04"]
    ∧ (parseableArchives (removeOldFiles (setLogFilesLimit 3
        (configured (instant 2024 4 10 12 0) MonthlyRollover monthlyArchives)))).map
          (fun e => e.fileName)
      = [qs "app.log.2024-03", qs "app.log.2024-04"] := by
  decide


/-! ## The timestamp map -/

theorem QDateTime.lt_irrefl (a : QDateTime) : ¬ a < a := Int.lt_irrefl a.msecs

theorem QDateTime.lt_trans {a b c : QDateTime} (h1 : a < b) (h2 : b < c) : a < c :=
  Int.lt_trans h1 h2

theorem QDateTime.eq_of_not_lt {a b : QDateTime} (h1 : ¬ a < b) (h2 : ¬ b < a) : a = b := by
  apply QDateTime.ext_msecs
  rw [QDateTime.lt_def] at h1 h2
  omega

/-- Membership in a map after `QMap::insert`: the new entry, and the old entries under
other keys. -/
theorem QMap.mem_insert (m : QMap) (k : QDateTime) (v : QString)
    (hs : (m.map Prod.fst).Pairwise (· < ·)) (p : QDateTime × QString) :
    p ∈ QMap.insert m k v ↔ p = (k, v) ∨ (p ∈ m ∧ p.1 ≠ k) := by
  induction m with
  | nil => simp [QMap.insert]
  | cons hd tl ih =>
    obtain ⟨k2, v2⟩ := hd
    simp only [List.map_cons, List.pairwise_cons] at hs
    obtain ⟨hhd, htl⟩ := hs
    unfold QMap.insert
    by_cases h1 : k < k2
    · rw [if_pos h1]
      simp only [List.mem_cons]
      constructor
      · rintro (h | h | h)
        · exact Or.inl h
        · refine Or.inr ⟨Or.inl h, ?_⟩
          rw [h]
          intro e
          simp only at e
          rw [e] at h1
          exact QDateTime.lt_irrefl _ h1
        · refine Or.inr ⟨Or.inr h, ?_⟩
          intro e
          have := hhd p.1 (List.mem_map_of_mem _ h)
          rw [e] at this
          exact QDateTime.lt_irrefl _ (QDateTime.lt_trans h1 this)
      · rintro (h | ⟨h | h, _⟩)
        · exact Or.inl h
        · exact Or.inr (Or.inl h)
        · exact Or.inr (Or.inr h)
    · rw [if_neg h1]
      by_cases h2 : k2 < k
      · rw [if_pos h2]
        simp only [List.mem_cons, ih htl]
        constructor
        · rintro (h | h | ⟨h, hne⟩)
          · refine Or.inr ⟨Or.inl h, ?_⟩
            rw [h]
            intro e
            simp only at e
            rw [e] at h2
            exact QDateTime.lt_irrefl _ h2
          · exact Or.inl h
          · exact Or.inr ⟨Or.inr h, hne⟩
        · rintro (h | ⟨h | h, hne⟩)
          · exact Or.inr (Or.inl h)
          · exact Or.inl h
          · exact Or.inr (Or.inr ⟨h, hne⟩)
      · rw [if_neg h2]
        have hk : k = k2 := QDateTime.eq_of_not_lt h1 h2
        subst hk
        simp only [List.mem_cons]
        constructor
        · rintro (h | h)
          · exact Or.inl h
          · refine Or.inr ⟨Or.inr h, ?_⟩
            intro e
            have := hhd p.1 (List.mem_map_of_mem _ h)
            rw [e] at this
            exact QDateTime.lt_irrefl _ this
        · rintro (h | ⟨h | h, hne⟩)
          · exact Or.inl h
          · rw [h] at hne
            exact absurd rfl hne
          · exact Or.inr h

/-- Insertion with `QMap::insert` keeps the keys in strictly ascending order. -/
theorem QMap.sorted_insert (m : QMap) (k : QDateTime) (v : QString)
    (hs : (m.map Prod.fst).Pairwise (· < ·)) :
    ((QMap.insert m k v).map Prod.fst).Pairwise (· < ·) := by
  induction m with
  | nil => simp [QMap.insert]
  | cons hd tl ih =>
    obtain ⟨k2, v2⟩ := hd
    have hs0 := hs
    simp only [List.map_cons, List.pairwise_cons] at hs
    obtain ⟨hhd, htl⟩ := hs
    unfold QMap.insert
    by_cases h1 : k < k2
    · rw [if_pos h1]
      simp only [List.map_cons, List.pairwise_cons]
      refine ⟨?_, hhd, htl⟩
      intro a ha
      simp only [List.mem_cons] at ha
      rcases ha with ha | ha
      · rw [ha]; exact h1
      · exact QDateTime.lt_trans h1 (hhd a ha)
    · rw [if_neg h1]
      by_cases h2 : k2 < k
      · rw [if_pos h2]
        simp only [List.map_cons, List.pairwise_cons]
        refine ⟨?_, ih htl⟩
        intro a ha
        obtain ⟨p, hp, rfl⟩ := List.mem_map.1 ha
        rcases (QMap.mem_insert tl k v htl p).1 hp with h | ⟨h, _⟩
        · rw [h]; exact h2
        · exact hhd p.1 (List.mem_map_of_mem _ h)
      · rw [if_neg h2]
        have hk : k = k2 := QDateTime.eq_of_not_lt h1 h2
        subst hk
        simp only [List.map_cons, List.pairwise_cons]
        exact ⟨hhd, htl⟩


theorem fileDates_eq (s : State) :
    fileDates s = (entryInfoList s.fs (fileName s)).foldl
      (fun m info => match suffixTime s info with
        | some t => QMap.insert m t info.fileName
        | none => m) [] := rfl

/-- What the loop that fills the timestamp map keeps true: the keys stay in ascending
order, every entry of the map was in it before or comes from a file of the listing, and
the timestamp of every file of the listing is a key. -/
theorem fileDates_fold (s : State) (L : List QFileInfo) (m : QMap)
    (hs : (m.map Prod.fst).Pairwise (· < ·)) :
    ((L.foldl (fun m info => match suffixTime s info with
        | some t => QMap.insert m t info.fileName
        | none => m) m).map Prod.fst).Pairwise (· < ·)
    ∧ (∀ p ∈ L.foldl (fun m info => match suffixTime s info with
        | some t => QMap.insert m t info.fileName
        | none => m) m,
        p ∈ m ∨ ∃ e ∈ L, suffixTime s e = some p.1 ∧ e.fileName = p.2)
    ∧ (∀ k, (k ∈ m.map Prod.fst ∨ ∃ e ∈ L, suffixTime s e = some k) →
        k ∈ (L.foldl (fun m info => match suffixTime s info with
          | some t => QMap.insert m t info.fileName
          | none => m) m).map Prod.fst) := by
  induction L generalizing m with
  | nil =>
    refine ⟨hs, fun p hp => Or.inl hp, ?_⟩
    rintro k (h | ⟨e, he, _⟩)
    · exact h
    · exact absurd he (List.not_mem_nil e)
  | cons e L ih =>
    simp only [List.foldl_cons]
    cases hts : suffixTime s e with
    | none =>
      simp only
      obtain ⟨h1, h2, h3⟩ := ih m hs
      refine ⟨h1, ?_, ?_⟩
      · intro p hp
        rcases h2 p hp with h | ⟨e2, he2, h⟩
        · exact Or.inl h
        · exact Or.inr ⟨e2, List.mem_cons_of_mem _ he2, h⟩
      · rintro k (h | ⟨e2, he2, h⟩)
        · exact h3 k (Or.inl h)
        · rcases List.mem_cons.1 he2 with rfl | he2
          · rw [hts] at h; exact absurd h (by simp)
          · exact h3 k (Or.inr ⟨e2, he2, h⟩)
    | some t =>
      simp only
      obtain ⟨h1, h2, h3⟩ := ih (QMap.insert m t e.fileName) (QMap.sorted_insert m t _ hs)
      refine ⟨h1, ?_, ?_⟩
      · intro p hp
        rcases h2 p hp with h | ⟨e2, he2, h⟩
        · rcases (QMap.mem_insert m t _ hs p).1 h with h | ⟨h, _⟩
          · refine Or.inr ⟨e, List.mem_cons_self _ _, ?_, ?_⟩
            · rw [h]; exact hts
            · rw [h]
          · exact Or.inl h
        · exact Or.inr ⟨e2, List.mem_cons_of_mem _ he2, h⟩
      · have hkey : ∀ k, k ∈ m.map Prod.fst ∨ k = t →
            k ∈ (QMap.insert m t e.fileName).map Prod.fst := by
          rintro k (h | h)
          · obtain ⟨p, hp, rfl⟩ := List.mem_map.1 h
            by_cases hpk : p.1 = t
            · rw [hpk]
              exact List.mem_map.2 ⟨(t, e.fileName),
                (QMap.mem_insert m t _ hs _).2 (Or.inl rfl), rfl⟩
            · exact List.mem_map.2 ⟨p, (QMap.mem_insert m t _ hs _).2 (Or.inr ⟨hp, hpk⟩), rfl⟩
          · rw [h]
            exact List.mem_map.2 ⟨(t, e.fileName),
              (QMap.mem_insert m t _ hs _).2 (Or.inl rfl), rfl⟩
        rintro k (h | ⟨e2, he2, h⟩)
        · exact h3 k (Or.inl (hkey k (Or.inl h)))
        · rcases List.mem_cons.1 he2 with rfl | he2
          · rw [hts] at h
            exact h3 k (Or.inl (hkey k (Or.inr (Option.some.inj h).symm)))
          · exact h3 k (Or.inr ⟨e2, he2, h⟩)

/-- The timestamp map of a state: keys ascending, every entry the timestamp and name of
an archive, every timestamp of an archive a key. -/
theorem fileDates_spec (s : State) :
    ((fileDates s).map Prod.fst).Pairwise (· < ·)
    ∧ (∀ p ∈ fileDates s, ∃ e ∈ parseableArchives s,
        suffixTime s e = some p.1 ∧ e.fileName = p.2)
    ∧ (∀ e ∈ parseableArchives s, ∀ t, suffixTime s e = some t →
        t ∈ (fileDates s).map Prod.fst) := by
  obtain ⟨h1, h2, h3⟩ := fileDates_fold s (entryInfoList s.fs (fileName s)) []
    (by simp)
  rw [← fileDates_eq] at h1 h2 h3
  refine ⟨h1, ?_, ?_⟩
  · intro p hp
    rcases h2 p hp with h | ⟨e, he, hts, hn⟩
    · exact absurd h (List.not_mem_nil p)
    · refine ⟨e, ?_, hts, hn⟩
      simp only [parseableArchives, List.mem_filter]
      exact ⟨he, by rw [hts]; rfl⟩
  · intro e he t hts
    apply h3 t
    refine Or.inr ⟨e, ?_, hts⟩
    simp only [parseableArchives, List.mem_filter] at he
    exact he.1

/-- The listing on examples: an archive of the base name is listed, also when its letters
differ in case; a file whose name starts with a dot is hidden and is not listed, so a
base name that starts with a dot has no listed archive; a bracket of the base name opens
a character set. -/
theorem nameFilterAccepts_examples :
    nameFilterAccepts (qs "app.log") (qs "app.log.2024-03-10") = true
    ∧ nameFilterAccepts (qs "app.log") (qs "APP.LOG.2024-03-10") = true
    ∧ nameFilterAccepts (qs "app.log") (qs "xapp.log.2024-03-10") = false
    ∧ nameFilterAccepts (qs ".app.log") (qs ".app.log.2024-03-10") = false
    ∧ nameFilterAccepts (qs "a[1].log") (qs "a[1].log.2024-03-10") = false
    ∧ nameFilterAccepts (qs "a[1].log") (qs "a1.log.2024-03-10") = true := by
  decide

theorem append_eq (now : QDateTime) (record : QString) (s : State) :
    append now record s
      = FileAppender.append now record (if rollOverDue now s then rollOverCheck now s else s) :=
  rfl

theorem computeFileLogTime_eq_basis (now : QDateTime) (s : State) :
    computeFileLogTime now s
      = computeRollOverDateTimeHelper s.m_frequency (basisInstant now s) false :=
  rfl

/-- The file system after the step of `rollOverCheck` that clears the archive path, when
that step does not fail: the entries of the archive path are gone, nothing else changed. -/
theorem fs_after_remove (fs : FileSystem) (target : QString)
    (h : ¬ (QFile.fileExists fs target = true ∧ (QFile.remove fs target).1 = false)) :
    (if QFile.fileExists fs target = true then (QFile.remove fs target).2 else fs)
      = { fs with entries := fs.entries.filter (fun e => e.fileName != target) } := by
  by_cases hex : QFile.fileExists fs target = true
  · rw [if_pos hex]
    have hrm : (QFile.remove fs target).1 = true := by
      by_contra hc
      exact h ⟨hex, by simpa using hc⟩
    unfold QFile.remove at hrm ⊢
    by_cases hc : (QFile.fileExists fs target && !fs.removeDenied.contains target) = true
    · rw [if_pos hc]
    · rw [if_neg hc] at hrm
      exact absurd hrm (by simp)
  · rw [if_neg hex]
    have hall : fs.entries.filter (fun e => e.fileName != target) = fs.entries := by
      rw [List.filter_eq_self]
      intro e he
      simp only [bne_iff_ne, ne_eq]
      intro hn
      exact hex ((QFile.fileExists_iff fs target).2 ⟨e, he, hn⟩)
    rw [hall]

/-- The exit of `rollOverCheck` when the suffixes of the current period and of `now`
differ. -/
theorem rollOverExit_roll (now : QDateTime) (s : State)
    (h : (s.m_currentLogFileTime.toString s.m_datePatternString
      == (computeRollOverDateTimeHelper s.m_frequency now false).toString s.m_datePatternString)
        = false) :
    rollOverExit now s
      = (if QFile.fileExists s.fs (targetFileName s) = true
            ∧ (QFile.remove s.fs (targetFileName s)).1 = false then removeFailed
        else if (QFile.rename
            { s.fs with entries := s.fs.entries.filter (fun e => e.fileName != targetFileName s) }
            s.m_logFileName (targetFileName s)).1 = false then renameFailed
        else completed) := by
  by_cases hab : QFile.fileExists s.fs (targetFileName s) = true
            ∧ (QFile.remove s.fs (targetFileName s)).1 = false
  · rw [if_pos hab]
    unfold rollOverExit
    simp only [computeCurrentLogTimeNow]
    rw [if_neg (by rw [h]; decide)]
    simp only [targetFileName] at hab
    simp only [hab.1, if_true]
    rcases hrm : QFile.remove s.fs
      (fileName s ++ s.m_currentLogFileTime.toString s.m_datePatternString) with ⟨ok, fs1⟩
    rw [hrm] at hab
    cases ok
    · rfl
    · exact absurd hab.2 (by simp)
  · rw [if_neg hab, ← fs_after_remove s.fs (targetFileName s) hab]
    unfold rollOverExit
    simp only [computeCurrentLogTimeNow]
    rw [if_neg (by rw [h]; decide)]
    simp only [targetFileName, fileName] at hab ⊢
    by_cases hex : QFile.fileExists s.fs
        (s.m_logFileName ++ s.m_currentLogFileTime.toString s.m_datePatternString) = true
    · simp only [hex, if_true, true_and] at hab ⊢
      rcases hrm : QFile.remove s.fs
        (s.m_logFileName ++ s.m_currentLogFileTime.toString s.m_datePatternString) with ⟨ok, fs1⟩
      rw [hrm] at hab
      cases ok
      · exact absurd rfl hab
      · simp only
        rcases hrn : QFile.rename fs1 s.m_logFileName
          (s.m_logFileName ++ s.m_currentLogFileTime.toString s.m_datePatternString) with ⟨ok2, fs2⟩
        cases ok2 <;> simp
    · simp only [hex, Bool.false_eq_true, if_false]
      rcases hrn : QFile.rename s.fs s.m_logFileName
        (s.m_logFileName ++ s.m_currentLogFileTime.toString s.m_datePatternString) with ⟨ok2, fs2⟩
      cases ok2 <;> simp

/-- The exit `samePeriod` is the one taken when the two suffixes are equal. -/
theorem rollOverExit_samePeriod (now : QDateTime) (s : State) :
    rollOverExit now s = samePeriod
      ↔ (s.m_currentLogFileTime.toString s.m_datePatternString
          == (computeRollOverDateTimeHelper s.m_frequency now false).toString
            s.m_datePatternString) = true := by
  constructor
  · intro hx
    by_contra hc
    have hc : (s.m_currentLogFileTime.toString s.m_datePatternString
      == (computeRollOverDateTimeHelper s.m_frequency now false).toString s.m_datePatternString)
        = false := by simpa using hc
    rw [rollOverExit_roll now s hc] at hx
    split at hx
    · exact absurd hx (by decide)
    · split at hx <;> exact absurd hx (by decide)
  · intro h
    unfold rollOverExit
    simp only [computeCurrentLogTimeNow]
    rw [if_pos h]

/-- The suffixes differ at every exit other than `samePeriod`. -/
theorem suffix_ne_of_exit (now : QDateTime) (s : State) (h : rollOverExit now s ≠ samePeriod) :
    (s.m_currentLogFileTime.toString s.m_datePatternString
      == (computeRollOverDateTimeHelper s.m_frequency now false).toString s.m_datePatternString)
        = false := by
  rw [← Bool.not_eq_true]
  intro hc
  exact h ((rollOverExit_samePeriod now s).2 hc)

/-- Function `rollOverCheck` at the exit `removeFailed`: a file has the archive path and
cannot be removed; the appender closes the log file and clears the force flag. -/
theorem rollOverCheck_removeFailed (now : QDateTime) (s : State)
    (h : rollOverExit now s = removeFailed) :
    rollOverCheck now s
      = { s with m_forceRollovercheck := false
                 assertFailed := s.assertFailed || s.m_datePatternString.isEmpty
                 m_logFileOpen := false }
    ∧ QFile.fileExists s.fs (targetFileName s) = true
    ∧ (QFile.remove s.fs (targetFileName s)).1 = false := by
  have hd := suffix_ne_of_exit now s (by rw [h]; decide)
  rw [rollOverExit_roll now s hd] at h
  by_cases hab : QFile.fileExists s.fs (targetFileName s) = true
            ∧ (QFile.remove s.fs (targetFileName s)).1 = false
  · refine ⟨?_, hab.1, hab.2⟩
    rw [rollOverCheck_roll now s hd]
    simp only [targetFileName, fileName] at hab
    simp only
    rw [if_pos hab]
  · rw [if_neg hab] at h
    split at h <;> exact absurd h (by decide)

/-- Function `rollOverCheck` at the exit `renameFailed`: the archive path has been
cleared, the renaming failed; the appender closes the log file and clears the force
flag. -/
theorem rollOverCheck_renameFailed (now : QDateTime) (s : State)
    (h : rollOverExit now s = renameFailed) :
    rollOverCheck now s
      = { s with m_forceRollovercheck := false
                 assertFailed := s.assertFailed || s.m_datePatternString.isEmpty
                 m_logFileOpen := false
                 fs := { s.fs with
                   entries := s.fs.entries.filter (fun e => e.fileName != targetFileName s) } }
    ∧ (QFile.rename
        { s.fs with entries := s.fs.entries.filter (fun e => e.fileName != targetFileName s) }
        s.m_logFileName (targetFileName s)).1 = false := by
  have hd := suffix_ne_of_exit now s (by rw [h]; decide)
  rw [rollOverExit_roll now s hd] at h
  by_cases hab : QFile.fileExists s.fs (targetFileName s) = true
            ∧ (QFile.remove s.fs (targetFileName s)).1 = false
  · rw [if_pos hab] at h
    exact absurd h (by decide)
  · rw [if_neg hab] at h
    by_cases hrn : (QFile.rename
        { s.fs with entries := s.fs.entries.filter (fun e => e.fileName != targetFileName s) }
        s.m_logFileName (targetFileName s)).1 = false
    · refine ⟨?_, hrn⟩
      rw [rollOverCheck_roll now s hd]
      have hfs := fs_after_remove s.fs (targetFileName s) hab
      simp only [targetFileName, fileName] at hab hfs hrn ⊢
      rw [if_neg hab, hfs, if_pos hrn]
    · rw [if_neg hrn] at h
      exact absurd h (by decide)

/-- Function `rollOverCheck` at the exit `completed`: the archive path has been cleared,
the log file renamed; a file is opened at the base name, old archives are removed and the
schedule is computed anew. -/
theorem rollOverCheck_completed (now : QDateTime) (s : State)
    (h : rollOverExit now s = completed) :
    rollOverCheck now s
      = computeLogAndRollOverTimes now (removeOldFiles (openFile now
          { s with m_forceRollovercheck := false
                   assertFailed := s.assertFailed || s.m_datePatternString.isEmpty
                   m_logFileOpen := false
                   fs := (QFile.rename
                     { s.fs with
                       entries := s.fs.entries.filter (fun e => e.fileName != targetFileName s) }
                     s.m_logFileName (targetFileName s)).2 }).1)
    ∧ (QFile.rename
        { s.fs with entries := s.fs.entries.filter (fun e => e.fileName != targetFileName s) }
        s.m_logFileName (targetFileName s)).1 = true := by
  have hd := suffix_ne_of_exit now s (by rw [h]; decide)
  rw [rollOverExit_roll now s hd] at h
  by_cases hab : QFile.fileExists s.fs (targetFileName s) = true
            ∧ (QFile.remove s.fs (targetFileName s)).1 = false
  · rw [if_pos hab] at h
    exact absurd h (by decide)
  · rw [if_neg hab] at h
    by_cases hrn : (QFile.rename
        { s.fs with entries := s.fs.entries.filter (fun e => e.fileName != targetFileName s) }
        s.m_logFileName (targetFileName s)).1 = false
    · rw [if_pos hrn] at h
      exact absurd h (by decide)
    · refine ⟨?_, by simpa using hrn⟩
      rw [rollOverCheck_roll now s hd]
      have hfs := fs_after_remove s.fs (targetFileName s) hab
      simp only [targetFileName, fileName] at hab hfs hrn ⊢
      rw [if_neg hab, hfs, if_neg hrn]

/-! ## Formatted suffixes are empty for all instants or for none -/

theorem toDigitsCore_ne_nil (b fuel n : Nat) (ds : List Char) (h : ds ≠ []) :
    Nat.toDigitsCore b fuel n ds ≠ [] := by
  induction fuel generalizing n ds with
  | zero => exact h
  | succ fuel ih =>
    simp only [Nat.toDigitsCore]
    split
    · exact List.cons_ne_nil _ _
    · exact ih _ _ (List.cons_ne_nil _ _)

theorem toDigits_ne_nil (n : Nat) : Nat.toDigits 10 n ≠ [] := by
  simp only [Nat.toDigits, Nat.toDigitsCore]
  split
  · exact List.cons_ne_nil _ _
  · exact toDigitsCore_ne_nil _ _ _ _ (List.cons_ne_nil _ _)

theorem longLongToString_ne_nil (n : Int) (width : Nat) : longLongToString n width ≠ [] := by
  unfold longLongToString
  split
  · exact List.cons_ne_nil _ _
  · simp only [List.leftpad, ne_eq, List.append_eq_nil, not_and]
    intro _
    exact toDigits_ne_nil _

theorem monthName_ne_nil (d : QDate) : shortMonthName d.month ≠ [] ∧ longMonthName d.month ≠ [] := by
  obtain ⟨h1, h2⟩ := getDate_month_range d.jd
  unfold QDate.month
  generalize (getDateFromJulianDay d.jd).month = m at h1 h2
  interval_cases m <;> exact ⟨by decide, by decide⟩

theorem dayName_ne_nil (d : QDate) :
    shortDayName d.dayOfWeek ≠ [] ∧ longDayName d.dayOfWeek ≠ [] := by
  rw [QDate.dayOfWeek_eq]
  have h1 : 0 ≤ d.jd % 7 := by omega
  have h2 : d.jd % 7 < 7 := by omega
  generalize d.jd % 7 = r at h1 h2
  interval_cases r <;> exact ⟨by decide, by decide⟩

/-- Every section of a format expands to at least one character. -/
theorem formatSection_ne_nil (hasAP : Bool) (dt : QDateTime) (c : Char) (rep : Nat)
    (next : Option Char) (hrep : 1 ≤ rep) : (formatSection hasAP dt c rep next).1 ≠ [] := by
  delta formatSection
  by_cases hy : (c == 'y') = true
  · rw [if_pos hy]
    split
    · exact longLongToString_ne_nil _ _
    · split
      · exact longLongToString_ne_nil _ _
      · exact List.cons_ne_nil _ _
  rw [if_neg hy]
  by_cases hM : (c == 'M') = true
  · rw [if_pos hM]
    split
    · exact longLongToString_ne_nil _ _
    · exact longLongToString_ne_nil _ _
    · exact (monthName_ne_nil _).1
    · exact (monthName_ne_nil _).2
  rw [if_neg hM]
  by_cases hd : (c == 'd') = true
  · rw [if_pos hd]
    split
    · exact longLongToString_ne_nil _ _
    · exact longLongToString_ne_nil _ _
    · exact (dayName_ne_nil _).1
    · exact (dayName_ne_nil _).2
  rw [if_neg hd]
  by_cases hh : (c == 'h') = true
  · rw [if_pos hh]
    dsimp only
    by_cases hr : (min rep 2 == 1) = true
    · rw [if_pos hr]
      exact longLongToString_ne_nil _ _
    · rw [if_neg hr]
      exact longLongToString_ne_nil _ _
  rw [if_neg hh]
  by_cases hH : (c == 'H') = true
  · rw [if_pos hH]
    split <;> exact longLongToString_ne_nil _ _
  rw [if_neg hH]
  by_cases hm : (c == 'm') = true
  · rw [if_pos hm]
    split <;> exact longLongToString_ne_nil _ _
  rw [if_neg hm]
  by_cases hs : (c == 's') = true
  · rw [if_pos hs]
    split <;> exact longLongToString_ne_nil _ _
  rw [if_neg hs]
  by_cases ha : (c == 'a') = true
  · rw [if_pos ha]
    show (if dt.time.hour < 12 then qs "am" else qs "pm") ≠ []
    split <;> decide
  rw [if_neg ha]
  by_cases hA : (c == 'A') = true
  · rw [if_pos hA]
    show (if dt.time.hour < 12 then qs "AM" else qs "PM") ≠ []
    split <;> decide
  rw [if_neg hA]
  by_cases hz : (c == 'z') = true
  · rw [if_pos hz]
    split <;> exact longLongToString_ne_nil _ _
  rw [if_neg hz]
  by_cases ht : (c == 't') = true
  · rw [if_pos ht]
    show timeZoneAbbreviation ≠ []
    decide
  rw [if_neg ht]
  show List.replicate rep c ≠ []
  rw [ne_eq, List.replicate_eq_nil_iff]
  omega

theorem qt_repeatCount_pos (c : Char) (rest : QString) : 1 ≤ qt_repeatCount (c :: rest) := by
  simp only [qt_repeatCount]
  omega

/-- Whether a formatted text is empty does not depend on the instant. -/
theorem dateTimeToString_nil (hasAP : Bool) (dt dt2 : QDateTime) (fuel : Nat) (format : QString)
    (h : dateTimeToString hasAP dt fuel format = []) :
    dateTimeToString hasAP dt2 fuel format = [] := by
  induction fuel generalizing format with
  | zero => simp only [dateTimeToString]
  | succ fuel ih =>
    cases format with
    | nil => simp only [dateTimeToString]
    | cons c rest =>
      simp only [dateTimeToString] at h ⊢
      split at h
      · rename_i hq
        rw [if_pos hq]
        rw [List.append_eq_nil] at h ⊢
        exact ⟨h.1, ih _ h.2⟩
      · rw [List.append_eq_nil] at h
        exact absurd h.1 (formatSection_ne_nil _ _ _ _ _ (qt_repeatCount_pos c rest))

theorem toString_nil (dt dt2 : QDateTime) (format : QString) (h : dt.toString format = []) :
    dt2.toString format = [] :=
  dateTimeToString_nil _ dt dt2 _ _ h

/-- When `rollOverCheck` does not take the exit `samePeriod`, the suffix of the current
period is not empty: the archive path differs from the base name. -/
theorem targetFileName_ne (now : QDateTime) (s : State) (h : rollOverExit now s ≠ samePeriod) :
    targetFileName s ≠ fileName s := by
  have hd := suffix_ne_of_exit now s h
  intro heq
  have hnil : s.m_currentLogFileTime.toString s.m_datePatternString = [] := by
    unfold targetFileName at heq
    exact List.append_right_eq_self.1 heq
  have hnil2 := toString_nil _ (computeRollOverDateTimeHelper s.m_frequency now false) _ hnil
  rw [hnil, hnil2] at hd
  exact absurd hd (by decide)

/-! ## Aborted rollovers -/

theorem find?_filter_bne (l : List QFileInfo) (name target : QString) (h : target ≠ name) :
    (l.filter (fun e => e.fileName != target)).find? (fun e => e.fileName == name)
      = l.find? (fun e => e.fileName == name) := by
  induction l with
  | nil => rfl
  | cons a rest ih =>
    rw [List.filter_cons]
    by_cases hat : (a.fileName != target) = true
    · rw [if_pos hat, List.find?_cons, List.find?_cons, ih]
    · rw [if_neg hat, List.find?_cons, ih]
      have hn : (a.fileName == name) = false := by
        rw [beq_eq_false_iff_ne]
        intro hc
        apply hat
        rw [bne_iff_ne, hc]
        exact fun hc2 => h hc2.symm
      rw [hn]

theorem filter_beq_filter_bne (l : List QFileInfo) (name target : QString) (h : target ≠ name) :
    (l.filter (fun e => e.fileName != target)).filter (fun e => e.fileName == name)
      = l.filter (fun e => e.fileName == name) := by
  rw [List.filter_filter]
  congr 1
  funext e
  by_cases he : e.fileName = name
  · simp [he, Ne.symm h]
  · simp [he]

/-! ## The empty suffix of the log file itself does not parse -/

theorem readFixed_nil (width : Nat) (h : 0 < width) : readFixed width [] = none := by
  unfold readFixed
  have hne : ((([] : QString).take width).length == width) = false := by
    simp only [List.take_nil, List.length_nil, beq_eq_false_iff_ne, ne_eq]
    omega
  simp only [hne, Bool.false_and, Bool.false_eq_true, if_false]

theorem readUpTo_nil (maxWidth : Nat) (absMax : Int) : readUpTo maxWidth absMax [] = none := by
  induction maxWidth with
  | zero => rfl
  | succ w ih =>
    unfold readUpTo
    simp [ih]

/-- No section of a format reads anything from the empty text. -/
theorem parseSection_nil (f : ParsedFields) (c : Char) (rep : Nat) (next : Option Char)
    (hrep : 1 ≤ rep) : parseSection f c rep next [] = none := by
  delta parseSection
  by_cases h1 : (c == 'y' && decide (rep ≥ 4)) = true
  · rw [if_pos h1, readFixed_nil 4 (by decide)]
    rfl
  rw [if_neg h1]
  by_cases h2 : (c == 'y' && decide (rep ≥ 2)) = true
  · rw [if_pos h2, readFixed_nil 2 (by decide)]
    rfl
  rw [if_neg h2]
  by_cases h3 : (c == 'M' && decide (rep ≥ 4)) = true
  · rw [if_pos h3]
    rfl
  rw [if_neg h3]
  by_cases h4 : (c == 'M' && rep == 3) = true
  · rw [if_pos h4]
    rfl
  rw [if_neg h4]
  by_cases h5 : (c == 'd' && decide (rep ≥ 3)) = true
  · rw [if_pos h5]
  rw [if_neg h5]
  by_cases h6 : (c == 'M' || c == 'd' || c == 'h' || c == 'H' || c == 'm' || c == 's') = true
  · rw [if_pos h6]
    dsimp only
    rw [readFixed_nil 2 (by decide), readUpTo_nil]
    split <;> rfl
  rw [if_neg h6]
  by_cases h7 : (c == 'z') = true
  · rw [if_pos h7, readFixed_nil 3 (by decide), readUpTo_nil]
    split <;> rfl
  rw [if_neg h7]
  by_cases h8 : (c == 'a' || c == 'A') = true
  · rw [if_pos h8]
    rfl
  rw [if_neg h8]
  have hp : (List.replicate rep c).isPrefixOf ([] : QString) = false := by
    cases rep with
    | zero => omega
    | succ n => rfl
  rw [hp]
  rfl

/-- A format against which the empty text parses formats every instant as the empty
text. -/
theorem dateTimeToString_nil_of_parse (fuel : Nat) (format : QString) (f f2 : ParsedFields)
    (h : parseDateTime fuel format [] f = some f2) (hasAP : Bool) (dt : QDateTime)
    (fuel2 : Nat) : dateTimeToString hasAP dt fuel2 format = [] := by
  induction fuel generalizing format f fuel2 with
  | zero => simp [parseDateTime] at h
  | succ fuel ih =>
    cases format with
    | nil => cases fuel2 <;> simp only [dateTimeToString]
    | cons c rest =>
      cases fuel2 with
      | zero => simp only [dateTimeToString]
      | succ fuel2 =>
        simp only [parseDateTime] at h
        simp only [dateTimeToString]
        by_cases hq : (c == quoteChar) = true
        · rw [if_pos hq] at h ⊢
          by_cases hl : (qt_readEscapedFormatString rest).1.isPrefixOf ([] : QString) = true
          · rw [if_pos hl] at h
            have hnil : (qt_readEscapedFormatString rest).1 = [] := by
              cases hlit : (qt_readEscapedFormatString rest).1 with
              | nil => rfl
              | cons a r => rw [hlit] at hl; simp at hl
            rw [hnil] at h ⊢
            simp only [List.length_nil, List.drop_nil] at h
            rw [List.nil_append]
            exact ih _ _ h _
          · rw [if_neg hl] at h
            exact absurd h (by simp)
        · rw [if_neg hq] at h
          rw [parseSection_nil _ _ _ _ (qt_repeatCount_pos c rest)] at h
          exact absurd h (by simp)

/-- When some instant has a suffix that is not empty, the empty text is not a suffix that
parses. -/
theorem fromString_nil (dt : QDateTime) (format : QString) (h : dt.toString format ≠ []) :
    QDateTime.fromString [] format = none := by
  unfold QDateTime.fromString
  cases hp : parseDateTime (format.length + 1) format [] ParsedFields.empty with
  | none => rfl
  | some f2 =>
    exact absurd (dateTimeToString_nil_of_parse _ _ _ _ hp _ dt _) h

theorem indexOf_self (name : QString) : indexOf name name = 0 := by
  cases name with
  | nil => rfl
  | cons c rest =>
    unfold indexOf
    simp

/-- The log file itself is no archive: the text after the base name is empty. -/
theorem suffixTime_base (s : State) (e : QFileInfo) (dt : QDateTime)
    (hn : e.fileName = fileName s) (h : dt.toString s.m_datePatternString ≠ []) :
    suffixTime s e = none := by
  unfold suffixTime
  rw [hn, indexOf_self]
  have hm : mid (fileName s) (0 + ((fileName s).length : Int)) = [] := by
    unfold mid
    simp
  rw [hm]
  exact fromString_nil dt _ h

/-! ## Completed rollovers -/

/-- A renaming that succeeded: the old name existed, the new one did not, and the files
of the old name carry the new name. -/
theorem QFile.rename_success (fs : FileSystem) (o n : QString)
    (h : (QFile.rename fs o n).1 = true) :
    (QFile.rename fs o n).2.entries
      = fs.entries.map (fun e => if e.fileName == o then { e with fileName := n } else e)
    ∧ QFile.fileExists fs o = true ∧ QFile.fileExists fs n = false := by
  unfold QFile.rename at h ⊢
  by_cases hc : (QFile.fileExists fs o && !QFile.fileExists fs n
      && !fs.renameDenied.contains o) = true
  · rw [if_pos hc]
    simp only [Bool.and_eq_true, Bool.not_eq_true'] at hc
    exact ⟨rfl, hc.1.1, hc.1.2⟩
  · rw [if_neg hc] at h
    exact absurd h (by simp)

/-- Looking up the new name after a renaming finds the first file of the old name. -/
theorem find?_map_rename (l : List QFileInfo) (o n : QString)
    (hfree : ∀ e ∈ l, e.fileName ≠ n) :
    (l.map (fun e => if e.fileName == o then { e with fileName := n } else e)).find?
        (fun e => e.fileName == n)
      = (l.find? (fun e => e.fileName == o)).map (fun e => { e with fileName := n }) := by
  induction l with
  | nil => rfl
  | cons a rest ih =>
    have ih2 := ih (fun e he => hfree e (List.mem_cons_of_mem a he))
    rw [List.map_cons, List.find?_cons, List.find?_cons]
    by_cases ha : (a.fileName == o) = true
    · simp only [ha, if_true, beq_self_eq_true, Option.map_some']
    · have ha2 : (a.fileName == o) = false := by simpa using ha
      have ha3 : (a.fileName == n) = false := by
        rw [beq_eq_false_iff_ne]
        exact hfree a (List.mem_cons_self a rest)
      simp only [ha2, Bool.false_eq_true, if_false, ha3]
      exact ih2

/-- Looking up a name in a directory whose files were rewritten without a change of
name. -/
theorem find?_map_keep_name (l : List QFileInfo) (w : QFileInfo → QFileInfo) (name : QString)
    (hw : ∀ e, (w e).fileName = e.fileName) :
    (l.map w).find? (fun e => e.fileName == name)
      = (l.find? (fun e => e.fileName == name)).map w := by
  induction l with
  | nil => rfl
  | cons a rest ih =>
    rw [List.map_cons, List.find?_cons, List.find?_cons, hw a]
    cases (a.fileName == name)
    · exact ih
    · rfl

/-- Opening the log file when the appender holds it closed and no file has the base name:
if the appender holds it open afterwards, an empty file stamped `now` was created at the
end of the directory; otherwise the directory is unchanged. -/
theorem openFile_closed (now : QDateTime) (st : State) (hclosed : st.m_logFileOpen = false)
    (hfree : ∀ e ∈ st.fs.entries, e.fileName ≠ st.m_logFileName) :
    ((openFile now st).1.m_logFileOpen = true →
      (openFile now st).1.fs.entries
        = st.fs.entries ++ [{ fileName := st.m_logFileName, contents := [], lastModified := now }]
      ∧ st.m_logFileName ≠ [])
    ∧ ((openFile now st).1.m_logFileOpen = false → (openFile now st).1.fs = st.fs) := by
  have hex : QFile.fileExists st.fs st.m_logFileName = false := by
    rw [Bool.eq_false_iff]
    intro hc
    obtain ⟨e, he, hn⟩ := (QFile.fileExists_iff _ _).1 hc
    exact hfree e he hn
  unfold openFile
  by_cases hempty : st.m_logFileName.isEmpty = true
  · rw [if_pos hempty]
    simp only [hclosed, Bool.false_eq_true, false_implies, implies_true, and_self]
  · rw [if_neg hempty, if_neg (by rw [hclosed]; decide)]
    unfold QFile.openAppend
    by_cases hden : st.fs.openDenied.contains st.m_logFileName = true
    · rw [if_pos hden]
      simp only [Bool.false_eq_true, false_implies, implies_true, and_self]
    · rw [if_neg hden, if_neg (by rw [hex]; decide)]
      simp only [implies_true, true_and, Bool.true_eq_false, false_implies, and_true]
      intro _ hc
      apply hempty
      rw [hc]
      rfl

/-- Removing files of other names does not change what a name finds. -/
theorem foldl_remove_find (names : List QString) (fs : FileSystem) (name : QString)
    (h : ∀ n ∈ names, n ≠ name) :
    (names.foldl (fun fs n => (QFile.remove fs n).2) fs).entries.find?
        (fun e => e.fileName == name)
      = fs.entries.find? (fun e => e.fileName == name) := by
  induction names generalizing fs with
  | nil => rfl
  | cons n rest ih =>
    rw [List.foldl_cons, ih _ (fun m hm => h m (List.mem_cons_of_mem n hm)),
      QFile.remove_entries]
    split
    · exact find?_filter_bne _ _ _ (h n (List.mem_cons_self n rest))
    · rfl

/-- Function `removeOldFiles` leaves the log file itself when the pattern formats some
instant to a suffix that is not empty. -/
theorem removeOldFiles_find_base (st : State) (dt : QDateTime)
    (h : dt.toString st.m_datePatternString ≠ []) :
    QFileInfo.ofName (removeOldFiles st).fs (fileName st)
      = QFileInfo.ofName st.fs (fileName st) := by
  unfold QFileInfo.ofName removeOldFiles
  split
  · rfl
  · apply foldl_remove_find
    intro n hn hnb
    have hn2 := List.mem_of_mem_take hn
    unfold QMap.values at hn2
    obtain ⟨p, hp, rfl⟩ := List.mem_map.1 hn2
    obtain ⟨e, _, hts, hen⟩ := (fileDates_spec st).2.1 p hp
    rw [suffixTime_base st e dt (hen.trans hnb) h] at hts
    exact absurd hts (by simp)

/-- The state in which `rollOverCheck` prunes after a rollover that went through: the
archive path was cleared, the files of the base name carry the archive path, and when the
appender holds the log file open an empty file stamped `now` follows them. -/
theorem rollOverCheck_completed_entries (now : QDateTime) (s : State)
    (h : rollOverExit now s = completed) :
    ∃ st : State,
      rollOverCheck now s = computeLogAndRollOverTimes now (removeOldFiles st)
      ∧ st.m_logFileName = s.m_logFileName
      ∧ st.m_datePatternString = s.m_datePatternString
      ∧ st.m_logFilesLimit = s.m_logFilesLimit
      ∧ st.m_frequency = s.m_frequency
      ∧ (∀ e ∈ st.fs.entries,
          e ∈ (s.fs.entries.filter (fun e => e.fileName != targetFileName s)).map
              (fun e => if e.fileName == s.m_logFileName
                then { e with fileName := targetFileName s } else e)
          ∨ e = { fileName := s.m_logFileName, contents := [], lastModified := now })
      ∧ (st.m_logFileOpen = true →
          st.fs.entries
            = (s.fs.entries.filter (fun e => e.fileName != targetFileName s)).map
                (fun e => if e.fileName == s.m_logFileName
                  then { e with fileName := targetFileName s } else e)
              ++ [{ fileName := s.m_logFileName, contents := [], lastModified := now }]
          ∧ s.m_logFileName ≠ [])
      ∧ (st.m_logFileOpen = false →
          st.fs.entries
            = (s.fs.entries.filter (fun e => e.fileName != targetFileName s)).map
                (fun e => if e.fileName == s.m_logFileName
                  then { e with fileName := targetFileName s } else e)) := by
  obtain ⟨hr, hrn⟩ := rollOverCheck_completed now s h
  obtain ⟨hfs2, _, _⟩ := QFile.rename_success _ _ _ hrn
  have hgone := QFile.rename_old_gone _ _ _ hrn
  refine ⟨_, hr, ?_, ?_, ?_, ?_, ?_, ?_, ?_⟩
  · rw [openFile_eq]
  · rw [openFile_eq]
  · rw [openFile_eq]
  · rw [openFile_eq]
  · intro e he
    rcases openFile_fs now _ with h1 | h1
    · rw [h1] at he
      simp only at he
      rw [hfs2] at he
      exact Or.inl he
    · rw [h1] at he
      rcases QFile.openAppend_entries now _ _ e he with h2 | h2
      · simp only at h2
        rw [hfs2] at h2
        exact Or.inl h2
      · exact Or.inr h2
  · intro hopen
    have := (openFile_closed now _ rfl hgone).1 hopen
    simp only at this
    rw [hfs2] at this
    exact this
  · intro hclosed
    have := (openFile_closed now _ rfl hgone).2 hclosed
    rw [this]
    simp only
    rw [hfs2]

/-- The files at the archive path and at the base name in the state in which
`rollOverCheck` prunes after a rollover that went through. -/
theorem rollOverCheck_completed_state (now : QDateTime) (s : State)
    (h : rollOverExit now s = completed) :
    ∃ (st : State) (active : QFileInfo),
      rollOverCheck now s = computeLogAndRollOverTimes now (removeOldFiles st)
      ∧ st.m_logFileName = s.m_logFileName
      ∧ st.m_datePatternString = s.m_datePatternString
      ∧ st.m_logFilesLimit = s.m_logFilesLimit
      ∧ QFileInfo.ofName s.fs (fileName s) = some active
      ∧ QFileInfo.ofName st.fs (targetFileName s)
          = some { active with fileName := targetFileName s }
      ∧ (st.m_logFileOpen = true →
          QFileInfo.ofName st.fs (fileName s)
            = some { fileName := fileName s, contents := [], lastModified := now }
          ∧ s.m_logFileName ≠ [])
      ∧ (∀ e ∈ st.fs.entries, e.fileName = targetFileName s →
          ∃ e0 ∈ s.fs.entries, e0.fileName = fileName s
            ∧ e = { e0 with fileName := targetFileName s }) := by
  have hne := targetFileName_ne now s (by rw [h]; decide)
  obtain ⟨st, hr, hname, hpat, hlim, hfreq, hall, hopenE, hclosedE⟩ :=
    rollOverCheck_completed_entries now s h
  obtain ⟨_, hrn⟩ := rollOverCheck_completed now s h
  obtain ⟨hfs2, hexb, _⟩ := QFile.rename_success _ _ _ hrn
  have hgone := QFile.rename_old_gone _ _ _ hrn
  rw [hfs2] at hgone
  simp only at hgone
  -- the log file before the call
  obtain ⟨a0, ha0, ha0n⟩ := (QFile.fileExists_iff _ _).1 hexb
  have hsome : ∃ active, (s.fs.entries.filter (fun e => e.fileName != targetFileName s)).find?
      (fun e => e.fileName == s.m_logFileName) = some active := by
    cases hf : (s.fs.entries.filter (fun e => e.fileName != targetFileName s)).find?
        (fun e => e.fileName == s.m_logFileName) with
    | some a => exact ⟨a, rfl⟩
    | none =>
      rw [List.find?_eq_none] at hf
      exact absurd (by simpa using ha0n) (hf a0 ha0)
  obtain ⟨active, hact⟩ := hsome
  have hact0 : QFileInfo.ofName s.fs (fileName s) = some active := by
    unfold QFileInfo.ofName
    rw [← find?_filter_bne s.fs.entries (fileName s) (targetFileName s) hne]
    exact hact
  have hfree : ∀ e ∈ s.fs.entries.filter (fun e => e.fileName != targetFileName s),
      e.fileName ≠ targetFileName s := by
    intro e he
    simpa using (List.mem_filter.1 he).2
  have harch := find?_map_rename _ s.m_logFileName (targetFileName s) hfree
  rw [hact] at harch
  simp only [Option.map_some'] at harch
  refine ⟨st, active, hr, hname, hpat, hlim, hact0, ?_, ?_, ?_⟩
  · unfold QFileInfo.ofName
    cases hop : st.m_logFileOpen
    · rw [hclosedE hop]
      exact harch
    · rw [(hopenE hop).1, List.find?_append, harch]
      rfl
  · intro hopen
    refine ⟨?_, (hopenE hopen).2⟩
    unfold QFileInfo.ofName
    rw [(hopenE hopen).1, List.find?_append]
    have hnone : ((s.fs.entries.filter (fun e => e.fileName != targetFileName s)).map
        (fun e => if e.fileName == s.m_logFileName
          then { e with fileName := targetFileName s } else e)).find?
        (fun e => e.fileName == fileName s) = none := by
      rw [List.find?_eq_none]
      intro e he
      simpa [fileName] using hgone e he
    rw [hnone]
    simp [fileName]
  · intro e he hn
    rcases hall e he with hm | hfresh
    · obtain ⟨e0, he0, rfl⟩ := List.mem_map.1 hm
      have he0s := (List.mem_filter.1 he0).1
      by_cases hb : (e0.fileName == s.m_logFileName) = true
      · refine ⟨e0, he0s, by simpa using hb, ?_⟩
        rw [if_pos hb]
      · rw [if_neg hb] at hn
        exact absurd hn (hfree e0 he0)
    · rw [hfresh] at hn
      exact absurd hn.symm hne

/-- The directory after `rollOverCheck` and its open flag are those of the state after
pruning. -/
theorem rollOverCheck_completed_fs (now : QDateTime) (s st : State)
    (hr : rollOverCheck now s = computeLogAndRollOverTimes now (removeOldFiles st)) :
    (rollOverCheck now s).fs = (removeOldFiles st).fs
    ∧ (rollOverCheck now s).m_logFileOpen = st.m_logFileOpen
    ∧ (rollOverCheck now s).m_logFileName = st.m_logFileName := by
  rw [hr, computeLogAndRollOverTimes_eq, removeOldFiles_eq]
  exact ⟨rfl, rfl, rfl⟩

/-- The files at the archive path and at the base name after a rollover that went through
without pruning. -/
theorem rollOverCheck_completed_files (now : QDateTime) (s : State)
    (h : rollOverExit now s = completed) (hlimit : s.m_logFilesLimit ≤ 1) :
    ∃ active : QFileInfo,
      QFileInfo.ofName s.fs (fileName s) = some active
      ∧ QFileInfo.ofName (rollOverCheck now s).fs (targetFileName s)
          = some { active with fileName := targetFileName s }
      ∧ ((rollOverCheck now s).m_logFileOpen = true →
          QFileInfo.ofName (rollOverCheck now s).fs (fileName s)
            = some { fileName := fileName s, contents := [], lastModified := now }) := by
  obtain ⟨st, active, hr, hname, hpat, hlim, hact, harch, hopen, _⟩ :=
    rollOverCheck_completed_state now s h
  obtain ⟨hfs, hop, _⟩ := rollOverCheck_completed_fs now s st hr
  rw [removeOldFiles_of_le st (by rw [hlim]; exact hlimit)] at hfs
  rw [hfs, hop]
  exact ⟨active, hact, harch, fun ho => (hopen ho).1⟩

/-- Function `FileAppender.append` on an appender that holds its log file open: the
record is written at the end of the file at the base name. -/
theorem FileAppender.append_open (now : QDateTime) (record : QString) (st : State)
    (hname : st.m_logFileName ≠ []) (hopen : st.m_logFileOpen = true) :
    FileAppender.append now record st
      = { st with fs := QFile.write now st.fs st.m_logFileName record } := by
  unfold FileAppender.append openFile
  have hempty : st.m_logFileName.isEmpty = false := by
    cases hn : st.m_logFileName with
    | nil => exact absurd hn hname
    | cons a r => rfl
  simp only [hempty, Bool.false_eq_true, if_false, hopen, if_true]

/-- A write after a rollover that went through: the record is the whole contents of the
new file at the base name and no file at the archive path holds it. -/
theorem append_after_completed (now : QDateTime) (record : QString) (s : State)
    (h : rollOverExit now s = completed) (hopen : (rollOverCheck now s).m_logFileOpen = true) :
    QFileInfo.ofName (FileAppender.append now record (rollOverCheck now s)).fs (fileName s)
      = some { fileName := fileName s, contents := record, lastModified := now }
    ∧ (∀ e ∈ (FileAppender.append now record (rollOverCheck now s)).fs.entries,
        e.fileName = targetFileName s →
          ∃ e0 ∈ s.fs.entries, e0.fileName = fileName s
            ∧ e = { e0 with fileName := targetFileName s })
    ∧ (s.m_logFilesLimit ≤ 1 → ∃ active : QFileInfo,
        QFileInfo.ofName s.fs (fileName s) = some active
        ∧ QFileInfo.ofName (FileAppender.append now record (rollOverCheck now s)).fs
            (targetFileName s) = some { active with fileName := targetFileName s }) := by
  have hne := targetFileName_ne now s (by rw [h]; decide)
  have hsuffix : s.m_currentLogFileTime.toString s.m_datePatternString ≠ [] := by
    intro hc
    apply hne
    unfold targetFileName
    rw [hc, List.append_nil]
  obtain ⟨st, active, hr, hname, hpat, hlim, hact, harch, hopenE, htarget⟩ :=
    rollOverCheck_completed_state now s h
  obtain ⟨hfs, hop, hnm⟩ := rollOverCheck_completed_fs now s st hr
  rw [hop] at hopen
  obtain ⟨hfresh, hnonempty⟩ := hopenE hopen
  have hbase : QFileInfo.ofName (rollOverCheck now s).fs (fileName s)
      = some { fileName := fileName s, contents := [], lastModified := now } := by
    have := removeOldFiles_find_base st s.m_currentLogFileTime (by rw [hpat]; exact hsuffix)
    rw [hfs]
    simp only [fileName] at this hfresh ⊢
    rw [hname] at this
    rw [this]
    exact hfresh
  rw [FileAppender.append_open now record _ (by rw [hnm, hname]; exact hnonempty)
    (by rw [hop]; exact hopen)]
  have hw : ∀ e : QFileInfo,
      (if e.fileName == (rollOverCheck now s).m_logFileName
        then { e with contents := e.contents ++ record, lastModified := now } else e).fileName
        = e.fileName := by
    intro e
    split <;> rfl
  have hnm2 : (rollOverCheck now s).m_logFileName = fileName s := by rw [hnm, hname]; rfl
  refine ⟨?_, ?_, ?_⟩
  · unfold QFileInfo.ofName at hbase ⊢
    simp only [QFile.write]
    rw [find?_map_keep_name _ _ _ hw, hbase, hnm2]
    simp
  · intro e he hn
    simp only [QFile.write] at he
    obtain ⟨e1, he1, rfl⟩ := List.mem_map.1 he
    rw [hw e1] at hn
    have hnb : (e1.fileName == (rollOverCheck now s).m_logFileName) = false := by
      rw [beq_eq_false_iff_ne, hn, hnm2]
      exact hne
    simp only [hnb, Bool.false_eq_true, if_false]
    rw [hfs] at he1
    exact htarget e1 (removeOldFiles_subset st e1 he1) hn
  · intro hlimit
    refine ⟨active, hact, ?_⟩
    unfold QFileInfo.ofName
    simp only [QFile.write]
    rw [find?_map_keep_name _ _ _ hw, hfs, removeOldFiles_of_le st (by rw [hlim]; exact hlimit)]
    unfold QFileInfo.ofName at harch
    rw [harch]
    have hnb : (targetFileName s == (rollOverCheck now s).m_logFileName) = false := by
      rw [beq_eq_false_iff_ne, hnm2]
      exact hne
    simp only [Option.map_some', hnb, Bool.false_eq_true, if_false]

/-! ## C13, C14, C15 -/

/-- C13. After a rollover that went through (`rollOverCheck` cleared the archive path and
renamed the log file) with pruning disabled (`m_logFilesLimit <= 1`), the file at the
archive path, the base name followed by the formatted `m_currentLogFileTime` of before
the call, is the log file of before the call under its new name, contents and time stamp
unchanged; and when the appender holds the log file open after the call (the open at the
base name succeeded) the file at the base name is a new empty file stamped `now`. -/
theorem C13_completed_rollover_archives (now : QDateTime) (s : State)
    (h : rollOverExit now s = completed) (hlimit : s.m_logFilesLimit ≤ 1) :
    ∃ active : QFileInfo,
      QFileInfo.ofName s.fs (fileName s) = some active
      ∧ QFileInfo.ofName (rollOverCheck now s).fs
          (fileName s ++ s.m_currentLogFileTime.toString s.m_datePatternString)
          = some { active with
              fileName := fileName s ++ s.m_currentLogFileTime.toString s.m_datePatternString }
      ∧ ((rollOverCheck now s).m_logFileOpen = true →
          QFileInfo.ofName (rollOverCheck now s).fs (fileName s)
            = some { fileName := fileName s, contents := [], lastModified := now }) :=
  rollOverCheck_completed_files now s h hlimit

/-- Witness of C13: the daily appender at the first minute of 2024-03-11. -/
theorem C13_completed_rollover_archives_witness :
    rollOverExit (instant 2024 3 11 0 1) dailyAppender = completed
    ∧ dailyAppender.m_logFilesLimit ≤ 1
    ∧ (rollOverCheck (instant 2024 3 11 0 1) dailyAppender).m_logFileOpen = true
    ∧ ∃ active : QFileInfo,
      QFileInfo.ofName dailyAppender.fs (fileName dailyAppender) = some active
      ∧ QFileInfo.ofName (rollOverCheck (instant 2024 3 11 0 1) dailyAppender).fs
          (fileName dailyAppender
            ++ dailyAppender.m_currentLogFileTime.toString dailyAppender.m_datePatternString)
          = some { active with
              fileName := fileName dailyAppender
                ++ dailyAppender.m_currentLogFileTime.toString
                    dailyAppender.m_datePatternString }
      ∧ ((rollOverCheck (instant 2024 3 11 0 1) dailyAppender).m_logFileOpen = true →
          QFileInfo.ofName (rollOverCheck (instant 2024 3 11 0 1) dailyAppender).fs
              (fileName dailyAppender)
            = some { fileName := fileName dailyAppender, contents := [],
                     lastModified := instant 2024 3 11 0 1 }) :=
  ⟨by decide, by decide, by decide,
    C13_completed_rollover_archives (instant 2024 3 11 0 1) dailyAppender (by decide)
      (by decide)⟩

/-- C14. Function `append` hands the record to `FileAppender.append` once, in the state
that `rollOverCheck` left when the check was due and in the given state otherwise. When
the check was due and the rollover went through, with the log file open afterwards, the
file at the base name holds the record and nothing else, every file at the archive path
is a file that had the base name before the call with its contents of before the call
(the record is not in it), and without pruning (`m_logFilesLimit <= 1`) the archive is
there. -/
theorem C14_append_writes_after_rollover (now : QDateTime) (record : QString) (s : State) :
    append now record s
      = FileAppender.append now record (if rollOverDue now s then rollOverCheck now s else s)
    ∧ (rollOverDue now s = true → rollOverExit now s = completed →
        (rollOverCheck now s).m_logFileOpen = true →
          QFileInfo.ofName (append now record s).fs (fileName s)
            = some { fileName := fileName s, contents := record, lastModified := now }
          ∧ (∀ e ∈ (append now record s).fs.entries, e.fileName = targetFileName s →
              ∃ e0 ∈ s.fs.entries, e0.fileName = fileName s
                ∧ e = { e0 with fileName := targetFileName s })
          ∧ (s.m_logFilesLimit ≤ 1 → ∃ active : QFileInfo,
              QFileInfo.ofName s.fs (fileName s) = some active
              ∧ QFileInfo.ofName (append now record s).fs (targetFileName s)
                  = some { active with fileName := targetFileName s })) := by
  refine ⟨append_eq now record s, ?_⟩
  intro hdue h hopen
  rw [append_eq, if_pos hdue]
  exact append_after_completed now record s h hopen

/-- Witness of C14: the daily appender writes `new` at the first minute of 2024-03-11. -/
theorem C14_append_writes_after_rollover_witness :
    rollOverDue (instant 2024 3 11 0 1) dailyAppender = true
    ∧ rollOverExit (instant 2024 3 11 0 1) dailyAppender = completed
    ∧ (rollOverCheck (instant 2024 3 11 0 1) dailyAppender).m_logFileOpen = true
    ∧ QFileInfo.ofName (append (instant 2024 3 11 0 1) (qs "new") dailyAppender).fs
        (fileName dailyAppender)
      = some { fileName := fileName dailyAppender, contents := qs "new",
               lastModified := instant 2024 3 11 0 1 } :=
  ⟨by decide, by decide, by decide,
    ((C14_append_writes_after_rollover (instant 2024 3 11 0 1) (qs "new") dailyAppender).2
      (by decide) (by decide) (by decide)).1⟩

/-- C15. With a retention limit of at most 1 (0 and negative values included)
`removeOldFiles` removes no file, whatever the directory holds: it returns the state it
was given. -/
theorem C15_no_pruning_below_two (s : State) (h : s.m_logFilesLimit ≤ 1) :
    removeOldFiles s = s
    ∧ (removeOldFiles s).fs.entries = s.fs.entries := by
  rw [removeOldFiles_of_le s h]
  exact ⟨rfl, rfl⟩

/-- Witness of C15: the four monthly archives under the retention limits 1, 0 and -3. -/
theorem C15_no_pruning_below_two_witness :
    ((setLogFilesLimit 1
        (configured (instant 2024 4 10 12 0) MonthlyRollover monthlyArchives)).m_logFilesLimit ≤ 1
      ∧ (removeOldFiles (setLogFilesLimit 1
          (configured (instant 2024 4 10 12 0) MonthlyRollover monthlyArchives))).fs.entries
        = monthlyArchives.entries)
    ∧ (removeOldFiles (setLogFilesLimit 0
          (configured (instant 2024 4 10 12 0) MonthlyRollover monthlyArchives))).fs.entries
        = monthlyArchives.entries
    ∧ (removeOldFiles (setLogFilesLimit (-3)
          (configured (instant 2024 4 10 12 0) MonthlyRollover monthlyArchives))).fs.entries
        = monthlyArchives.entries :=
  ⟨⟨by decide,
      (C15_no_pruning_below_two (setLogFilesLimit 1
        (configured (instant 2024 4 10 12 0) MonthlyRollover monthlyArchives)) (by decide)).2⟩,
    (C15_no_pruning_below_two (setLogFilesLimit 0
        (configured (instant 2024 4 10 12 0) MonthlyRollover monthlyArchives)) (by decide)).2,
    (C15_no_pruning_below_two (setLogFilesLimit (-3)
        (configured (instant 2024 4 10 12 0) MonthlyRollover monthlyArchives)) (by decide)).2⟩

/-! ## Periods partition the time line -/

/-- The days from the first of the month that holds `jd` up to the day before the first
of the next month are days of that month. -/
theorem getDate_same_month (jd jd2 : Int)
    (h1 : jd - (getDateFromJulianDay jd).day + 1 ≤ jd2)
    (h2 : jd2 < (QDate.addMonths ⟨jd - (getDateFromJulianDay jd).day + 1⟩ 1).jd) :
    (getDateFromJulianDay jd2).year = (getDateFromJulianDay jd).year
    ∧ (getDateFromJulianDay jd2).month = (getDateFromJulianDay jd).month := by
  unfold QDate.addMonths at h2
  simp only [getDate_first_of_month] at h2
  simp only [fixedDate, QDate.ofYMD, min_one_daysInMonthOf] at h2
  obtain ⟨b, c, d, e, m, hb, hc, hd, he, hm, hg, h0c, hc1, h0d, hd1, h0e, he1, h0m, hm1⟩ :=
    getDate_decomp jd
  rw [hg] at h1 h2 ⊢
  simp only [julianDayFromDate] at h2
  rw [astroYear_roundtrip, astroYear_roundtrip] at h2
  simp only at h1
  have hsplit := yearDays_split b d h0d hd1
  have hjd : jd = e + 1461 * d / 4 + 146097 * b / 4 - 32044 := by omega
  have hq : 146097 * b - 3 ≤ 4 * (146097 * b / 4) ∧ 4 * (146097 * b / 4) ≤ 146097 * b := by
    omega
  have hq2 : 1461 * d - 3 ≤ 4 * (1461 * d / 4) ∧ 4 * (1461 * d / 4) ≤ 1461 * d := by omega
  have hr : 5 * ((153 * m + 2) / 5) ≤ 153 * m + 2 ∧ 153 * m - 2 ≤ 5 * ((153 * m + 2) / 5) := by
    omega
  by_cases hm11 : m ≤ 10
  · generalize hT : (100 * b + d - 4800 + m / 10) * 12 + (m + 3 - 12 * (m / 10) - 1) + 1 = T
      at h2
    have hyy : T / 12 + 4800 - (14 - (T % 12 + 1)) / 12 = 100 * b + d := by omega
    have hmm : T % 12 + 1 + 12 * ((14 - (T % 12 + 1)) / 12) - 3 = m + 1 := by omega
    rw [hyy, hmm] at h2
    have hr2 : 5 * ((153 * (m + 1) + 2) / 5) ≤ 153 * (m + 1) + 2 := by omega
    generalize hqd : 146097 * b / 4 = q at *
    generalize hq2d : 1461 * d / 4 = q2 at *
    generalize hrd : (153 * m + 2) / 5 = r at *
    generalize hr2d : (153 * (m + 1) + 2) / 5 = r2 at *
    have hlow : q2 + q + r ≤ jd2 + 32044 := by omega
    have hhigh : jd2 + 32044 < r2 + q2 + q := by omega
    clear hb hc hd he hm hg hsplit hjd h1 h2 hyy hmm hT h0c hc1 h0e he1
    have hq2n : 0 ≤ q2 ∧ 4 * q2 ≤ 144639 := by omega
    have hrn : 0 ≤ r ∧ r2 ≤ 337 := by omega
    have hA : 146097 * b ≤ 4 * (jd2 + 32044) + 3 := by omega
    have hB : 4 * (jd2 + 32044) + 3 < 146097 * (b + 1) := by omega
    have hC : 1461 * d ≤ 4 * (jd2 + 32044 - q) + 3 := by omega
    have hD : 4 * (jd2 + 32044 - q) + 3 < 1461 * (d + 1) := by omega
    have hE : 153 * m ≤ 5 * (jd2 + 32044 - q - q2) + 2 := by omega
    have hF : 5 * (jd2 + 32044 - q - q2) + 2 < 153 * (m + 1) := by omega
    rw [getDate_of_decomp jd2 b (jd2 + 32044 - q) d (jd2 + 32044 - q - q2) m
      (by omega) (by omega) (by omega) (by omega) (by omega)]
    exact ⟨rfl, rfl⟩
  · have hm11 : m = 11 := by omega
    subst hm11
    generalize hT : (100 * b + d - 4800 + 11 / 10) * 12 + (11 + 3 - 12 * (11 / 10) - 1) + 1 = T
      at h2
    have hyy : T / 12 + 4800 - (14 - (T % 12 + 1)) / 12 = 100 * b + d + 1 := by omega
    have hmm : T % 12 + 1 + 12 * ((14 - (T % 12 + 1)) / 12) - 3 = 0 := by omega
    rw [hyy, hmm] at h2
    by_cases hd99 : d ≤ 98
    · have hs2 := yearDays_split b (d + 1) (by omega) (by omega)
      have e1 : 100 * b + d + 1 = 100 * b + (d + 1) := by omega
      rw [e1] at h2
      have hq3 : 4 * (1461 * (d + 1) / 4) ≤ 1461 * (d + 1) := by omega
      generalize hqd : 146097 * b / 4 = q at *
      generalize hq2d : 1461 * d / 4 = q2 at *
      generalize hq3d : 1461 * (d + 1) / 4 = q3 at *
      have hlow : q2 + q + 337 ≤ jd2 + 32044 := by omega
      have hhigh : jd2 + 32044 < q3 + q := by omega
      clear hb hc hd he hm hg hsplit hjd h1 h2 hyy hmm hT h0c hc1 h0e he1 hs2 e1
      have hq2n : 0 ≤ q2 ∧ 4 * q2 ≤ 143178 := by omega
      have hq3n : q3 ≤ q2 + 366 ∧ 4 * q3 ≤ 144639 := by omega
      have hA : 146097 * b ≤ 4 * (jd2 + 32044) + 3 := by omega
      have hB : 4 * (jd2 + 32044) + 3 < 146097 * (b + 1) := by omega
      have hC : 1461 * d ≤ 4 * (jd2 + 32044 - q) + 3 := by omega
      have hD : 4 * (jd2 + 32044 - q) + 3 < 1461 * (d + 1) := by omega
      have hE : 153 * 11 ≤ 5 * (jd2 + 32044 - q - q2) + 2 := by omega
      have hF : 5 * (jd2 + 32044 - q - q2) + 2 < 153 * (11 + 1) := by omega
      rw [getDate_of_decomp jd2 b (jd2 + 32044 - q) d (jd2 + 32044 - q - q2) 11
        (by omega) (by omega) (by omega) (by omega) (by omega)]
      exact ⟨rfl, rfl⟩
    · have hd99 : d = 99 := by omega
      subst hd99
      have hs2 := yearDays_split (b + 1) 0 (by omega) (by omega)
      have e1 : 100 * b + 99 + 1 = 100 * (b + 1) + 0 := by omega
      rw [e1] at h2
      have hq3 : 4 * (146097 * (b + 1) / 4) ≤ 146097 * (b + 1) := by omega
      generalize hqd : 146097 * b / 4 = q at *
      generalize hq3d : 146097 * (b + 1) / 4 = q3 at *
      have hlow : 36159 + q + 337 ≤ jd2 + 32044 := by omega
      have hhigh : jd2 + 32044 < q3 := by omega
      clear hb hc hd he hm hg hsplit hjd h1 h2 hyy hmm hT h0c hc1 h0e he1 hs2 e1
      have hq3n : q3 ≤ q + 36525 := by omega
      have hA : 146097 * b ≤ 4 * (jd2 + 32044) + 3 := by omega
      have hB : 4 * (jd2 + 32044) + 3 < 146097 * (b + 1) := by omega
      have hC : 1461 * 99 ≤ 4 * (jd2 + 32044 - q) + 3 := by omega
      have hD : 4 * (jd2 + 32044 - q) + 3 < 1461 * (99 + 1) := by omega
      have hE : 153 * 11 ≤ 5 * (jd2 + 32044 - q - 36159) + 2 := by omega
      have hF : 5 * (jd2 + 32044 - q - 36159) + 2 < 153 * (11 + 1) := by omega
      rw [getDate_of_decomp jd2 b (jd2 + 32044 - q) 99 (jd2 + 32044 - q - 36159) 11
        (by omega) (by omega) (by omega) (by omega) (by omega)]
      exact ⟨rfl, rfl⟩

/-- The monthly period of an instant between the start of a monthly period and the start
of the next one is that period. -/
theorem helper_monthly_same (t u : QDateTime)
    (h1 : computeRollOverDateTimeHelper MonthlyRollover t false ≤ u)
    (h2 : u < computeRollOverDateTimeHelper MonthlyRollover t true) :
    computeRollOverDateTimeHelper MonthlyRollover u false
        = computeRollOverDateTimeHelper MonthlyRollover t false
    ∧ computeRollOverDateTimeHelper MonthlyRollover u true
        = computeRollOverDateTimeHelper MonthlyRollover t true := by
  rw [QDateTime.le_def, helper_monthly_start] at h1
  rw [QDateTime.lt_def, helper_monthly_next] at h2
  have hm := getDate_same_month t.date.jd u.date.jd
    (by rw [QDateTime.date_jd] at h1 ⊢; rw [QDateTime.date_jd]; omega)
    (by
      generalize (QDate.addMonths ⟨t.date.jd - (getDateFromJulianDay t.date.jd).day + 1⟩ 1).jd
        = n at h2 ⊢
      rw [QDateTime.date_jd]
      omega)
  have hfirst : u.date.jd - (getDateFromJulianDay u.date.jd).day + 1
      = t.date.jd - (getDateFromJulianDay t.date.jd).day + 1 := by
    rw [← julianDayFromDate_getDate u.date.jd 1, ← julianDayFromDate_getDate t.date.jd 1,
      hm.1, hm.2]
  constructor
  · apply QDateTime.ext_msecs
    rw [helper_monthly_start, helper_monthly_start, hfirst]
  · apply QDateTime.ext_msecs
    rw [helper_monthly_next, helper_monthly_next, hfirst]

/-- The period of an instant between the start of a period and the start of the next one
is that period, for every frequency. -/
theorem helper_same_period (f : DatePattern) (t u : QDateTime)
    (h1 : computeRollOverDateTimeHelper f t false ≤ u)
    (h2 : u < computeRollOverDateTimeHelper f t true) :
    computeRollOverDateTimeHelper f u false = computeRollOverDateTimeHelper f t false
    ∧ computeRollOverDateTimeHelper f u true = computeRollOverDateTimeHelper f t true := by
  cases f
  · rw [QDateTime.le_def, helper_minutely] at h1
    rw [QDateTime.lt_def, helper_minutely] at h2
    simp only [Bool.false_eq_true, if_false, if_true] at h1 h2
    constructor <;> apply QDateTime.ext_msecs <;> rw [helper_minutely, helper_minutely] <;>
      simp only [Bool.false_eq_true, if_false, if_true] <;> omega
  · rw [QDateTime.le_def, helper_hourly] at h1
    rw [QDateTime.lt_def, helper_hourly] at h2
    simp only [Bool.false_eq_true, if_false, if_true] at h1 h2
    constructor <;> apply QDateTime.ext_msecs <;> rw [helper_hourly, helper_hourly] <;>
      simp only [Bool.false_eq_true, if_false, if_true] <;> omega
  · rw [QDateTime.le_def, helper_halfDaily] at h1
    rw [QDateTime.lt_def, helper_halfDaily] at h2
    simp only [Bool.false_eq_true, if_false, if_true] at h1 h2
    constructor <;> apply QDateTime.ext_msecs <;> rw [helper_halfDaily, helper_halfDaily] <;>
      simp only [Bool.false_eq_true, if_false, if_true] <;> omega
  · rw [QDateTime.le_def, helper_daily] at h1
    rw [QDateTime.lt_def, helper_daily] at h2
    simp only [Bool.false_eq_true, if_false, if_true] at h1 h2
    constructor <;> apply QDateTime.ext_msecs <;> rw [helper_daily, helper_daily] <;>
      simp only [Bool.false_eq_true, if_false, if_true] <;> omega
  · rw [QDateTime.le_def, helper_weekly] at h1
    rw [QDateTime.lt_def, helper_weekly] at h2
    simp only [Bool.false_eq_true, if_false, if_true] at h1 h2
    have hw : (u.msecs / 86400000 + 2440588 + 1) / 7 = (t.msecs / 86400000 + 2440588 + 1) / 7 := by
      omega
    constructor <;> apply QDateTime.ext_msecs <;> rw [helper_weekly, helper_weekly, hw]
  · exact helper_monthly_same t u h1 h2

/-- The start of a period is the start of its own period, and the period after it is the
period after the instant it was computed from. -/
theorem helper_idempotent (f : DatePattern) (t : QDateTime) :
    computeRollOverDateTimeHelper f (computeRollOverDateTimeHelper f t false) false
        = computeRollOverDateTimeHelper f t false
    ∧ computeRollOverDateTimeHelper f (computeRollOverDateTimeHelper f t false) true
        = computeRollOverDateTimeHelper f t true := by
  have hc := helper_bounds f t
  exact helper_same_period f t _ (by rw [QDateTime.le_def]) (by
    rw [QDateTime.lt_def]
    omega)

/-! ## The weekly period on the wall clock -/

/-- On the wall clock the weekly period start is at midnight, falls on a Sunday (the day
the code numbers 0), and its date lies as many days before the date of `t` as the code's
day index of `t` says: Sunday 0, Monday 1, ..., Saturday 6. -/
theorem weekly_start_wall (t : QDateTime) :
    (computeRollOverDateTimeHelper WeeklyRollover t false).time = QTime.ofHMS 0 0 0 0
    ∧ (computeRollOverDateTimeHelper WeeklyRollover t false).date.dayOfWeek = Qt.Sunday
    ∧ (if (computeRollOverDateTimeHelper WeeklyRollover t false).date.dayOfWeek == Qt.Sunday
        then 0 else (computeRollOverDateTimeHelper WeeklyRollover t false).date.dayOfWeek) = 0
    ∧ t.date.jd - (computeRollOverDateTimeHelper WeeklyRollover t false).date.jd
        = (if t.date.dayOfWeek == Qt.Sunday then 0 else t.date.dayOfWeek)
    ∧ 0 ≤ t.date.jd - (computeRollOverDateTimeHelper WeeklyRollover t false).date.jd
    ∧ t.date.jd - (computeRollOverDateTimeHelper WeeklyRollover t false).date.jd ≤ 6
    ∧ (t.date.jd - (computeRollOverDateTimeHelper WeeklyRollover t false).date.jd = 0
        ↔ t.date.dayOfWeek = Qt.Sunday) := by
  have hm := helper_weekly t false
  simp only [Bool.false_eq_true, if_false] at hm
  have hjd : (computeRollOverDateTimeHelper WeeklyRollover t false).date.jd
      = (t.msecs / 86400000 + 2440588 + 1) / 7 * 7 - 1 := by
    rw [QDateTime.date_jd, hm]
    omega
  have htime : (computeRollOverDateTimeHelper WeeklyRollover t false).time = QTime.ofHMS 0 0 0 0 := by
    have h0 : QTime.ofHMS 0 0 0 0 = ⟨0⟩ := by decide
    rw [h0]
    have hmds := QDateTime.time_mds (computeRollOverDateTimeHelper WeeklyRollover t false)
    rw [hm] at hmds
    have hz : (computeRollOverDateTimeHelper WeeklyRollover t false).time.mds = 0 := by
      rw [hmds]
      omega
    cases hx : (computeRollOverDateTimeHelper WeeklyRollover t false).time with
    | mk mds =>
      rw [hx] at hz
      simp only at hz
      rw [hz]
  have hsun : (computeRollOverDateTimeHelper WeeklyRollover t false).date.dayOfWeek = Qt.Sunday := by
    rw [QDate.dayOfWeek_eq, hjd]
    simp only [Qt.Sunday]
    omega
  refine ⟨htime, hsun, ?_, ?_, ?_, ?_, ?_⟩
  · rw [hsun]
    rfl
  · rw [hjd, QDate.dayOfWeek_eq, QDateTime.date_jd]
    simp only [Qt.Sunday, beq_iff_eq]
    split <;> omega
  · rw [hjd, QDateTime.date_jd]
    omega
  · rw [hjd, QDateTime.date_jd]
    omega
  · rw [hjd, QDate.dayOfWeek_eq, QDateTime.date_jd]
    simp only [Qt.Sunday]
    omega


/-! ## The force flag and the schedule -/

/-- Function `FileAppender.append` touches the file system and the open flag only. -/
theorem FileAppender.append_fields (now : QDateTime) (record : QString) (s : State) :
    FileAppender.append now record s
      = { s with fs := (FileAppender.append now record s).fs
                 m_logFileOpen := (FileAppender.append now record s).m_logFileOpen } := by
  unfold FileAppender.append openFile
  by_cases hempty : s.m_logFileName.isEmpty = true
  · simp only [hempty, if_true]
  · by_cases hopen : s.m_logFileOpen = true
    · simp only [hempty, hopen, if_true, Bool.false_eq_true, if_false]
    · simp only [hempty, hopen, Bool.false_eq_true, if_false]
      rcases QFile.openAppend now s.fs s.m_logFileName with ⟨ok, fs⟩
      cases ok <;> rfl

/-- Function `rollOverCheck` clears the force flag at every exit. -/
theorem rollOverCheck_force (now : QDateTime) (s : State) :
    (rollOverCheck now s).m_forceRollovercheck = false := by
  cases hx : rollOverExit now s with
  | samePeriod => rw [rollOverCheck_noop now s ((rollOverExit_samePeriod now s).1 hx)]
  | removeFailed => rw [(rollOverCheck_removeFailed now s hx).1]
  | renameFailed => rw [(rollOverCheck_renameFailed now s hx).1]
  | completed =>
    rw [(rollOverCheck_completed now s hx).1, computeLogAndRollOverTimes_eq, removeOldFiles_eq,
      openFile_eq]

/-- An aborted `rollOverCheck` leaves the schedule, the frequency and the pattern. -/
theorem rollOverCheck_abort_schedule (now : QDateTime) (s : State)
    (h : rollOverExit now s = removeFailed ∨ rollOverExit now s = renameFailed) :
    (rollOverCheck now s).m_rollOverTime = s.m_rollOverTime
    ∧ (rollOverCheck now s).m_currentLogFileTime = s.m_currentLogFileTime
    ∧ (rollOverCheck now s).m_frequency = s.m_frequency
    ∧ (rollOverCheck now s).m_datePatternString = s.m_datePatternString := by
  rcases h with h | h
  · rw [(rollOverCheck_removeFailed now s h).1]
    exact ⟨rfl, rfl, rfl, rfl⟩
  · rw [(rollOverCheck_renameFailed now s h).1]
    exact ⟨rfl, rfl, rfl, rfl⟩

/-- The three reconfiguring member functions leave the force flag as it is. -/
theorem reconfiguration_force (now : QDateTime) (f : DatePattern) (pattern name : QString)
    (s : State) :
    (setDatePattern now f s).m_forceRollovercheck = s.m_forceRollovercheck
    ∧ (setDatePatternQString now pattern s).m_forceRollovercheck = s.m_forceRollovercheck
    ∧ (setFileName now name s).m_forceRollovercheck = s.m_forceRollovercheck := by
  refine ⟨?_, ?_, ?_⟩
  · unfold setDatePattern
    rw [computeLogAndRollOverTimes_eq]
    cases f <;> rfl
  · unfold setDatePatternQString
    rw [computeLogAndRollOverTimes_eq, computeFrequency_eq]
    cases inferFrequency (setDatePatternString pattern s).m_datePatternString <;> rfl
  · unfold setFileName
    rw [computeLogAndRollOverTimes_eq]
    rfl

/-- C16, counterexample. The daily appender has written one record on 2024-03-10 at
12:30, which ran the first check and cleared the force flag. After `setDatePattern` with a
frequency, after `setDatePattern` with a pattern and after `setFileName`, each at 13:00,
the flag is still clear, and a write at 13:01, before the scheduled rollover time, does
not call `rollOverCheck`. -/
theorem C16_counterexample :
    (append (instant 2024 3 10 12 30) (qs "r") dailyAppender).m_forceRollovercheck = false
    ∧ (setDatePattern (instant 2024 3 10 13 0) HourlyRollover
        (append (instant 2024 3 10 12 30) (qs "r") dailyAppender)).m_forceRollovercheck = false
    ∧ (setDatePatternQString (instant 2024 3 10 13 0) (qs "'.'yyyy-MM")
        (append (instant 2024 3 10 12 30) (qs "r") dailyAppender)).m_forceRollovercheck = false
    ∧ (setFileName (instant 2024 3 10 13 0) (qs "other.log")
        (append (instant 2024 3 10 12 30) (qs "r") dailyAppender)).m_forceRollovercheck = false
    ∧ rollOverDue (instant 2024 3 10 13 1)
        (setDatePattern (instant 2024 3 10 13 0) HourlyRollover
          (append (instant 2024 3 10 12 30) (qs "r") dailyAppender)) = false
    ∧ rollOverDue (instant 2024 3 10 13 1)
        (setDatePatternQString (instant 2024 3 10 13 0) (qs "'.'yyyy-MM")
          (append (instant 2024 3 10 12 30) (qs "r") dailyAppender)) = false
    ∧ rollOverDue (instant 2024 3 10 13 1)
        (setFileName (instant 2024 3 10 13 0) (qs "other.log")
          (append (instant 2024 3 10 12 30) (qs "r") dailyAppender)) = false := by
  decide

/-- C16, amended. The force flag `m_forceRollovercheck` is set by the constructor and
cleared by `rollOverCheck`; `setDatePattern` with a frequency, `setDatePattern` with a
pattern and `setFileName` leave it as it was. So after a reconfiguration the next write
calls `rollOverCheck` exactly when the flag was still set before the reconfiguration or
the write comes at or after the rollover time the reconfiguration computed. -/
theorem C16_reconfiguration_keeps_force_flag (now : QDateTime) (f f0 : DatePattern)
    (pattern name : QString) (fs : FileSystem) (s : State) :
    (RollingFileAppender.new name f0 fs).m_forceRollovercheck = true
    ∧ (rollOverCheck now s).m_forceRollovercheck = false
    ∧ (setDatePattern now f s).m_forceRollovercheck = s.m_forceRollovercheck
    ∧ (setDatePatternQString now pattern s).m_forceRollovercheck = s.m_forceRollovercheck
    ∧ (setFileName now name s).m_forceRollovercheck = s.m_forceRollovercheck
    ∧ (∀ now2 : QDateTime,
        (rollOverDue now2 (setDatePattern now f s) = true
          ↔ (setDatePattern now f s).m_rollOverTime ≤ now2 ∨ s.m_forceRollovercheck = true)
        ∧ (rollOverDue now2 (setDatePatternQString now pattern s) = true
          ↔ (setDatePatternQString now pattern s).m_rollOverTime ≤ now2
            ∨ s.m_forceRollovercheck = true)
        ∧ (rollOverDue now2 (setFileName now name s) = true
          ↔ (setFileName now name s).m_rollOverTime ≤ now2 ∨ s.m_forceRollovercheck = true)) := by
  obtain ⟨h1, h2, h3⟩ := reconfiguration_force now f pattern name s
  refine ⟨rfl, rollOverCheck_force now s, h1, h2, h3, ?_⟩
  intro now2
  unfold rollOverDue
  rw [h1, h2, h3]
  refine ⟨?_, ?_, ?_⟩ <;> simp only [Bool.or_eq_true, decide_eq_true_eq, ge_iff_le]

/-- C18, counterexample. With the last-modified basis and a log file last written on
2024-03-09, configuring the daily frequency on 2024-03-11 at 12:00 sets the current
period to 2024-03-09 00:00 and the next rollover to 2024-03-12 00:00, which is not the
start of the period after the current one, 2024-03-10 00:00. -/
theorem C18_counterexample :
    (lastModifiedAppender staleDirectory).m_currentLogFileTime = instant 2024 3 9 0 0
    ∧ (lastModifiedAppender staleDirectory).m_rollOverTime = instant 2024 3 12 0 0
    ∧ computeRollOverDateTimeHelper (lastModifiedAppender staleDirectory).m_frequency
        (lastModifiedAppender staleDirectory).m_currentLogFileTime true = instant 2024 3 10 0 0
    ∧ (lastModifiedAppender staleDirectory).m_rollOverTime
      ≠ computeRollOverDateTimeHelper (lastModifiedAppender staleDirectory).m_frequency
          (lastModifiedAppender staleDirectory).m_currentLogFileTime true
    ∧ (computeLogAndRollOverTimes (instant 2024 3 11 12 0)
          (lastModifiedAppender staleDirectory)).m_rollOverTime
      ≠ computeRollOverDateTimeHelper (lastModifiedAppender staleDirectory).m_frequency
          (computeLogAndRollOverTimes (instant 2024 3 11 12 0)
            (lastModifiedAppender staleDirectory)).m_currentLogFileTime true := by
  decide

/-- C18, amended. Function `computeLogAndRollOverTimes` sets `m_currentLogFileTime` to the
period start of the basis instant (the clock, or the time the log file was last modified
when that basis is configured and the file exists) and `m_rollOverTime` to the start of
the period after the one that holds `now`. The rollover time is the start of the period
after `m_currentLogFileTime` whenever the basis instant lies in the period of `now`: with
the last-modified basis off, and after a rollover that went through with either setting.
The same holds for `setDatePattern` and `setFileName`, which end in
`computeLogAndRollOverTimes`. -/
theorem C18_schedule_recomputed (now : QDateTime) (s : State) :
    (computeLogAndRollOverTimes now s).m_currentLogFileTime
        = computeRollOverDateTimeHelper s.m_frequency (basisInstant now s) false
    ∧ (computeLogAndRollOverTimes now s).m_rollOverTime
        = computeRollOverDateTimeHelper s.m_frequency now true
    ∧ (computeRollOverDateTimeHelper s.m_frequency (basisInstant now s) false
          = computeRollOverDateTimeHelper s.m_frequency now false →
        (computeLogAndRollOverTimes now s).m_rollOverTime
          = computeRollOverDateTimeHelper s.m_frequency
              (computeLogAndRollOverTimes now s).m_currentLogFileTime true)
    ∧ (s.m_computeRollOverBasedOnLastModified = false →
        (computeLogAndRollOverTimes now s).m_rollOverTime
          = computeRollOverDateTimeHelper s.m_frequency
              (computeLogAndRollOverTimes now s).m_currentLogFileTime true)
    ∧ (rollOverExit now s = completed →
        (rollOverCheck now s).m_currentLogFileTime
          = computeRollOverDateTimeHelper s.m_frequency now false
        ∧ (rollOverCheck now s).m_rollOverTime
          = computeRollOverDateTimeHelper s.m_frequency
              (rollOverCheck now s).m_currentLogFileTime true)
    ∧ (∀ f : DatePattern,
        (setDatePattern now f s).m_currentLogFileTime
          = computeRollOverDateTimeHelper f (basisInstant now s) false
        ∧ (setDatePattern now f s).m_rollOverTime = computeRollOverDateTimeHelper f now true)
    ∧ (∀ name : QString,
        (setFileName now name s).m_currentLogFileTime
          = computeRollOverDateTimeHelper s.m_frequency
              (basisInstant now (FileAppender.setFileName name s)) false
        ∧ (setFileName now name s).m_rollOverTime
          = computeRollOverDateTimeHelper s.m_frequency now true) := by
  have hsame : computeRollOverDateTimeHelper s.m_frequency (basisInstant now s) false
        = computeRollOverDateTimeHelper s.m_frequency now false →
      (computeLogAndRollOverTimes now s).m_rollOverTime
        = computeRollOverDateTimeHelper s.m_frequency
            (computeLogAndRollOverTimes now s).m_currentLogFileTime true := by
    intro hb
    rw [computeLogAndRollOverTimes_eq]
    simp only
    rw [computeFileLogTime_eq_basis, hb, (helper_idempotent s.m_frequency now).2]
  refine ⟨?_, ?_, hsame, ?_, ?_, ?_, ?_⟩
  · rw [computeLogAndRollOverTimes_eq]
    rfl
  · rw [computeLogAndRollOverTimes_eq]
  · intro hoff
    apply hsame
    rw [← computeFileLogTime_eq_basis, computeFileLogTime_of_clock now s hoff]
  · intro hx
    obtain ⟨hr, hrn⟩ := rollOverCheck_completed now s hx
    have hcur := computeFileLogTime_after_rollover now
      { s with m_forceRollovercheck := false
               assertFailed := s.assertFailed || s.m_datePatternString.isEmpty
               m_logFileOpen := false } _ _ hrn
    have hfreq : (removeOldFiles (openFile now
        { s with m_forceRollovercheck := false
                 assertFailed := s.assertFailed || s.m_datePatternString.isEmpty
                 m_logFileOpen := false
                 fs := (QFile.rename
                   { s.fs with
                     entries := s.fs.entries.filter (fun e => e.fileName != targetFileName s) }
                   s.m_logFileName (targetFileName s)).2 }).1).m_frequency = s.m_frequency := by
      rw [removeOldFiles_eq, openFile_eq]
    rw [hr, computeLogAndRollOverTimes_eq]
    simp only
    rw [hfreq]
    simp only at hcur
    rw [hcur]
    exact ⟨rfl, ((helper_idempotent s.m_frequency now).2).symm⟩
  · intro f
    unfold setDatePattern
    rw [computeLogAndRollOverTimes_eq]
    cases f <;> exact ⟨rfl, rfl⟩
  · intro name
    unfold setFileName
    rw [computeLogAndRollOverTimes_eq]
    exact ⟨rfl, rfl⟩

/-- Witness of the amended C18: the daily appender, whose last-modified basis is off, on
2024-03-11 at 00:01. -/
theorem C18_schedule_recomputed_witness :
    dailyAppender.m_computeRollOverBasedOnLastModified = false
    ∧ (computeLogAndRollOverTimes (instant 2024 3 11 0 1) dailyAppender).m_rollOverTime
      = computeRollOverDateTimeHelper dailyAppender.m_frequency
          (computeLogAndRollOverTimes (instant 2024 3 11 0 1)
            dailyAppender).m_currentLogFileTime true :=
  ⟨by decide,
    (C18_schedule_recomputed (instant 2024 3 11 0 1) dailyAppender).2.2.2.1 (by decide)⟩

/-- C20, counterexample. The appender with the last-modified basis finds on 2024-03-11 at
12:00 a log file last written on 2024-03-09 that the file system refuses to rename. Its
first write runs `rollOverCheck` because the force flag is set, and the rollover is
aborted at the renaming. The next write, one minute later, comes before the scheduled
rollover time 2024-03-12 00:00 with the flag cleared, so it does not call
`rollOverCheck`; this stays so when the file system no longer refuses the renaming, where
a check would have archived the file. -/
theorem C20_counterexample :
    rollOverDue (instant 2024 3 11 12 0) (lastModifiedAppender staleLockedDirectory) = true
    ∧ rollOverExit (instant 2024 3 11 12 0) (lastModifiedAppender staleLockedDirectory)
        = renameFailed
    ∧ instant 2024 3 11 12 1 ≥ instant 2024 3 11 12 0
    ∧ rollOverDue (instant 2024 3 11 12 1)
        (append (instant 2024 3 11 12 0) (qs "a")
          (lastModifiedAppender staleLockedDirectory)) = false
    ∧ append (instant 2024 3 11 12 1) (qs "b")
        (append (instant 2024 3 11 12 0) (qs "a") (lastModifiedAppender staleLockedDirectory))
      = FileAppender.append (instant 2024 3 11 12 1) (qs "b")
          (append (instant 2024 3 11 12 0) (qs "a") (lastModifiedAppender staleLockedDirectory))
    ∧ rollOverDue (instant 2024 3 11 12 1)
        { append (instant 2024 3 11 12 0) (qs "a") (lastModifiedAppender staleLockedDirectory)
          with fs := directoryOf [{ fileName := qs "app.log", contents := qs "olda",
                                    lastModified := instant 2024 3 11 12 0 }] } = false
    ∧ rollOverExit (instant 2024 3 11 12 1)
        { append (instant 2024 3 11 12 0) (qs "a") (lastModifiedAppender staleLockedDirectory)
          with fs := directoryOf [{ fileName := qs "app.log", contents := qs "olda",
                                    lastModified := instant 2024 3 11 12 0 }] } = completed := by
  decide

/-- C20, amended. When `rollOverCheck` returns because the removal at the archive path or
the renaming failed, it leaves the scheduled rollover time as it was and the force flag
cleared, and so does the write that follows it. The next write, at `now2`, calls
`rollOverCheck` again exactly when `now2` is at or after the scheduled rollover time; in
particular every write at `now2 >= now` does when the aborted check itself came at or
after the scheduled rollover time. -/
theorem C20_abort_retried_when_scheduled (now now2 : QDateTime) (record : QString) (s : State)
    (h : rollOverExit now s = removeFailed ∨ rollOverExit now s = renameFailed) :
    (rollOverCheck now s).m_rollOverTime = s.m_rollOverTime
    ∧ (rollOverCheck now s).m_forceRollovercheck = false
    ∧ (rollOverDue now2 (rollOverCheck now s) = true ↔ s.m_rollOverTime ≤ now2)
    ∧ (rollOverDue now2 (FileAppender.append now record (rollOverCheck now s)) = true
        ↔ s.m_rollOverTime ≤ now2)
    ∧ (s.m_rollOverTime ≤ now → now ≤ now2 →
        rollOverDue now2 (FileAppender.append now record (rollOverCheck now s)) = true
        ∧ append now2 record (FileAppender.append now record (rollOverCheck now s))
          = FileAppender.append now2 record
              (rollOverCheck now2 (FileAppender.append now record (rollOverCheck now s)))) := by
  have htime := (rollOverCheck_abort_schedule now s h).1
  have hflag := rollOverCheck_force now s
  have hdue1 : rollOverDue now2 (rollOverCheck now s) = true ↔ s.m_rollOverTime ≤ now2 := by
    unfold rollOverDue
    rw [htime, hflag]
    simp only [Bool.or_false, decide_eq_true_eq, ge_iff_le]
  have hdue2 : rollOverDue now2 (FileAppender.append now record (rollOverCheck now s)) = true
      ↔ s.m_rollOverTime ≤ now2 := by
    rw [FileAppender.append_fields]
    exact hdue1
  refine ⟨htime, hflag, hdue1, hdue2, ?_⟩
  intro h1 h2
  have hd : rollOverDue now2 (FileAppender.append now record (rollOverCheck now s)) = true := by
    rw [hdue2]
    rw [QDateTime.le_def] at h1 h2 ⊢
    omega
  refine ⟨hd, ?_⟩
  rw [append_eq, if_pos hd]

/-- Witness of the amended C20: the appender whose log file cannot be renamed, at the
first and the second minute of 2024-03-11, after its scheduled rollover time. -/
theorem C20_abort_retried_when_scheduled_witness :
    (rollOverExit (instant 2024 3 11 0 1) lockedAppender = removeFailed
      ∨ rollOverExit (instant 2024 3 11 0 1) lockedAppender = renameFailed)
    ∧ lockedAppender.m_rollOverTime ≤ instant 2024 3 11 0 1
    ∧ instant 2024 3 11 0 1 ≤ instant 2024 3 11 0 2
    ∧ rollOverDue (instant 2024 3 11 0 2)
        (FileAppender.append (instant 2024 3 11 0 1) (qs "a")
          (rollOverCheck (instant 2024 3 11 0 1) lockedAppender)) = true :=
  ⟨Or.inr (by decide), by decide, by decide,
    ((C20_abort_retried_when_scheduled (instant 2024 3 11 0 1) (instant 2024 3 11 0 2) (qs "a")
      lockedAppender (Or.inr (by decide))).2.2.2.2 (by decide) (by decide)).1⟩

/-! ## Time zones without transitions -/

theorem foldl_min_mem (e : Int) (more : List Int) : more.foldl min e ∈ e :: more := by
  induction more generalizing e with
  | nil => exact List.mem_cons_self e []
  | cons a rest ih =>
    rw [List.foldl_cons]
    rcases List.mem_cons.1 (ih (min e a)) with h | h
    · rw [h]
      rcases min_choice e a with hm | hm
      · rw [hm]
        exact List.mem_cons_self e _
      · rw [hm]
        exact List.mem_cons_of_mem e (List.mem_cons_self a rest)
    · exact List.mem_cons_of_mem e (List.mem_cons_of_mem a h)

/-- A wall-clock time that exists in the zone is the local time of the instant it is read
as. -/
theorem TimeZone.localToEpoch_valid (z : TimeZone) (wall : Int)
    (h : (z.localToEpoch wall).1 = true) :
    (z.localToEpoch wall).2 + z.offsetAt (z.localToEpoch wall).2 = wall := by
  unfold TimeZone.localToEpoch at h ⊢
  cases hs : TimeZone.skippedBy z.standardOffset z.transitions wall with
  | some before =>
    rw [hs] at h
    exact absurd h (by simp)
  | none =>
    rw [hs] at h
    simp only at h ⊢
    cases hi : ((z.standardOffset :: z.transitions.map Prod.snd).map
        (fun off => wall - off)).filter (fun epoch => epoch + z.offsetAt epoch == wall) with
    | nil =>
      rw [hi] at h
      exact absurd h (by simp)
    | cons e more =>
      simp only
      have hmem : more.foldl min e ∈ ((z.standardOffset :: z.transitions.map Prod.snd).map
          (fun off => wall - off)).filter (fun epoch => epoch + z.offsetAt epoch == wall) := by
        rw [hi]
        exact foldl_min_mem e more
      have := (List.mem_filter.1 hmem).2
      simpa using this

/-! ## C1, C17, C19: period boundaries in a time zone -/

/-- The weekly period start in a zone is the local time of the instant that the
wall-clock start of the week is read as. -/
theorem zoned_helper_weekly_start (z : TimeZone) (t : Zoned.QDateTime) :
    Zoned.computeRollOverDateTimeHelper z WeeklyRollover t false
      = Zoned.QDateTime.fromMSecsSinceEpoch z
          (z.localToEpoch (computeRollOverDateTimeHelper WeeklyRollover ⟨t.msecs⟩ false).msecs).2 :=
  rfl

/-- The wall-clock start of the week is midnight of the day that lies the code's day
index before the date. -/
theorem weekly_start_wall_msecs (t : QDateTime) :
    (computeRollOverDateTimeHelper WeeklyRollover t false).msecs
      = (QDateTime.ofDateTime
          (t.date.addDays (-(if t.date.dayOfWeek == Qt.Sunday then 0 else t.date.dayOfWeek)))
          (QTime.ofHMS 0 0 0 0)).msecs := by
  simp only [computeRollOverDateTimeHelper, Bool.false_eq_true, if_false]
  rw [QDateTime.addDays_msecs, QDateTime.ofDateTime_midnight, QDateTime.ofDateTime_midnight]
  simp only [QDate.addDays]
  split <;> omega

/-- C17, counterexample. In Cuban time, where daylight-saving time began on Sunday
2024-03-10 at 00:00 with the clock set to 01:00, the weekly period start of Wednesday
2024-03-13 12:00 is Sunday 2024-03-10 01:00: a Sunday, three days before, but not at
midnight, a time that day does not have. -/
theorem C17_counterexample :
    (localInstant americaHavana2024 2024 3 13 12 0).valid = true
    ∧ (localInstant americaHavana2024 2024 3 10 0 0).valid = false
    ∧ (Zoned.computeRollOverDateTimeHelper americaHavana2024 WeeklyRollover
        (localInstant americaHavana2024 2024 3 13 12 0) false).valid = true
    ∧ (Zoned.computeRollOverDateTimeHelper americaHavana2024 WeeklyRollover
        (localInstant americaHavana2024 2024 3 13 12 0) false).time = QTime.ofHMS 1 0 0 0
    ∧ (Zoned.computeRollOverDateTimeHelper americaHavana2024 WeeklyRollover
        (localInstant americaHavana2024 2024 3 13 12 0) false).time ≠ QTime.ofHMS 0 0 0 0
    ∧ (Zoned.computeRollOverDateTimeHelper americaHavana2024 WeeklyRollover
        (localInstant americaHavana2024 2024 3 13 12 0) false).date = QDate.ofYMD 2024 3 10
    ∧ (Zoned.computeRollOverDateTimeHelper americaHavana2024 WeeklyRollover
        (localInstant americaHavana2024 2024 3 13 12 0) false).date.dayOfWeek = Qt.Sunday := by
  decide

/-- C17, amended. For every time zone and every timestamp `t`, the weekly period start is
the valid local date-time that Qt gives for 00:00 of a Sunday (the day the code numbers
0): the Sunday that lies the code's day index of the date of `t` (Sunday 0, Monday 1, ...,
Saturday 6) before that date, so between 0 and 6 days, and 0 days exactly when the date
of `t` is a Sunday. When the zone has the time 00:00 on that Sunday, the weekly period
start is at midnight and its date is that Sunday. -/
theorem C17_weekly_start_is_sunday_midnight (z : TimeZone) (t : Zoned.QDateTime) :
    let index := if t.date.dayOfWeek == Qt.Sunday then 0 else t.date.dayOfWeek
    let sunday := t.date.addDays (-index)
    let start := Zoned.computeRollOverDateTimeHelper z WeeklyRollover t false
    start = Zoned.QDateTime.fromMSecsSinceEpoch z
        (z.localToEpoch (QDateTime.ofDateTime sunday (QTime.ofHMS 0 0 0 0)).msecs).2
    ∧ start.valid = true
    ∧ sunday.dayOfWeek = Qt.Sunday
    ∧ (if sunday.dayOfWeek == Qt.Sunday then 0 else sunday.dayOfWeek) = 0
    ∧ t.date.jd - sunday.jd = index
    ∧ 0 ≤ index
    ∧ index ≤ 6
    ∧ (index = 0 ↔ t.date.dayOfWeek = Qt.Sunday)
    ∧ ((Zoned.QDateTime.ofDateTime z sunday (QTime.ofHMS 0 0 0 0)).valid = true
        → start.time = QTime.ofHMS 0 0 0 0
          ∧ start.date = sunday
          ∧ start.date.dayOfWeek = Qt.Sunday
          ∧ t.date.jd - start.date.jd = index) := by
  intro index sunday start
  have hw : (computeRollOverDateTimeHelper WeeklyRollover ⟨t.msecs⟩ false).msecs
      = (QDateTime.ofDateTime sunday (QTime.ofHMS 0 0 0 0)).msecs :=
    weekly_start_wall_msecs ⟨t.msecs⟩
  have hstart : start = Zoned.QDateTime.fromMSecsSinceEpoch z
      (z.localToEpoch (QDateTime.ofDateTime sunday (QTime.ofHMS 0 0 0 0)).msecs).2 := by
    show Zoned.computeRollOverDateTimeHelper z WeeklyRollover t false = _
    rw [zoned_helper_weekly_start, hw]
  have hjd : sunday.jd = t.date.jd - index := by
    show t.date.jd + -index = t.date.jd - index
    omega
  have hidx : index = (if t.date.jd % 7 + 1 = 7 then 0 else t.date.jd % 7 + 1) := by
    show (if t.date.dayOfWeek == Qt.Sunday then 0 else t.date.dayOfWeek) = _
    rw [QDate.dayOfWeek_eq]
    simp only [Qt.Sunday, beq_iff_eq]
  have hsun : sunday.dayOfWeek = Qt.Sunday := by
    rw [QDate.dayOfWeek_eq, hjd, hidx]
    simp only [Qt.Sunday]
    split <;> omega
  have hwall := weekly_start_wall ⟨t.msecs⟩
  refine ⟨hstart, ?_, hsun, ?_, ?_, ?_, ?_, ?_, ?_⟩
  · rw [hstart]
    rfl
  · rw [hsun]
    rfl
  · rw [hjd]
    omega
  · rw [hidx]
    split <;> omega
  · rw [hidx]
    split <;> omega
  · rw [hidx, QDate.dayOfWeek_eq]
    simp only [Qt.Sunday]
    split <;> omega
  · intro hmid
    have hmid2 : (z.localToEpoch
        (QDateTime.ofDateTime sunday (QTime.ofHMS 0 0 0 0)).msecs).1 = true := hmid
    have hval := TimeZone.localToEpoch_valid z _ hmid2
    have hP : start
        = { msecs := (computeRollOverDateTimeHelper WeeklyRollover ⟨t.msecs⟩ false).msecs,
            valid := true,
            epoch := (z.localToEpoch
              (QDateTime.ofDateTime sunday (QTime.ofHMS 0 0 0 0)).msecs).2 } := by
      rw [hstart, hw]
      unfold Zoned.QDateTime.fromMSecsSinceEpoch
      rw [hval]
    have hdate : start.date = sunday := by
      rw [hP]
      show CuteLogger.QDateTime.date
        ⟨(computeRollOverDateTimeHelper WeeklyRollover ⟨t.msecs⟩ false).msecs⟩ = sunday
      rw [hw, QDateTime.ofDateTime_midnight]
      cases hs : sunday with
      | mk jd =>
        show (⟨(jd - 2440588) * 86400000 / 86400000 + 2440588⟩ : QDate) = ⟨jd⟩
        congr 1
        omega
    refine ⟨?_, hdate, ?_, ?_⟩
    · rw [hP]
      exact hwall.1
    · rw [hdate]
      exact hsun
    · rw [hdate, hjd]
      omega

/-- Witness of the amended C17: Cuban time, Wednesday 2024-03-20 at 12:00; the Sunday
before, 2024-03-17, has the time 00:00, and the weekly period start is at midnight. -/
theorem C17_weekly_start_is_sunday_midnight_witness :
    (Zoned.QDateTime.ofDateTime americaHavana2024
        ((localInstant americaHavana2024 2024 3 20 12 0).date.addDays
          (-(if (localInstant americaHavana2024 2024 3 20 12 0).date.dayOfWeek == Qt.Sunday
             then 0 else (localInstant americaHavana2024 2024 3 20 12 0).date.dayOfWeek)))
        (QTime.ofHMS 0 0 0 0)).valid = true
    ∧ (Zoned.computeRollOverDateTimeHelper americaHavana2024 WeeklyRollover
        (localInstant americaHavana2024 2024 3 20 12 0) false).time = QTime.ofHMS 0 0 0 0 :=
  ⟨by decide,
    ((C17_weekly_start_is_sunday_midnight americaHavana2024
      (localInstant americaHavana2024 2024 3 20 12 0)).2.2.2.2.2.2.2.2 (by decide)).1⟩

/-! ## The exits of `rollOverCheck` in a time zone -/

theorem zoned_Q_ASSERT_X_eq (c : Bool) (s : Zoned.State) :
    Zoned.Q_ASSERT_X c s = { s with assertFailed := s.assertFailed || !c } := by
  cases c
  · simp [Zoned.Q_ASSERT_X]
  · simp [Zoned.Q_ASSERT_X]

/-- Function `rollOverCheck` when the suffixes of the current period and of `now` differ. -/
theorem zoned_rollOverCheck_roll (now : Int) (s : Zoned.State)
    (h : (s.m_currentLogFileTime.toString s.m_datePatternString
      == (Zoned.computeCurrentLogTimeNow now s).toString s.m_datePatternString) = false) :
    Zoned.rollOverCheck now s
      = (let s2 : Zoned.State :=
            { s with m_forceRollovercheck := false
                     assertFailed := s.assertFailed || s.m_datePatternString.isEmpty
                     m_logFileOpen := false }
        let target := s.m_logFileName ++ s.m_currentLogFileTime.toString s.m_datePatternString
        if QFile.fileExists s.fs target = true ∧ (QFile.remove s.fs target).1 = false then s2
        else
          let fs1 := if QFile.fileExists s.fs target then (QFile.remove s.fs target).2 else s.fs
          if (QFile.rename fs1 s.m_logFileName target).1 = false then { s2 with fs := fs1 }
          else Zoned.computeLogAndRollOverTimes now (Zoned.removeOldFiles (Zoned.openFile now
            { s2 with fs := (QFile.rename fs1 s.m_logFileName target).2 }).1)) := by
  have h2 : (s.m_currentLogFileTime.toString s.m_datePatternString
      == (Zoned.computeRollOverDateTimeHelper s.zone s.m_frequency
            (Zoned.QDateTime.fromMSecsSinceEpoch s.zone now) false).toString
            s.m_datePatternString) = false := h
  unfold Zoned.rollOverCheck
  simp only [zoned_Q_ASSERT_X_eq, Zoned.computeCurrentLogTimeNow, Zoned.currentDateTime,
    Bool.not_not, Zoned.closeFile, Zoned.fileName]
  rw [if_neg (by rw [h2]; decide)]
  by_cases hex : QFile.fileExists s.fs
      (s.m_logFileName ++ s.m_currentLogFileTime.toString s.m_datePatternString) = true
  · simp only [hex, if_true, true_and]
    rcases hrm : QFile.remove s.fs
      (s.m_logFileName ++ s.m_currentLogFileTime.toString s.m_datePatternString) with ⟨ok, fs1⟩
    cases ok
    · have hfs : fs1 = s.fs := by
        have := QFile.remove_of_fail s.fs _ (by rw [hrm])
        rw [hrm] at this
        exact this
      subst hfs
      simp
    · simp only [Bool.true_eq_false, if_false]
      rcases hrn : QFile.rename fs1 s.m_logFileName
        (s.m_logFileName ++ s.m_currentLogFileTime.toString s.m_datePatternString) with ⟨ok2, fs2⟩
      cases ok2
      · have hfs : fs2 = fs1 := by
          have := QFile.rename_of_fail fs1 _ _ (by rw [hrn])
          rw [hrn] at this
          exact this
        subst hfs
        simp
      · simp
  · simp only [hex, Bool.false_eq_true, if_false, false_and]
    rcases hrn : QFile.rename s.fs s.m_logFileName
      (s.m_logFileName ++ s.m_currentLogFileTime.toString s.m_datePatternString) with ⟨ok2, fs2⟩
    cases ok2
    · have hfs : fs2 = s.fs := by
        have := QFile.rename_of_fail s.fs _ _ (by rw [hrn])
        rw [hrn] at this
        exact this
      subst hfs
      simp
    · simp

/-- The exit of `rollOverCheck` when the suffixes of the current period and of `now`
differ. -/
theorem zoned_rollOverExit_roll (now : Int) (s : Zoned.State)
    (h : (s.m_currentLogFileTime.toString s.m_datePatternString
      == (Zoned.computeCurrentLogTimeNow now s).toString s.m_datePatternString) = false) :
    Zoned.rollOverExit now s
      = (if QFile.fileExists s.fs (Zoned.targetFileName s) = true
            ∧ (QFile.remove s.fs (Zoned.targetFileName s)).1 = false then removeFailed
        else if (QFile.rename
            { s.fs with
              entries := s.fs.entries.filter (fun e => e.fileName != Zoned.targetFileName s) }
            s.m_logFileName (Zoned.targetFileName s)).1 = false then renameFailed
        else completed) := by
  by_cases hab : QFile.fileExists s.fs (Zoned.targetFileName s) = true
            ∧ (QFile.remove s.fs (Zoned.targetFileName s)).1 = false
  · rw [if_pos hab]
    unfold Zoned.rollOverExit
    simp only
    rw [if_neg (by rw [h]; decide)]
    simp only [Zoned.targetFileName] at hab
    simp only [hab.1, if_true]
    rcases hrm : QFile.remove s.fs
      (Zoned.fileName s ++ s.m_currentLogFileTime.toString s.m_datePatternString) with ⟨ok, fs1⟩
    rw [hrm] at hab
    cases ok
    · rfl
    · exact absurd hab.2 (by simp)
  · rw [if_neg hab, ← fs_after_remove s.fs (Zoned.targetFileName s) hab]
    unfold Zoned.rollOverExit
    simp only
    rw [if_neg (by rw [h]; decide)]
    simp only [Zoned.targetFileName, Zoned.fileName] at hab ⊢
    by_cases hex : QFile.fileExists s.fs
        (s.m_logFileName ++ s.m_currentLogFileTime.toString s.m_datePatternString) = true
    · simp only [hex, if_true, true_and] at hab ⊢
      rcases hrm : QFile.remove s.fs
        (s.m_logFileName ++ s.m_currentLogFileTime.toString s.m_datePatternString) with ⟨ok, fs1⟩
      rw [hrm] at hab
      cases ok
      · exact absurd rfl hab
      · simp only
        rcases hrn : QFile.rename fs1 s.m_logFileName
          (s.m_logFileName ++ s.m_currentLogFileTime.toString s.m_datePatternString) with ⟨ok2, fs2⟩
        cases ok2 <;> simp
    · simp only [hex, Bool.false_eq_true, if_false]
      rcases hrn : QFile.rename s.fs s.m_logFileName
        (s.m_logFileName ++ s.m_currentLogFileTime.toString s.m_datePatternString) with ⟨ok2, fs2⟩
      cases ok2 <;> simp

/-- The suffixes differ at every exit other than `samePeriod`. -/
theorem zoned_suffix_ne_of_exit (now : Int) (s : Zoned.State)
    (h : Zoned.rollOverExit now s ≠ samePeriod) :
    (s.m_currentLogFileTime.toString s.m_datePatternString
      == (Zoned.computeCurrentLogTimeNow now s).toString s.m_datePatternString) = false := by
  rw [← Bool.not_eq_true]
  intro hc
  apply h
  unfold Zoned.rollOverExit
  simp only
  rw [if_pos hc]

/-- Function `rollOverCheck` at the exit `removeFailed`: a file has the archive path and
cannot be removed; the appender closes the log file and clears the force flag. -/
theorem zoned_rollOverCheck_removeFailed (now : Int) (s : Zoned.State)
    (h : Zoned.rollOverExit now s = removeFailed) :
    Zoned.rollOverCheck now s
      = { s with m_forceRollovercheck := false
                 assertFailed := s.assertFailed || s.m_datePatternString.isEmpty
                 m_logFileOpen := false }
    ∧ QFile.fileExists s.fs (Zoned.targetFileName s) = true
    ∧ (QFile.remove s.fs (Zoned.targetFileName s)).1 = false := by
  have hd := zoned_suffix_ne_of_exit now s (by rw [h]; decide)
  rw [zoned_rollOverExit_roll now s hd] at h
  by_cases hab : QFile.fileExists s.fs (Zoned.targetFileName s) = true
            ∧ (QFile.remove s.fs (Zoned.targetFileName s)).1 = false
  · refine ⟨?_, hab.1, hab.2⟩
    rw [zoned_rollOverCheck_roll now s hd]
    simp only [Zoned.targetFileName, Zoned.fileName] at hab
    simp only
    rw [if_pos hab]
  · rw [if_neg hab] at h
    split at h <;> exact absurd h (by decide)

/-- Function `rollOverCheck` at the exit `renameFailed`: the archive path has been
cleared, the renaming failed; the appender closes the log file and clears the force
flag. -/
theorem zoned_rollOverCheck_renameFailed (now : Int) (s : Zoned.State)
    (h : Zoned.rollOverExit now s = renameFailed) :
    Zoned.rollOverCheck now s
      = { s with m_forceRollovercheck := false
                 assertFailed := s.assertFailed || s.m_datePatternString.isEmpty
                 m_logFileOpen := false
                 fs := { s.fs with
                   entries :=
                     s.fs.entries.filter (fun e => e.fileName != Zoned.targetFileName s) } }
    ∧ (QFile.rename
        { s.fs with
          entries := s.fs.entries.filter (fun e => e.fileName != Zoned.targetFileName s) }
        s.m_logFileName (Zoned.targetFileName s)).1 = false := by
  have hd := zoned_suffix_ne_of_exit now s (by rw [h]; decide)
  rw [zoned_rollOverExit_roll now s hd] at h
  by_cases hab : QFile.fileExists s.fs (Zoned.targetFileName s) = true
            ∧ (QFile.remove s.fs (Zoned.targetFileName s)).1 = false
  · rw [if_pos hab] at h
    exact absurd h (by decide)
  · rw [if_neg hab] at h
    by_cases hrn : (QFile.rename
        { s.fs with
          entries := s.fs.entries.filter (fun e => e.fileName != Zoned.targetFileName s) }
        s.m_logFileName (Zoned.targetFileName s)).1 = false
    · refine ⟨?_, hrn⟩
      rw [zoned_rollOverCheck_roll now s hd]
      have hfs := fs_after_remove s.fs (Zoned.targetFileName s) hab
      simp only [Zoned.targetFileName, Zoned.fileName] at hab hfs hrn ⊢
      rw [if_neg hab, hfs, if_pos hrn]
    · rw [if_neg hrn] at h
      exact absurd h (by decide)

/-- The archive path differs from the base name at every exit other than `samePeriod`
when the start of the current period is a valid date-time: a pattern that formats one
valid date-time to the empty text formats every date-time so. -/
theorem zoned_targetFileName_ne (now : Int) (s : Zoned.State)
    (h : Zoned.rollOverExit now s ≠ samePeriod) (hv : s.m_currentLogFileTime.valid = true) :
    Zoned.targetFileName s ≠ Zoned.fileName s := by
  have hd := zoned_suffix_ne_of_exit now s h
  intro heq
  have hnil : s.m_currentLogFileTime.toString s.m_datePatternString = [] := by
    unfold Zoned.targetFileName at heq
    exact List.append_right_eq_self.1 heq
  have hnil2 : (Zoned.computeCurrentLogTimeNow now s).toString s.m_datePatternString = [] := by
    have hw : CuteLogger.QDateTime.toString ⟨s.m_currentLogFileTime.msecs⟩ s.m_datePatternString
        = [] := by
      unfold Zoned.QDateTime.toString at hnil
      rw [if_pos hv] at hnil
      exact hnil
    unfold Zoned.QDateTime.toString
    by_cases hv2 : (Zoned.computeCurrentLogTimeNow now s).valid = true
    · rw [if_pos hv2]
      exact toString_nil _ _ _ hw
    · rw [if_neg hv2]
  rw [hnil, hnil2] at hd
  exact absurd hd (by decide)

/-! ## C11, C12: aborted rollovers -/

/-- C11, failing input. A daily appender in Cuban time is configured on Sunday 2024-03-10
at 10:00, the day daylight-saving time began at 00:00, and the record `a` is written at
10:05. The start of the current period, midnight of that Sunday, is not a valid
date-time, its suffix is empty and the archive path is the base name `app.log`. At the
write of Monday 00:01 `rollOverCheck` removes the file at the archive path, which is the
log file, the renaming fails and the function returns: no file has the base name, and the
record `a` is in no file. The write that follows creates the log file anew with the
record `b` alone; the schedule is unchanged, so the write after that does the same. -/
theorem C11_rename_failure_deletes_active_file :
    havanaAppender.m_currentLogFileTime = localInstant americaHavana2024 2024 3 10 0 0
    ∧ havanaAppender.m_currentLogFileTime.valid = false
    ∧ havanaAppender.m_currentLogFileTime.toString havanaAppender.m_datePatternString = []
    ∧ Zoned.targetFileName havanaAppender = qs "app.log"
    ∧ QFileInfo.ofName havanaAppender.fs (qs "app.log")
        = some { fileName := qs "app.log", contents := qs "a",
                 lastModified := ⟨(localInstant americaHavana2024 2024 3 10 10 5).epoch⟩ }
    ∧ Zoned.rollOverExit (localInstant americaHavana2024 2024 3 11 0 1).epoch havanaAppender
        = renameFailed
    ∧ QFile.fileExists
        (Zoned.rollOverCheck (localInstant americaHavana2024 2024 3 11 0 1).epoch
          havanaAppender).fs (qs "app.log") = false
    ∧ (Zoned.rollOverCheck (localInstant americaHavana2024 2024 3 11 0 1).epoch
          havanaAppender).fs.entries = []
    ∧ (Zoned.rollOverCheck (localInstant americaHavana2024 2024 3 11 0 1).epoch
          havanaAppender).m_currentLogFileTime = havanaAppender.m_currentLogFileTime
    ∧ (Zoned.rollOverCheck (localInstant americaHavana2024 2024 3 11 0 1).epoch
          havanaAppender).m_rollOverTime = havanaAppender.m_rollOverTime
    ∧ (Zoned.append (localInstant americaHavana2024 2024 3 11 0 1).epoch (qs "b")
          havanaAppender).fs.entries
        = [{ fileName := qs "app.log", contents := qs "b",
             lastModified := ⟨(localInstant americaHavana2024 2024 3 11 0 1).epoch⟩ }]
    ∧ (Zoned.append (localInstant americaHavana2024 2024 3 11 0 2).epoch (qs "c")
          (Zoned.append (localInstant americaHavana2024 2024 3 11 0 1).epoch (qs "b")
            havanaAppender)).fs.entries
        = [{ fileName := qs "app.log", contents := qs "c",
             lastModified := ⟨(localInstant americaHavana2024 2024 3 11 0 2).epoch⟩ }] := by
  decide

/-- C12, counterexample. The daily appender in German time whose log file cannot be
renamed finds, on 2024-03-11, an archive `app.log.2024-03-10` at the archive path: it
removes that archive, then the renaming fails and `rollOverCheck` returns. The archive,
which existed before the call, does not exist after it. -/
theorem C12_counterexample :
    Zoned.rollOverExit (localInstant europeBerlin2024 2024 3 11 0 1).epoch berlinLockedAppender
      = renameFailed
    ∧ Zoned.targetFileName berlinLockedAppender = qs "app.log.2024-03-10"
    ∧ QFileInfo.ofName berlinLockedAppender.fs (qs "app.log.2024-03-10")
        = some { fileName := qs "app.log.2024-03-10", contents := qs "earlier",
                 lastModified := instant 2024 3 10 9 0 }
    ∧ QFile.fileExists
        (Zoned.rollOverCheck (localInstant europeBerlin2024 2024 3 11 0 1).epoch
          berlinLockedAppender).fs (qs "app.log.2024-03-10") = false
    ∧ (Zoned.rollOverCheck (localInstant europeBerlin2024 2024 3 11 0 1).epoch
          berlinLockedAppender).fs.entries
        = [{ fileName := qs "app.log", contents := qs "today",
             lastModified := instant 2024 3 10 18 0 }] := by
  decide

/-- C12, amended. When the start of the current period is a valid date-time and
`rollOverCheck` returns because the removal at the archive path or the renaming failed,
every file that existed before the call, other than a file at the archive path, still
exists with its contents and time stamp, the file at the base name among them, and no
file was added. A file at the archive path is kept when the removal failed (the file
system is unchanged then); once it was removed and the renaming failed no file has the
archive path. -/
theorem C12_aborted_rollover_keeps_other_files (now : Int) (s : Zoned.State)
    (hv : s.m_currentLogFileTime.valid = true)
    (h : Zoned.rollOverExit now s = removeFailed ∨ Zoned.rollOverExit now s = renameFailed) :
    (∀ e ∈ s.fs.entries, e.fileName ≠ Zoned.targetFileName s
        → e ∈ (Zoned.rollOverCheck now s).fs.entries)
    ∧ (∀ e ∈ s.fs.entries, e.fileName = Zoned.fileName s
        → e ∈ (Zoned.rollOverCheck now s).fs.entries)
    ∧ (∀ e ∈ (Zoned.rollOverCheck now s).fs.entries, e ∈ s.fs.entries)
    ∧ (Zoned.rollOverExit now s = removeFailed → (Zoned.rollOverCheck now s).fs = s.fs)
    ∧ (Zoned.rollOverExit now s = renameFailed
        → QFile.fileExists (Zoned.rollOverCheck now s).fs (Zoned.targetFileName s) = false) := by
  have hne : Zoned.targetFileName s ≠ Zoned.fileName s :=
    zoned_targetFileName_ne now s (by rcases h with h | h <;> rw [h] <;> decide) hv
  have hbase : ∀ e ∈ s.fs.entries,
      e.fileName = Zoned.fileName s → e.fileName ≠ Zoned.targetFileName s :=
    fun e _ hn hc => hne (hc.symm.trans hn)
  rcases h with h | h
  · have hr := (zoned_rollOverCheck_removeFailed now s h).1
    rw [hr]
    refine ⟨fun e he _ => he, fun e he _ => he, fun e he => he, fun _ => rfl, ?_⟩
    intro hc
    rw [h] at hc
    exact absurd hc (by decide)
  · have hr := (zoned_rollOverCheck_renameFailed now s h).1
    rw [hr]
    have hkeep : ∀ e ∈ s.fs.entries, e.fileName ≠ Zoned.targetFileName s
        → e ∈ s.fs.entries.filter (fun e => e.fileName != Zoned.targetFileName s) :=
      fun e he hn => List.mem_filter.2 ⟨he, by simpa using hn⟩
    refine ⟨hkeep, fun e he hn => hkeep e he (hbase e he hn),
      fun e he => (List.mem_filter.1 he).1, ?_, ?_⟩
    · intro hc
      rw [h] at hc
      exact absurd hc (by decide)
    · intro _
      rw [Bool.eq_false_iff]
      intro hex
      rw [QFile.fileExists_iff] at hex
      obtain ⟨e, he, hn⟩ := hex
      have := (List.mem_filter.1 he).2
      rw [bne_iff_ne] at this
      exact this hn

/-- Witness of the amended C12: the appender in German time whose log file cannot be
renamed; the start of its current period, 2024-03-10 00:00, is valid, and the log file is
kept. -/
theorem C12_aborted_rollover_keeps_other_files_witness :
    berlinLockedAppender.m_currentLogFileTime.valid = true
    ∧ (Zoned.rollOverExit (localInstant europeBerlin2024 2024 3 11 0 1).epoch berlinLockedAppender
        = removeFailed
      ∨ Zoned.rollOverExit (localInstant europeBerlin2024 2024 3 11 0 1).epoch
          berlinLockedAppender = renameFailed)
    ∧ ∀ e ∈ berlinLockedAppender.fs.entries, e.fileName = Zoned.fileName berlinLockedAppender
        → e ∈ (Zoned.rollOverCheck (localInstant europeBerlin2024 2024 3 11 0 1).epoch
            berlinLockedAppender).fs.entries :=
  ⟨by decide, Or.inr (by decide),
    (C12_aborted_rollover_keeps_other_files (localInstant europeBerlin2024 2024 3 11 0 1).epoch
      berlinLockedAppender (by decide) (Or.inr (by decide))).2.1⟩

end CuteLogger
